import Mathlib

/-!
Verification development for the Smogon usage-statistics core:
entry splitter, entry parser, profile repository, and the synergy /
threat / coverage / report analysis engines.

The TypeScript source is shallowly embedded: JS strings are Lean
`String`s manipulated through their character lists, JS numbers
(IEEE doubles holding parsed percentages and scores) are modelled as
exact rationals `ℚ`, integer counts parsed with `parseInt` are `ℕ`,
JS `Map`s are insertion-ordered association lists, JS exceptions are
`Except Unit`, and the one file read (`readFileSync`) is a parameter
`FileSystem : String → Option String` (`none` = unreadable file, i.e.
a thrown error).  `Array.prototype.sort` (stable in JS) is modelled by
a stable insertion sort on the comparator's "may precede" relation.
-/

namespace Smogon

/-! ## JS string primitives (over `List Char`) -/

/-- Whitespace class of the regexes' `\s` (ASCII part; the inputs in
this development only ever contain spaces). -/
def wsCh (c : Char) : Bool :=
  c = ' ' ∨ c = '\t' ∨ c = '\n' ∨ c = '\r' ∨ c = '\x0b' ∨ c = '\x0c'

/-- Character class of the regexes' `\w`. -/
def wordCh (c : Char) : Bool :=
  ('a' ≤ c ∧ c ≤ 'z') ∨ ('A' ≤ c ∧ c ≤ 'Z') ∨ ('0' ≤ c ∧ c ≤ '9') ∨ c = '_'

/-- Digit class of the regexes' `\d`. -/
def digitCh (c : Char) : Bool := '0' ≤ c ∧ c ≤ '9'

/-- Character class of the regexes' `[\d.]`. -/
def numCh (c : Char) : Bool := digitCh c ∨ c = '.'

/-- ASCII lower-casing of one character, as `String.prototype.toLowerCase`
acts on the ASCII range. -/
def toLowerCh (c : Char) : Char :=
  if 'A' ≤ c ∧ c ≤ 'Z' then Char.ofNat (c.toNat + 32) else c

/-- Model of `String.prototype.toLowerCase` (ASCII). -/
def jsToLower (s : String) : String := String.mk (s.data.map toLowerCh)

/-- Model of `String.prototype.trim`. -/
def trimCh (l : List Char) : List Char :=
  ((l.dropWhile wsCh).reverse.dropWhile wsCh).reverse

/-- Model of `String.prototype.trim`. -/
def jsTrim (s : String) : String := String.mk (trimCh s.data)

/-- Model of `String.prototype.split(sep)` for a one-character separator
(on character lists); `""` splits to `[""]`, a trailing separator yields a
trailing `""`, exactly as in JS. -/
def splitCh (sep : Char) : List Char → List (List Char)
  | [] => [[]]
  | c :: rest =>
    match splitCh sep rest with
    | [] => if c = sep then [[], []] else [[c]]
    | h :: t => if c = sep then [] :: h :: t else (c :: h) :: t

/-- Model of `String.prototype.split(sep)` returning strings. -/
def jsSplit (sep : Char) (s : String) : List String :=
  (splitCh sep s.data).map String.mk

/-- Model of `Array.prototype.join(sep)` for a one-character separator. -/
def joinCh (sep : Char) : List (List Char) → List Char
  | [] => []
  | [l] => l
  | l :: rest => l ++ sep :: joinCh sep rest

/-- Model of `lines.join('\n')`. -/
def jsJoin (sep : Char) (ls : List String) : String :=
  String.mk (joinCh sep (ls.map String.data))

/-- Does the character list contain the pattern as a contiguous
subsequence?  Model of `String.prototype.includes`. -/
def containsSeq (pat : List Char) : List Char → Bool
  | [] => pat.isEmpty
  | c :: rest => pat.isPrefixOf (c :: rest) || containsSeq pat rest

/-- Model of `haystack.includes(needle)`. -/
def jsIncludes (s pat : String) : Bool := containsSeq pat.data s.data

/-- Model of `s.startsWith(p)`. -/
def jsStartsWith (s pat : String) : Bool := pat.data.isPrefixOf s.data

/-! ## JS number parsing -/

/-- Numeric value of a list of decimal digit characters (the value
`parseInt(digits, 10)` computes on an all-digit string). -/
def charsToNat (l : List Char) : ℕ :=
  l.foldl (fun a c => 10 * a + (c.toNat - 48)) 0

/-- Value of `parseFloat` on a capture of the regex class `[\d.]+`:
integer part, then an optional dot and fractional digits.  Everything
from a second dot on is ignored by `parseFloat`, and a capture with no
leading digits and no digits after a leading dot is `NaN`, modelled as
`none`. -/
def parseFloatCapture (l : List Char) : Option ℚ :=
  let intPart := l.takeWhile digitCh
  let rest := l.drop intPart.length
  match rest with
  | '.' :: frac =>
    let fracDigits := frac.takeWhile digitCh
    if intPart.isEmpty ∧ fracDigits.isEmpty then none
    else some ((charsToNat intPart : ℚ) +
      (charsToNat fracDigits : ℚ) / (10 : ℚ) ^ fracDigits.length)
  | _ => if intPart.isEmpty then none else some (charsToNat intPart : ℚ)

/-- Total variant of `parseFloatCapture` used where the source code
stores the parsed number without a guard; the `NaN` case (unreachable
for every input considered in this development) is mapped to `0`. -/
def parseFloatTotal (l : List Char) : ℚ := (parseFloatCapture l).getD 0

/-! ## Regex matchers

Each regex of the source is embedded as a dedicated matcher with the
backtracking semantics of JS regexes: leftmost match wins; `\s+` and
`+` classes are greedy, `(.+?)` is lazy (shortest first).  For the
patterns at hand the greedy classes admit exactly one viable length
(a class character never equals the character that must follow the
class), so only the lazy group genuinely backtracks. -/

/-- After a lazy group, test `\s+\|`: at least one whitespace character
and then a vertical bar. -/
def barTail (l : List Char) : Bool :=
  match l with
  | [] => false
  | c :: _ => wsCh c && ((l.dropWhile wsCh).head? == some '|')

/-- After a lazy group, match `\s+([\d.]+)%`, returning the numeric
capture. -/
def pctTail (l : List Char) : Option (List Char) :=
  match l with
  | [] => none
  | c :: _ =>
    if wsCh c then
      let rest := l.dropWhile wsCh
      let num := rest.takeWhile numCh
      if num.isEmpty = false ∧ (rest.drop num.length).head? = some '%' then
        some num
      else none
    else none

/-- After a lazy group, match `\s+([\d.]+)\s+\(([\d.]+)±([\d.]+)\)`,
returning the three numeric captures (checks-and-counters row). -/
def ccTail (l : List Char) : Option (List Char × List Char × List Char) :=
  match l with
  | [] => none
  | c :: _ =>
    if wsCh c then
      let r1 := l.dropWhile wsCh
      let score := r1.takeWhile numCh
      if score.isEmpty then none else
      let r2 := r1.drop score.length
      match r2 with
      | c2 :: _ =>
        if wsCh c2 then
          let r3 := r2.dropWhile wsCh
          match r3 with
          | '(' :: r4 =>
            let m1 := r4.takeWhile numCh
            if m1.isEmpty then none else
            match r4.drop m1.length with
            | '±' :: r5 =>
              let m2 := r5.takeWhile numCh
              if m2.isEmpty then none else
              match r5.drop m2.length with
              | ')' :: _ => some (score, m1, m2)
              | _ => none
            | _ => none
          | _ => none
        else none
      | [] => none
    else none

/-- Lazy-group scanner: after a `\|` and the mandatory `\s+`, find the
shortest nonempty `(.+?)` group (dot matches anything except a line
terminator) whose tail satisfies `check`; `β` carries the tail's own
captures. -/
def lazyGroup (check : List Char → Option β) : List Char → Option (List Char × β)
  | [] => none
  | c :: rest =>
    if c = '\n' ∨ c = '\r' then none
    else
      match check rest with
      | some b => some ([c], b)
      | none => (lazyGroup check rest).map (fun p => (c :: p.1, p.2))

/-- Greedy `\s+` with backtracking before a lazy group: try the longest
whitespace run first, then shorter ones. -/
def wsThenLazy (check : List Char → Option β) (l : List Char) : Option (List Char × β) :=
  go (l.takeWhile wsCh).length
where
  go : ℕ → Option (List Char × β)
    | 0 => none
    | k + 1 => lazyGroup check (l.drop (k + 1)) <|> go k

/-- Scan for the leftmost position where `\|\s+(.+?)…` matches, the tail
after the group being given by `check`. -/
def barLazyScan (check : List Char → Option β) : List Char → Option (List Char × β)
  | [] => none
  | c :: rest =>
    (if c = '|' then wsThenLazy check rest else none) <|> barLazyScan check rest

/-- Model of `line.match(/\|\s+(.+?)\s+\|/)`, returning capture 1.
Used for the Pokemon name row and section header rows. -/
def barContent (line : String) : Option String :=
  (barLazyScan (fun l => if barTail l then some () else none) line.data).map
    (fun p => String.mk p.1)

/-- Model of `line.match(/\|\s+(.+?)\s+([\d.]+)%/)`, returning captures
1 and 2. -/
def pctMatch (line : String) : Option (String × List Char) :=
  (barLazyScan pctTail line.data).map (fun p => (String.mk p.1, p.2))

/-- Model of `line.match(/\|\s+(.+?)\s+([\d.]+)\s+\(([\d.]+)±([\d.]+)\)/)`. -/
def ccMatch (line : String) :
    Option (String × List Char × List Char × List Char) :=
  (barLazyScan ccTail line.data).map (fun p => (String.mk p.1, p.2))

/-- Literal-prefix search helper: leftmost position where `lit` occurs
and `after` accepts the remainder of the line past the literal. -/
def litScan (lit : List Char) (after : List Char → Option β) : List Char → Option β
  | [] => if lit.isEmpty then after [] else none
  | c :: rest =>
    (if lit.isPrefixOf (c :: rest) then after ((c :: rest).drop lit.length) else none)
      <|> litScan lit after rest

/-- Model of `line.match(/Raw count:\s*(\d+)/)`, returning the parsed
integer capture. -/
def rawCountMatch (line : String) : Option ℕ :=
  litScan "Raw count:".data
    (fun l =>
      let d := (l.dropWhile wsCh).takeWhile digitCh
      if d.isEmpty then none else some (charsToNat d))
    line.data

/-- Model of `line.match(/Avg\.\s*weight:\s*([\d.]+)/)`, returning the
raw numeric capture. -/
def avgWeightMatch (line : String) : Option (List Char) :=
  litScan "Avg.".data
    (fun l =>
      let r := l.dropWhile wsCh
      if "weight:".data.isPrefixOf r then
        let d := ((r.drop 7).dropWhile wsCh).takeWhile numCh
        if d.isEmpty then none else some d
      else none)
    line.data

/-- Model of `line.match(/Viability Ceiling:\s*(\d+)/)`. -/
def viabilityMatch (line : String) : Option ℕ :=
  litScan "Viability Ceiling:".data
    (fun l =>
      let d := (l.dropWhile wsCh).takeWhile digitCh
      if d.isEmpty then none else some (charsToNat d))
    line.data

/-- Model of `moveName.match(/Hidden Power \[?(\w+)\]?/)`, returning
capture 1: after the literal `"Hidden Power "`, an optional opening
bracket, then one or more word characters (greedy). -/
def hiddenPowerMatch (s : String) : Option String :=
  (litScan "Hidden Power ".data
    (fun l =>
      let r := match l with | '[' :: r => r | r => r
      let w := r.takeWhile wordCh
      if w.isEmpty then none else some w)
    s.data).map String.mk

/-- Model of `line.match(/\(([\d.]+)\s+KOed\s+\/\s+([\d.]+)\s+switched\s+out\)/)`,
returning captures 1 and 2 (the KO / switched-out detail row). -/
def koDetailMatch (line : String) : Option (List Char × List Char) :=
  litScan ['(']
    (fun l =>
      let ko := l.takeWhile numCh
      if ko.isEmpty then none else
      let r1 := l.drop ko.length
      if (r1.takeWhile wsCh).isEmpty then none else
      let r2 := r1.dropWhile wsCh
      if "KOed".data.isPrefixOf r2 then
        let r3 := r2.drop 4
        if (r3.takeWhile wsCh).isEmpty then none else
        let r4 := r3.dropWhile wsCh
        match r4 with
        | '/' :: r5 =>
          if (r5.takeWhile wsCh).isEmpty then none else
          let r6 := r5.dropWhile wsCh
          let sw := r6.takeWhile numCh
          if sw.isEmpty then none else
          let r7 := r6.drop sw.length
          if (r7.takeWhile wsCh).isEmpty then none else
          let r8 := r7.dropWhile wsCh
          if "switched".data.isPrefixOf r8 then
            let r9 := r8.drop 8
            if (r9.takeWhile wsCh).isEmpty then none else
            let r10 := r9.dropWhile wsCh
            if "out)".data.isPrefixOf r10 then some (ko, sw) else none
          else none
        | _ => none
      else none)
    line.data

/-- Model of the spreads row regex
`/\|\s+([^:]+):(\d+)\/(\d+)\/(\d+)\/(\d+)\/(\d+)\/(\d+)\s+([\d.]+)%/`:
after a bar, greedy whitespace (with backtracking into `[^:]+`, which
can absorb shorter whitespace runs), the label up to the first colon,
six slash-separated integer runs, whitespace, and a percentage. -/
def spreadTail (l : List Char) : Option (List Char × (List ℕ × ℚ)) :=
  goWs (l.takeWhile wsCh).length
where
  d6 (label : List Char) (l : List Char) (k : ℕ) (acc : List ℕ) :
      Option (List Char × (List ℕ × ℚ)) :=
    let d := l.takeWhile digitCh
    if d.isEmpty then none else
    let r := l.drop d.length
    match k with
    | 0 =>
      match r with
      | c :: _ =>
        if wsCh c then
          let r2 := r.dropWhile wsCh
          let p := r2.takeWhile numCh
          if p.isEmpty = false ∧ (r2.drop p.length).head? = some '%' then
            some (label, (acc ++ [charsToNat d], parseFloatTotal p))
          else none
        else none
      | [] => none
    | k + 1 =>
      match r with
      | '/' :: r2 => d6 label r2 k (acc ++ [charsToNat d])
      | _ => none
  atWs (l : List Char) : Option (List Char × (List ℕ × ℚ)) :=
    let label := l.takeWhile (fun c => c ≠ ':')
    if label.isEmpty then none else
    match l.drop label.length with
    | ':' :: r => d6 label r 5 []
    | _ => none
  goWs : ℕ → Option (List Char × (List ℕ × ℚ))
    | 0 => none
    | k + 1 => atWs (l.drop (k + 1)) <|> goWs k

/-- Model of the full spreads row match: leftmost bar followed by
`spreadTail`. -/
def spreadMatch (line : String) : Option (List Char × (List ℕ × ℚ)) :=
  go line.data
where
  go : List Char → Option (List Char × (List ℕ × ℚ))
    | [] => none
    | c :: rest => (if c = '|' then spreadTail rest else none) <|> go rest

end Smogon

namespace Smogon

/-! ## Data model

JS `Map`s are insertion-ordered association lists: `set` replaces the
value in place for an existing key and appends a fresh key at the end;
iteration follows the list order, exactly as JS `Map` iteration follows
insertion order. -/

/-- Model of `Map.prototype.get`. -/
def mget (k : String) : List (String × β) → Option β
  | [] => none
  | (k₁, v) :: t => if k₁ = k then some v else mget k t

/-- Model of `Map.prototype.set`. -/
def mset (k : String) (v : β) : List (String × β) → List (String × β)
  | [] => [(k, v)]
  | (k₁, v₁) :: t => if k₁ = k then (k, v) :: t else (k₁, v₁) :: mset k v t

/-- Model of `Map.prototype.has`. -/
def mhas (k : String) (m : List (String × β)) : Bool := (mget k m).isSome

/-- Model of `Array.from(map.values())`. -/
def mvalues (m : List (String × β)) : List β := m.map Prod.snd

/-- Model of `Array.from(map.keys())`. -/
def mkeys (m : List (String × β)) : List String := m.map Prod.fst

/-- Model of `Set.prototype.add` on an insertion-ordered set. -/
def setAdd (l : List String) (x : String) : List String :=
  if x ∈ l then l else l ++ [x]

/-- One row of the Spreads section (`StatSpread` in the source; the
`def` stat is named `dfn` because `def` is reserved in Lean). -/
structure StatSpread where
  nature : String
  hp : ℕ
  atk : ℕ
  dfn : ℕ
  spa : ℕ
  spd : ℕ
  spe : ℕ
  percentage : ℚ
deriving DecidableEq, Inhabited

/-- One row of the Checks and Counters section (`CheckCounter`). -/
structure CheckCounter where
  name : String
  score : ℚ
  matchupPercent : ℚ
  confidenceMargin : ℚ
  koPercent : ℚ
  switchPercent : ℚ
deriving DecidableEq, Inhabited

/-- Parsed per-Pokemon usage statistics (`PokemonUsageData`). -/
structure PokemonUsageData where
  name : String
  rawCount : ℕ
  avgWeight : ℚ
  viabilityCeiling : ℕ
  abilities : List (String × ℚ)
  items : List (String × ℚ)
  spreads : List StatSpread
  moves : List (String × ℚ)
  teraTypes : List (String × ℚ)
  teammates : List (String × ℚ)
  checksAndCounters : List CheckCounter
deriving DecidableEq, Inhabited

/-- A format's parsed data: lowercased name → profile (`Map<string,
PokemonUsageData>`). -/
abbrev ProfileMap := List (String × PokemonUsageData)

/-- Parse options (`ParseOptions`); `none` models an absent (`undefined`)
field. -/
structure ParseOptions where
  minMovePercentage : Option ℚ := none
  includeSpreads : Option Bool := none
  includeChecksAndCounters : Option Bool := none
deriving DecidableEq, Inhabited

/-! ## Entry splitter (`splitIntoEntries`) -/

/-- Keep the last three lines seen, for the `lines[max(0, i-3) .. i]`
slice taken when a marker line starts a new entry. -/
def push3 (buf : List String) (line : String) : List String :=
  let b := buf ++ [line]
  if 3 < b.length then b.tail else b

/-- Loop of `splitIntoEntries`: `prev3` holds the up-to-three lines
preceding the current one, `cur` the entry being accumulated, `acc`
the completed entries. -/
def splitGo : List String → List String → List String → List String → List String
  | [], _, cur, acc => acc ++ (if cur.isEmpty then [] else [jsJoin '\n' cur])
  | line :: rest, prev3, cur, acc =>
    if jsIncludes line "Raw count:" then
      splitGo rest (push3 prev3 line) (prev3 ++ [line])
        (acc ++ (if cur.isEmpty then [] else [jsJoin '\n' cur]))
    else
      splitGo rest (push3 prev3 line) (if cur.isEmpty then cur else cur ++ [line]) acc

/-- Model of `splitIntoEntries`: cut the file text into one substring
per `"Raw count:"` marker line, each entry starting three lines before
its marker. -/
def splitIntoEntries (content : String) : List String :=
  splitGo (jsSplit '\n' content) [] [] []

/-! ## Entry parser -/

/-- Model of `parseMetadata`: scan the given window of lines for the
raw-count, average-weight and viability-ceiling patterns, later matches
overwriting earlier ones. -/
def parseMetadata (lines : List String) (d : PokemonUsageData) : PokemonUsageData :=
  lines.foldl
    (fun d line =>
      let d := match rawCountMatch line with
        | some n => { d with rawCount := n }
        | none => d
      let d := match avgWeightMatch line with
        | some cap => { d with avgWeight := parseFloatTotal cap }
        | none => d
      match viabilityMatch line with
        | some n => { d with viabilityCeiling := n }
        | none => d)
    d

/-- One line of the `parseMetadata` scan, as a named step function. -/
def metaStep (d : PokemonUsageData) (line : String) : PokemonUsageData :=
  let d := match rawCountMatch line with
    | some n => { d with rawCount := n }
    | none => d
  let d := match avgWeightMatch line with
    | some cap => { d with avgWeight := parseFloatTotal cap }
    | none => d
  match viabilityMatch line with
    | some n => { d with viabilityCeiling := n }
    | none => d

/-- Model of `parsePercentageMap`: each content row matching the
label-percentage pattern stores the normalized label when the value
reaches `minPercentage` (a `NaN` value, `none` here, never passes the
`>=` test, exactly as in JS). -/
def parsePercentageMap (lines : List String) (minPercentage : ℚ)
    (targetMap : List (String × ℚ)) : List (String × ℚ) :=
  lines.foldl
    (fun m line =>
      match pctMatch line with
      | some (g1, cap) =>
        match parseFloatCapture cap with
        | some v => if minPercentage ≤ v then mset (jsToLower (jsTrim g1)) v m else m
        | none => m
      | none => m)
    targetMap

/-- Model of `parseSpreads`. -/
def parseSpreads (lines : List String) (d : PokemonUsageData) : PokemonUsageData :=
  lines.foldl
    (fun d line =>
      match spreadMatch line with
      | some (label, [a, b, c, e, f, g], pct) =>
        { d with spreads := d.spreads ++
            [{ nature := jsTrim (String.mk label), hp := a, atk := b, dfn := c,
               spa := e, spd := f, spe := g, percentage := pct }] }
      | _ => d)
    d

/-- Model of `parseChecksAndCounters`, consuming an optional KO/switch
detail row after each counter row. -/
def parseCC : List String → PokemonUsageData → PokemonUsageData
  | [], d => d
  | [line], d =>
    match ccMatch line with
    | none => d
    | some (g1, score, mp, cm) =>
      { d with checksAndCounters := d.checksAndCounters ++
          [{ name := jsToLower (jsTrim g1), score := parseFloatTotal score,
             matchupPercent := parseFloatTotal mp,
             confidenceMargin := parseFloatTotal cm,
             koPercent := 0, switchPercent := 0 }] }
  | line :: next :: rest2, d =>
    match ccMatch line with
    | none => parseCC (next :: rest2) d
    | some (g1, score, mp, cm) =>
      let name := jsToLower (jsTrim g1)
      match koDetailMatch next with
      | some (ko, sw) =>
        parseCC rest2
          { d with checksAndCounters := d.checksAndCounters ++
              [{ name := name, score := parseFloatTotal score,
                 matchupPercent := parseFloatTotal mp,
                 confidenceMargin := parseFloatTotal cm,
                 koPercent := parseFloatTotal ko,
                 switchPercent := parseFloatTotal sw }] }
      | none =>
        parseCC (next :: rest2)
          { d with checksAndCounters := d.checksAndCounters ++
              [{ name := name, score := parseFloatTotal score,
                 matchupPercent := parseFloatTotal mp,
                 confidenceMargin := parseFloatTotal cm,
                 koPercent := 0, switchPercent := 0 }] }

/-- Model of `parseSection`: dispatch on the lowercased section name. -/
def parseSection (sectionName : String) (lines : List String)
    (d : PokemonUsageData) (options : ParseOptions) : PokemonUsageData :=
  let lowerSection := jsToLower sectionName
  if lowerSection = "abilities" then
    { d with abilities := parsePercentageMap lines 0 d.abilities }
  else if lowerSection = "items" then
    { d with items := parsePercentageMap lines 0 d.items }
  else if lowerSection = "spreads" ∧ options.includeSpreads ≠ some false then
    parseSpreads lines d
  else if lowerSection = "moves" then
    { d with moves := parsePercentageMap lines (options.minMovePercentage.getD 0) d.moves }
  else if lowerSection = "tera types" then
    { d with teraTypes := parsePercentageMap lines 0 d.teraTypes }
  else if lowerSection = "teammates" then
    { d with teammates := parsePercentageMap lines 0 d.teammates }
  else if lowerSection = "checks and counters" ∧
      options.includeChecksAndCounters ≠ some false then
    parseCC lines d
  else d

/-- Section-walking loop of `parsePokemonEntry`: on a divider row the
accumulated section is processed and the next row is examined as a
section header (consumed if it matches the bar pattern, accepted unless
it looks like metadata); otherwise content rows starting with `" |"`
are accumulated while inside a section. -/
def parseEntryGo (options : ParseOptions) :
    List String → String → List String → Bool → PokemonUsageData → PokemonUsageData
  | [], cur, content, _, d =>
    if cur ≠ "" ∧ content ≠ [] then parseSection cur content d options else d
  | [line], cur, content, inSec, d =>
    if jsIncludes line "+---" then
      if cur ≠ "" ∧ content ≠ [] then parseSection cur content d options else d
    else
      let content := if inSec ∧ jsStartsWith line " |" then content ++ [line] else content
      if cur ≠ "" ∧ content ≠ [] then parseSection cur content d options else d
  | line :: next :: rest2, cur, content, inSec, d =>
    if jsIncludes line "+---" then
      let d := if cur ≠ "" ∧ content ≠ [] then parseSection cur content d options else d
      match barContent next with
      | some g =>
        let sectionName := jsTrim g
        if ¬(jsIncludes sectionName "Raw count" ∨ jsIncludes sectionName "Avg" ∨
            jsIncludes sectionName "Viability") then
          parseEntryGo options rest2 sectionName [] true d
        else
          parseEntryGo options rest2 cur [] false d
      | none => parseEntryGo options (next :: rest2) cur [] false d
    else
      if inSec ∧ jsStartsWith line " |" then
        parseEntryGo options (next :: rest2) cur (content ++ [line]) inSec d
      else
        parseEntryGo options (next :: rest2) cur content inSec d

/-- Model of `parsePokemonEntry`: extract the name from the second line,
scan the metadata window (`lines.slice(3, 8)`), then walk the sections
from the second line on.  `none` is the source's `null` (no name
match). -/
def parsePokemonEntry (entryText : String) (options : ParseOptions) :
    Option PokemonUsageData :=
  let lines := jsSplit '\n' entryText
  match (lines.get? 1).bind barContent with
  | none => none
  | some g =>
    let name := jsTrim g
    let d : PokemonUsageData :=
      { name := name, rawCount := 0, avgWeight := 0, viabilityCeiling := 0,
        abilities := [], items := [], spreads := [], moves := [],
        teraTypes := [], teammates := [], checksAndCounters := [] }
    let d := parseMetadata ((lines.drop 3).take 5) d
    some (parseEntryGo options (lines.drop 1) "" [] false d)

/-- Model of the parsing stage of `parseUsageFile` on already-read file
content: split into entries, parse each, store under the lowercased
name.  A per-entry parse failure is caught and the entry skipped (the
embedding is total, so only the `null` outcome arises). -/
def parseUsageContent (content : String) (options : ParseOptions) : ProfileMap :=
  (splitIntoEntries content).foldl
    (fun result entry =>
      match parsePokemonEntry entry options with
      | some pokemon => mset (jsToLower pokemon.name) pokemon result
      | none => result)
    []

end Smogon

namespace Smogon

/-! ## Stable sort

`Array.prototype.sort(cmp)` is stable in JS.  It is modelled by a stable
insertion sort over the Boolean relation `le a b` ("`a` may precede
`b`", i.e. `cmp(a, b) ≤ 0`): a later element is inserted after every
earlier element it may follow, which both sorts by the comparator and
preserves the original order of comparator-equal elements. -/

/-- Insert `x` (an element earlier in the input than everything in the
list) before the first `y` it may precede. -/
def insertB (le : α → α → Bool) (x : α) : List α → List α
  | [] => [x]
  | y :: t => if le x y then x :: y :: t else y :: insertB le x t

/-- Stable sort by the comparator relation `le`. -/
def sortB (le : α → α → Bool) : List α → List α
  | [] => []
  | x :: t => insertB le x (sortB le t)

/-! ## Synergy engine (`team-synergy.ts`) -/

/-- One scored pair of `calculateTeamSynergy`. -/
structure SynergyPair where
  pokemon1 : String
  pokemon2 : String
  score : ℚ
deriving DecidableEq, Inhabited

/-- Suggested teammate with accumulated synergy score. -/
structure NameScore where
  name : String
  score : ℚ
deriving DecidableEq, Inhabited

/-- Result of `calculateTeamSynergy`. -/
structure TeamSynergyAnalysis where
  score : ℚ
  strongPairs : List SynergyPair
  weakPairs : List SynergyPair
  suggestedTeammates : List NameScore
deriving DecidableEq, Inhabited

/-- Model of `suggestTeammates`: accumulate each non-team candidate's
teammate percentages across the team, divide by the team size, sort
descending and truncate. -/
def suggestTeammates (currentTeam : List String) (usageData : ProfileMap)
    (limit : ℕ) : List NameScore :=
  let normalizedTeam := currentTeam.map jsToLower
  let candidateScores := normalizedTeam.foldl
    (fun cs teamMember =>
      match mget teamMember usageData with
      | none => cs
      | some data =>
        data.teammates.foldl
          (fun cs tp =>
            let normalizedTeammate := jsToLower tp.1
            if normalizedTeammate ∈ normalizedTeam then cs
            else mset normalizedTeammate ((mget normalizedTeammate cs).getD 0 + tp.2) cs)
          cs)
    []
  let candidates := candidateScores.map
    (fun p => NameScore.mk p.1 (p.2 / (normalizedTeam.length : ℚ)))
  (sortB (fun a b => decide (b.score ≤ a.score)) candidates).take limit

/-- Accumulator of the pairwise loop of `calculateTeamSynergy`. -/
structure SynAcc where
  strong : List SynergyPair
  weak : List SynergyPair
  pairScores : List (String × ℚ)
deriving Inhabited

/-- Inner loop of `calculateTeamSynergy` over the members after `p1`. -/
def synInner (usageData : ProfileMap) (p1 : String) (data1 : PokemonUsageData)
    (rest : List String) (acc : SynAcc) : SynAcc :=
  rest.foldl
    (fun acc p2 =>
      match mget p2 usageData with
      | none => acc
      | some data2 =>
        let synergy1to2 := (mget p2 data1.teammates).getD 0
        let synergy2to1 := (mget p1 data2.teammates).getD 0
        let avgSynergy := (synergy1to2 + synergy2to1) / 2
        let pairKey := p1 ++ "|" ++ p2
        let pair : SynergyPair := ⟨p1, p2, avgSynergy⟩
        { strong := if 30 ≤ avgSynergy then acc.strong ++ [pair] else acc.strong
          weak := if 30 ≤ avgSynergy then acc.weak
                  else if avgSynergy < 15 then acc.weak ++ [pair] else acc.weak
          pairScores := mset pairKey avgSynergy acc.pairScores })
    acc

/-- Outer pairwise loop of `calculateTeamSynergy`. -/
def synPairsGo (usageData : ProfileMap) : List String → SynAcc → SynAcc
  | [], acc => acc
  | p1 :: rest, acc =>
    let acc :=
      match mget p1 usageData with
      | none => acc
      | some data1 => synInner usageData p1 data1 rest acc
    synPairsGo usageData rest acc

/-- Model of `calculateTeamSynergy`. -/
def calculateTeamSynergy (team : List String) (usageData : ProfileMap) :
    TeamSynergyAnalysis :=
  let normalizedTeam := team.map jsToLower
  let acc := synPairsGo usageData normalizedTeam ⟨[], [], []⟩
  let strongPairs := sortB (fun a b => decide (b.score ≤ a.score)) acc.strong
  let weakPairs := sortB (fun a b => decide (a.score ≤ b.score)) acc.weak
  let allScores := mvalues acc.pairScores
  let avgScore :=
    if 0 < allScores.length then allScores.sum / (allScores.length : ℚ) else 0
  let overallScore := min 100 (avgScore * 2)
  { score := overallScore, strongPairs := strongPairs, weakPairs := weakPairs,
    suggestedTeammates := suggestTeammates normalizedTeam usageData 10 }

/-- Result of `analyzeTeamComposition`. -/
structure TeamComposition where
  avgUsage : ℚ
  avgViability : ℚ
  topTier : List String
  offMeta : List String
  metaScore : ℚ
deriving DecidableEq, Inhabited

/-- One team member's step of `analyzeTeamComposition`'s accumulation
loop (state: total usage, total viability, valid count, top-tier picks,
off-meta picks). -/
def compStep (usageData : ProfileMap) (allPokemon : List PokemonUsageData)
    (st : ℚ × ℚ × ℕ × List String × List String) (pokemonName : String) :
    ℚ × ℚ × ℕ × List String × List String :=
  match mget pokemonName usageData with
  | none => st
  | some data =>
    let rank : ℚ :=
      match allPokemon.findIdx? (fun p => jsToLower p.name = pokemonName) with
      | some i => ((i : ℚ) + 1)
      | none => 0
    let percentile := (1 - rank / (allPokemon.length : ℚ)) * 100
    let tt := if 90 ≤ percentile then st.2.2.2.1 ++ [pokemonName] else st.2.2.2.1
    let om := if ¬ 90 ≤ percentile ∧ percentile < 50 then st.2.2.2.2 ++ [pokemonName]
              else st.2.2.2.2
    (st.1 + data.rawCount, st.2.1 + data.viabilityCeiling, st.2.2.1 + 1, tt, om)

/-- The meta score of `analyzeTeamComposition` as a function of the
accumulated totals: 60% usage share (relative to the most-used
Pokemon), 40% viability, both clamped at 100. -/
def metaScoreOf (totalUsage totalViability : ℚ) (validCount : ℕ)
    (allPokemon : List PokemonUsageData) : ℚ :=
  let avgUsage := if 0 < validCount then totalUsage / (validCount : ℚ) else 0
  let avgViability := if 0 < validCount then totalViability / (validCount : ℚ) else 0
  let usageDenom : ℚ :=
    match allPokemon.head? with
    | some p => if p.rawCount = 0 then 1 else (p.rawCount : ℚ)
    | none => 1
  let usageScore := min 100 (avgUsage / usageDenom * 100)
  let viabilityScore := min 100 (avgViability / 20)
  usageScore * 0.6 + viabilityScore * 0.4

/-- Model of `analyzeTeamComposition`. -/
def analyzeTeamComposition (team : List String) (usageData : ProfileMap) :
    TeamComposition :=
  let normalizedTeam := team.map jsToLower
  let allPokemon := sortB (fun a b => decide (b.rawCount ≤ a.rawCount)) (mvalues usageData)
  let st := normalizedTeam.foldl (compStep usageData allPokemon) (0, 0, 0, [], [])
  let avgUsage := if 0 < st.2.2.1 then st.1 / (st.2.2.1 : ℚ) else 0
  let avgViability := if 0 < st.2.2.1 then st.2.1 / (st.2.2.1 : ℚ) else 0
  { avgUsage := avgUsage, avgViability := avgViability, topTier := st.2.2.2.1,
    offMeta := st.2.2.2.2, metaScore := metaScoreOf st.1 st.2.1 st.2.2.1 allPokemon }

/-! ## Threat / counter engine (`counter-analysis.ts`) -/

/-- Aggregate record per threatening Pokemon: the members it threatens
(an insertion-ordered set) and every counter score recorded against
them. -/
structure ThreatAcc where
  threatens : List String
  scores : List ℚ
deriving DecidableEq, Inhabited

/-- One blind-spot entry. -/
structure BlindSpot where
  pokemon : String
  threatens : List String
  avgScore : ℚ
deriving DecidableEq, Inhabited

/-- Name/score pair used in threat assessments. -/
structure ThreatEntry where
  name : String
  score : ℚ
deriving DecidableEq, Inhabited

/-- Name/score pair with the source's `pokemon` field name. -/
structure PokemonScore where
  pokemon : String
  score : ℚ
deriving DecidableEq, Inhabited

/-- One major-threat assessment (`ThreatAssessment`). -/
structure ThreatAssessment where
  pokemon : String
  threatScore : ℚ
  threatens : List ThreatEntry
  threatenedBy : List ThreatEntry
deriving DecidableEq, Inhabited

/-- Result of `analyzeTeamWeaknesses` (`WeaknessReport`). -/
structure WeaknessReport where
  blindSpots : List BlindSpot
  defensiveScore : ℚ
  majorThreats : List ThreatAssessment
  suggestions : List String
deriving DecidableEq, Inhabited

/-- Record one counter entry into the aggregate threat map: create the
entry if absent, then add the threatened member to the set and push the
score. -/
def threatUpd (acc : List (String × ThreatAcc)) (threatName member : String)
    (score : ℚ) : List (String × ThreatAcc) :=
  match mget threatName acc with
  | none => mset threatName ⟨[member], [score]⟩ acc
  | some e => mset threatName ⟨setAdd e.threatens member, e.scores ++ [score]⟩ acc

/-- The threat-collection loop shared verbatim by `analyzeTeamWeaknesses`
and `findBlindSpots`: every checks-and-counters entry of every present
team member is recorded under the lowercased threat name. -/
def collectThreats (team : List String) (usageData : ProfileMap) :
    List (String × ThreatAcc) :=
  team.foldl
    (fun acc teamMember =>
      match mget teamMember usageData with
      | none => acc
      | some data =>
        data.checksAndCounters.foldl
          (fun acc counter => threatUpd acc (jsToLower counter.name) teamMember counter.score)
          acc)
    []

/-- One aggregated threat's step of the blind-spot filter loop: keep
it when its distinct threatened-member count reaches
`max(2, Math.ceil(teamSize * 0.33))`. -/
def blindStep (teamSize : ℕ) (bs : List BlindSpot) (p : String × ThreatAcc) :
    List BlindSpot :=
  let threshold : ℤ := max 2 ⌈(teamSize : ℚ) * 0.33⌉
  if threshold ≤ (p.2.threatens.length : ℤ) then
    bs ++ [⟨p.1, p.2.threatens, p.2.scores.sum / (p.2.scores.length : ℚ)⟩]
  else bs

/-- Model of `findBlindSpotsFromThreats`: keep threats whose distinct
threatened-member count reaches `max(2, ceil(teamSize * 0.33))`, sorted
by members threatened descending then average score descending. -/
def findBlindSpotsFromThreats (allThreats : List (String × ThreatAcc))
    (teamSize : ℕ) : List BlindSpot :=
  let blindSpots := allThreats.foldl (blindStep teamSize) []
  sortB
    (fun a b =>
      if a.threatens.length = b.threatens.length then decide (b.avgScore ≤ a.avgScore)
      else decide (b.threatens.length ≤ a.threatens.length))
    blindSpots

/-- Model of `findTeamMembersCheckingThreat`.  The source's first inner
loop over the team member's own counter list only executes `continue`
and performs no work (see the design notes), so only the reverse lookup
into the threat's own counter list remains. -/
def findTeamMembersCheckingThreat (threat : String) (team : List String)
    (usageData : ProfileMap) : List ThreatEntry :=
  let checkers := team.foldl
    (fun cs teamMember =>
      match mget teamMember usageData with
      | none => cs
      | some _data =>
        match mget threat usageData with
        | some threatData =>
          match threatData.checksAndCounters.find? (fun c => jsToLower c.name = teamMember) with
          | some counter => cs ++ [⟨teamMember, counter.score⟩]
          | none => cs
        | none => cs)
    []
  sortB (fun a b => decide (b.score ≤ a.score)) checkers

/-- Model of `calculateMajorThreats`. -/
def calculateMajorThreats (threats : List (String × ThreatAcc))
    (usageData : ProfileMap) (team : List String) : List ThreatAssessment :=
  let assessments := threats.foldl
    (fun as (p : String × ThreatAcc) =>
      let avgScore := p.2.scores.sum / (p.2.scores.length : ℚ)
      let threatenCount := p.2.threatens.length
      let usageFactor : ℚ :=
        match mget p.1 usageData with
        | some pokemonData => min 1 ((pokemonData.rawCount : ℚ) / 5000)
        | none => 0.5
      let threatScore := (avgScore * 10 + (threatenCount : ℚ) * 20) * usageFactor
      let threatens := p.2.threatens.map
        (fun name => ThreatEntry.mk name (p.2.scores.head?.getD 0))
      let threatenedBy := findTeamMembersCheckingThreat p.1 team usageData
      as ++ [⟨p.1, threatScore, threatens, threatenedBy⟩])
    []
  sortB (fun a b => decide (b.threatScore ≤ a.threatScore)) assessments

/-- Model of `findCountersForPokemon`. -/
def findCountersForPokemon (pokemon : String) (usageData : ProfileMap)
    (limit : ℕ) : List PokemonScore :=
  match mget pokemon usageData with
  | none => []
  | some data => (data.checksAndCounters.take limit).map (fun c => ⟨c.name, c.score⟩)

/-- Model of `generateDefensiveSuggestions` (the `team` argument is
unused in the source as well). -/
def generateDefensiveSuggestions (blindSpots : List BlindSpot)
    (majorThreats : List ThreatAssessment) (_team : List String)
    (usageData : ProfileMap) : List String :=
  let suggestions : List String :=
    match blindSpots.head? with
    | some topBlindSpot =>
      let s1 := "Critical blind spot: " ++ topBlindSpot.pokemon ++ " threatens " ++
        toString topBlindSpot.threatens.length ++ " team members"
      let counters := findCountersForPokemon topBlindSpot.pokemon usageData 3
      if counters.isEmpty then [s1]
      else [s1, "Consider adding: " ++
        String.intercalate ", " (counters.map PokemonScore.pokemon) ++
        " to check " ++ topBlindSpot.pokemon]
    | none => []
  let suggestions :=
    if 5 < majorThreats.length then
      suggestions ++ ["Team faces " ++ toString majorThreats.length ++
        " significant threats - consider defensive backbone"]
    else suggestions
  let uncoveredThreats := majorThreats.filter (fun t => t.threatenedBy.isEmpty)
  if uncoveredThreats.isEmpty then suggestions
  else suggestions ++ ["No answers for: " ++
    String.intercalate ", " ((uncoveredThreats.take 3).map ThreatAssessment.pokemon)]

/-- Model of `analyzeTeamWeaknesses`. -/
def analyzeTeamWeaknesses (team : List String) (usageData : ProfileMap) :
    WeaknessReport :=
  let normalizedTeam := team.map jsToLower
  let allThreats := collectThreats normalizedTeam usageData
  let blindSpots := findBlindSpotsFromThreats allThreats normalizedTeam.length
  let majorThreats := calculateMajorThreats allThreats usageData normalizedTeam
  let avgThreatsPerMember := (allThreats.length : ℚ) / ((max 1 normalizedTeam.length : ℕ) : ℚ)
  let blindSpotPenalty := (blindSpots.length : ℚ) * 10
  let defensiveScore := max 0 (100 - avgThreatsPerMember * 5 - blindSpotPenalty)
  let suggestions := generateDefensiveSuggestions blindSpots majorThreats normalizedTeam usageData
  { blindSpots := blindSpots, defensiveScore := defensiveScore,
    majorThreats := majorThreats.take 10, suggestions := suggestions }

/-- Model of `findBlindSpots` (the exported entry point). -/
def findBlindSpots (team : List String) (usageData : ProfileMap) : List BlindSpot :=
  let normalizedTeam := team.map jsToLower
  findBlindSpotsFromThreats (collectThreats normalizedTeam usageData) normalizedTeam.length

end Smogon

namespace Smogon

/-! ## Coverage engine (`coverage.ts`) -/

/-- One `TYPE_CHART` entry: types the attacking type is super-effective
against, and types resisting it. -/
structure TypeEff where
  strong : List String
  weak : List String
deriving DecidableEq, Inhabited

/-- The Gen 2 type chart (`TYPE_CHART`). -/
def typeChart : List (String × TypeEff) :=
  [("Normal", ⟨[], ["Rock", "Steel"]⟩),
   ("Fire", ⟨["Grass", "Ice", "Bug", "Steel"], ["Fire", "Water", "Rock", "Dragon"]⟩),
   ("Water", ⟨["Fire", "Ground", "Rock"], ["Water", "Grass", "Dragon"]⟩),
   ("Electric", ⟨["Water", "Flying"], ["Electric", "Grass", "Dragon"]⟩),
   ("Grass", ⟨["Water", "Ground", "Rock"],
      ["Fire", "Grass", "Poison", "Flying", "Bug", "Dragon", "Steel"]⟩),
   ("Ice", ⟨["Grass", "Ground", "Flying", "Dragon"], ["Fire", "Water", "Ice", "Steel"]⟩),
   ("Fighting", ⟨["Normal", "Ice", "Rock", "Dark", "Steel"],
      ["Poison", "Flying", "Psychic", "Bug"]⟩),
   ("Poison", ⟨["Grass"], ["Poison", "Ground", "Rock", "Ghost"]⟩),
   ("Ground", ⟨["Fire", "Electric", "Poison", "Rock", "Steel"], ["Grass", "Bug"]⟩),
   ("Flying", ⟨["Grass", "Fighting", "Bug"], ["Electric", "Rock", "Steel"]⟩),
   ("Psychic", ⟨["Fighting", "Poison"], ["Psychic", "Steel"]⟩),
   ("Bug", ⟨["Grass", "Psychic", "Dark"],
      ["Fire", "Fighting", "Poison", "Flying", "Ghost", "Steel"]⟩),
   ("Rock", ⟨["Fire", "Ice", "Flying", "Bug"], ["Fighting", "Ground", "Steel"]⟩),
   ("Ghost", ⟨["Psychic", "Ghost"], ["Dark", "Steel"]⟩),
   ("Dragon", ⟨["Dragon"], ["Steel"]⟩),
   ("Dark", ⟨["Psychic", "Ghost"], ["Fighting", "Dark", "Steel"]⟩),
   ("Steel", ⟨["Ice", "Rock"], ["Fire", "Water", "Electric", "Steel"]⟩)]

/-- The 17 types (`ALL_TYPES`). -/
def allTypes : List String :=
  ["Normal", "Fire", "Water", "Electric", "Grass", "Ice", "Fighting", "Poison",
   "Ground", "Flying", "Psychic", "Bug", "Rock", "Ghost", "Dragon", "Dark", "Steel"]

/-- The hard-coded move-name → type table of `getMoveType`
(`moveTypeMap`). -/
def moveTypeMap : List (String × String) :=
  [("Earthquake", "Ground"), ("Thunderbolt", "Electric"), ("Thunder", "Electric"),
   ("Ice Beam", "Ice"), ("Fire Blast", "Fire"), ("Flamethrower", "Fire"),
   ("Surf", "Water"), ("Hydro Pump", "Water"), ("Psychic", "Psychic"),
   ("Shadow Ball", "Ghost"), ("Sludge Bomb", "Poison"), ("Rock Slide", "Rock"),
   ("Ancient Power", "Rock"), ("Cross Chop", "Fighting"),
   ("Dynamic Punch", "Fighting"), ("Crunch", "Dark"), ("Pursuit", "Dark"),
   ("Return", "Normal"), ("Body Slam", "Normal"), ("Double-Edge", "Normal"),
   ("Giga Drain", "Grass"), ("Solar Beam", "Grass"), ("Zap Cannon", "Electric"),
   ("Outrage", "Dragon"), ("Dragonbreath", "Dragon")]

/-- Model of `getMoveType`: a `Hidden Power` prefix resolves through the
bracket pattern (defaulting to Normal), every other move through the
fixed table (`null`, i.e. `none`, when absent). -/
def getMoveType (moveName : String) : Option String :=
  if jsStartsWith moveName "Hidden Power" then
    match hiddenPowerMatch moveName with
    | some t => some t
    | none => some "Normal"
  else mget moveName moveTypeMap

/-- One coverage suggestion. -/
structure CoverageSuggestion where
  pokemon : String
  move : String
  reason : String
deriving DecidableEq, Inhabited

/-- One type-redundancy entry of `findMoveRedundancies`. -/
structure TypeRedundancy where
  type : String
  pokemon : List String
deriving DecidableEq, Inhabited

/-- Result of `analyzeCoverage` (`CoverageReport`). -/
structure CoverageReport where
  coverageByType : List (String × ℕ)
  gaps : List String
  redundancies : List TypeRedundancy
  coverageScore : ℚ
  suggestions : List CoverageSuggestion
deriving DecidableEq, Inhabited

/-- The top-4 moves by usage of one profile
(`Array.from(data.moves.entries()).sort((a, b) => b[1] - a[1]).slice(0, 4)`). -/
def coverageTopMoves (data : PokemonUsageData) : List (String × ℚ) :=
  (sortB (fun a b => decide (b.2 ≤ a.2)) data.moves).take 4

/-- Increment the per-type coverage counter
(`coverageByType.set(t, (coverageByType.get(t) || 0) + 1)`). -/
def bumpCoverage (cov : List (String × ℕ)) (t : String) : List (String × ℕ) :=
  mset t ((mget t cov).getD 0 + 1) cov

/-- One top-4 move's step of the coverage loop: skip the `'Other'`
bucket, record the move in the member's set, and when the move resolves
to a charted type, count every type it is strong against. -/
def coverStep (p : List (String × ℕ) × List String) (mv : String × ℚ) :
    List (String × ℕ) × List String :=
  if mv.1 = "Other" then p
  else
    let pokemonMoves := setAdd p.2 mv.1
    match getMoveType mv.1 with
    | some moveType =>
      match mget moveType typeChart with
      | some eff => (eff.strong.foldl bumpCoverage p.1, pokemonMoves)
      | none => (p.1, pokemonMoves)
    | none => (p.1, pokemonMoves)

/-- Per-member body of the coverage loop: walk the top-4 moves with
`coverStep`, then record the member's move set. -/
def coverOneMember (pokemonName : String) (data : PokemonUsageData)
    (st : List (String × ℕ) × List (String × List String)) :
    List (String × ℕ) × List (String × List String) :=
  let step := (coverageTopMoves data).foldl coverStep (st.1, [])
  (step.1, mset pokemonName step.2 st.2)

/-- Model of `findMoveRedundancies` (its `usageData` argument is unused
in the source as well). -/
def findMoveRedundancies (movesByPokemon : List (String × List String))
    (_usageData : ProfileMap) : List TypeRedundancy :=
  let typeUsage := movesByPokemon.foldl
    (fun tu (p : String × List String) =>
      p.2.foldl
        (fun tu move =>
          match getMoveType move with
          | none => tu
          | some moveType => mset moveType (setAdd ((mget moveType tu).getD []) p.1) tu)
        tu)
    []
  typeUsage.foldl
    (fun rs (p : String × List String) =>
      if 2 < p.2.length then rs ++ [⟨p.1, p.2⟩] else rs)
    []

/-- Rendering of `q.toFixed(1)` for the nonnegative percentages that
reach it (string output only; no theorem depends on it). -/
def qToFixed1 (q : ℚ) : String :=
  let m := ⌊q * 10 + 1/2⌋
  toString (m / 10) ++ "." ++ toString (m % 10)

/-- Rendering of `q.toFixed(0)` for the nonnegative scores that reach it
(string output only; no theorem depends on it). -/
def qToFixed0 (q : ℚ) : String := toString ⌊q + 1/2⌋

/-- One candidate move's step of the suggestion loop of
`generateCoverageSuggestions`. -/
def suggMoveStep (gaps moveTypesToConsider : List String) (pokemonName : String)
    (currentMoves : List String) (sg : List CoverageSuggestion)
    (mp : String × ℚ) : List CoverageSuggestion :=
  if mp.1 ∈ currentMoves ∨ mp.1 = "Other" then sg
  else if mp.2 < 5 then sg
  else
    match getMoveType mp.1 with
    | none => sg
    | some moveType =>
      if moveType ∈ moveTypesToConsider then
        match mget moveType typeChart with
        | some eff =>
          let coveredGaps := gaps.filter (fun gap => gap ∈ eff.strong)
          if coveredGaps.isEmpty then sg
          else sg ++ [⟨pokemonName, mp.1,
            "Covers " ++ String.intercalate ", " coveredGaps ++
            " (" ++ qToFixed1 mp.2 ++ "% usage)"⟩]
        | none => sg
      else sg

/-- One team member's step of the suggestion loop of
`generateCoverageSuggestions`. -/
def suggMemberStep (gaps moveTypesToConsider : List String)
    (movesByPokemon : List (String × List String)) (usageData : ProfileMap)
    (sg : List CoverageSuggestion) (pokemonName : String) :
    List CoverageSuggestion :=
  match mget pokemonName usageData with
  | none => sg
  | some data =>
    data.moves.foldl
      (suggMoveStep gaps moveTypesToConsider pokemonName
        ((mget pokemonName movesByPokemon).getD []))
      sg

/-- Model of `generateCoverageSuggestions`. -/
def generateCoverageSuggestions (gaps : List String)
    (movesByPokemon : List (String × List String)) (usageData : ProfileMap)
    (team : List String) : List CoverageSuggestion :=
  if gaps.isEmpty then []
  else
    let moveTypesToConsider := gaps.foldl
      (fun mt gap =>
        typeChart.foldl
          (fun mt (p : String × TypeEff) =>
            if gap ∈ p.2.strong then setAdd mt p.1 else mt)
          mt)
      []
    let suggestions := team.foldl
      (suggMemberStep gaps moveTypesToConsider movesByPokemon usageData) []
    suggestions.take 5

/-- Model of `analyzeCoverage`. -/
def analyzeCoverage (team : List String) (usageData : ProfileMap) : CoverageReport :=
  let normalizedTeam := team.map jsToLower
  let covInit := allTypes.map (fun t => (t, (0 : ℕ)))
  let st := normalizedTeam.foldl
    (fun st pokemonName =>
      match mget pokemonName usageData with
      | none => st
      | some data => coverOneMember pokemonName data st)
    (covInit, [])
  let coverageByType := st.1
  let movesByPokemon := st.2
  let gaps := (coverageByType.filter (fun p => p.2 = 0)).map Prod.fst
  let redundancies := findMoveRedundancies movesByPokemon usageData
  let typesWithCoverage := (coverageByType.filter (fun p => 0 < p.2)).length
  let coverageScore := (typesWithCoverage : ℚ) / (allTypes.length : ℚ) * 100
  let suggestions := generateCoverageSuggestions gaps movesByPokemon usageData normalizedTeam
  { coverageByType := coverageByType, gaps := gaps, redundancies := redundancies,
    coverageScore := coverageScore, suggestions := suggestions }

/-- One excessive-coverage entry of `checkMoveRedundancy`. -/
structure ExcessiveCoverage where
  type : String
  count : ℕ
  pokemon : List String
deriving DecidableEq, Inhabited

/-- Result of `checkMoveRedundancy` (`RedundancyReport`). -/
structure RedundancyReport where
  duplicateMoves : List (String × List String)
  excessiveCoverage : List ExcessiveCoverage
  redundancyScore : ℚ
deriving DecidableEq, Inhabited

/-- The top-4 move names of one profile with the `'Other'` bucket
filtered out, as `checkMoveRedundancy` computes them. -/
def redundancyTopMoves (data : PokemonUsageData) : List String :=
  (((sortB (fun a b => decide (b.2 ≤ a.2)) data.moves).take 4).map Prod.fst).filter
    (fun m => m ≠ "Other")

/-- Model of `checkMoveRedundancy`. -/
def checkMoveRedundancy (team : List String) (usageData : ProfileMap) :
    RedundancyReport :=
  let normalizedTeam := team.map jsToLower
  let st := normalizedTeam.foldl
    (fun (st : List (String × List String) × List (String × List String)) pokemonName =>
      match mget pokemonName usageData with
      | none => st
      | some data =>
        let topMoves := redundancyTopMoves data
        let dup := topMoves.foldl
          (fun dm move => mset move (((mget move dm).getD []) ++ [pokemonName]) dm)
          st.1
        (dup, mset pokemonName topMoves st.2))
    ([], [])
  let duplicateMoves := st.1
  let movesByPokemon := st.2
  let actualDuplicates := duplicateMoves.filter (fun p => 1 < p.2.length)
  let typeUsage := movesByPokemon.foldl
    (fun tu (p : String × List String) =>
      p.2.foldl
        (fun tu move =>
          match getMoveType move with
          | none => tu
          | some moveType => mset moveType (setAdd ((mget moveType tu).getD []) p.1) tu)
        tu)
    []
  let excessiveCoverage := typeUsage.foldl
    (fun ec (p : String × List String) =>
      if 2 < p.2.length then ec ++ [⟨p.1, p.2.length, p.2⟩] else ec)
    []
  let totalDuplicates : ℕ := actualDuplicates.foldl (fun s p => s + (p.2.length - 1)) 0
  let redundancyScore := min 100 ((totalDuplicates : ℚ) * 15 + (excessiveCoverage.length : ℚ) * 10)
  { duplicateMoves := actualDuplicates, excessiveCoverage := excessiveCoverage,
    redundancyScore := redundancyScore }

end Smogon

namespace Smogon

/-! ## Usage sorting helpers of `parser.ts` -/

/-- Model of `sortByUsage`: the map's values sorted descending by
`rawCount` (stable, so ties keep original parse order). -/
def sortByUsage (usageData : ProfileMap) : List PokemonUsageData :=
  sortB (fun a b => decide (b.rawCount ≤ a.rawCount)) (mvalues usageData)

/-- Model of the parser-level `getTopPokemon`. -/
def getTopPokemon (usageData : ProfileMap) (limit : ℕ) : List PokemonUsageData :=
  (sortByUsage usageData).take limit

/-! ## Report aggregator (`reports.ts`) -/

/-- Model of `Math.round` (round half toward positive infinity), the
result living in `ℚ` as every JS number does in this embedding. -/
def jsRound (q : ℚ) : ℚ := ((⌊q + 1/2⌋ : ℤ) : ℚ)

/-- Result of `generateMetaComparison` (`MetaComparison`). -/
structure MetaComparison where
  avgUsageRank : ℚ
  avgViability : ℚ
  offMetaPicks : List String
  topTierPicks : List String
  metaAlignmentScore : ℚ
deriving DecidableEq, Inhabited

/-- The full report (`ComprehensiveReport`). -/
structure ComprehensiveReport where
  team : List String
  synergy : TeamSynergyAnalysis
  weaknesses : WeaknessReport
  coverage : CoverageReport
  meta : MetaComparison
  redundancy : RedundancyReport
  overallScore : ℚ
  summary : List String
  recommendations : List String
deriving DecidableEq, Inhabited

/-- Model of `generateMetaComparison`. -/
def generateMetaComparison (team : List String) (usageData : ProfileMap) :
    MetaComparison :=
  let composition := analyzeTeamComposition team usageData
  let allPokemon := sortB (fun a b => decide (b.rawCount ≤ a.rawCount)) (mvalues usageData)
  let st := team.foldl
    (fun (st : ℚ × ℕ) pokemonName =>
      let rank : ℚ :=
        ((allPokemon.findIdx? (fun p => jsToLower p.name = pokemonName)).map
          (fun i => (i : ℚ) + 1)).getD 0
      if (0 : ℚ) < rank then (st.1 + rank, st.2 + 1) else st)
    ((0 : ℚ), (0 : ℕ))
  let avgUsageRank := if 0 < st.2 then st.1 / (st.2 : ℚ) else 0
  { avgUsageRank := avgUsageRank, avgViability := composition.avgViability,
    offMetaPicks := composition.offMeta, topTierPicks := composition.topTier,
    metaAlignmentScore := composition.metaScore }

/-- Model of `calculateOverallScore`: the weighted average of the five
sub-scores, rounded. -/
def calculateOverallScore (synergy : TeamSynergyAnalysis)
    (weaknesses : WeaknessReport) (coverage : CoverageReport)
    (redundancy : RedundancyReport) (meta : MetaComparison) : ℚ :=
  let synergyWeight : ℚ := 0.25
  let defenseWeight : ℚ := 0.30
  let coverageWeight : ℚ := 0.25
  let redundancyWeight : ℚ := 0.10
  let metaWeight : ℚ := 0.10
  let redundancyPenalty := max 0 (100 - redundancy.redundancyScore)
  let overall :=
    synergy.score * synergyWeight +
    weaknesses.defensiveScore * defenseWeight +
    coverage.coverageScore * coverageWeight +
    redundancyPenalty * redundancyWeight +
    meta.metaAlignmentScore * metaWeight
  jsRound overall

/-- Model of `generateSummary`. -/
def generateSummary (team : List String) (synergy : TeamSynergyAnalysis)
    (weaknesses : WeaknessReport) (coverage : CoverageReport)
    (meta : MetaComparison) : List String :=
  let s1 := "Team of " ++ toString team.length ++ " Pokemon"
  let s2 :=
    if 70 ≤ synergy.score then "Strong team synergy (" ++ qToFixed0 synergy.score ++ "/100)"
    else if 40 ≤ synergy.score then
      "Moderate team synergy (" ++ qToFixed0 synergy.score ++ "/100)"
    else "Weak team synergy (" ++ qToFixed0 synergy.score ++ "/100)"
  let s3 :=
    if 0 < weaknesses.blindSpots.length then
      toString weaknesses.blindSpots.length ++ " critical blind spot" ++
        (if 1 < weaknesses.blindSpots.length then "s" else "")
    else "No major blind spots identified"
  let s4 :=
    if coverage.gaps.length = 0 then "Complete type coverage"
    else if coverage.gaps.length ≤ 3 then
      "Minor coverage gaps (" ++ toString coverage.gaps.length ++ " types)"
    else "Significant coverage gaps (" ++ toString coverage.gaps.length ++ " types)"
  let s5 :=
    if (team.length : ℚ) * 0.5 ≤ (meta.topTierPicks.length : ℚ) then
      "Meta-dominant team composition"
    else if (team.length : ℚ) * 0.5 ≤ (meta.offMetaPicks.length : ℚ) then
      "Off-meta team composition"
    else "Balanced meta alignment"
  [s1, s2, s3, s4, s5]

/-- Model of `generateRecommendations`. -/
def generateRecommendations (synergy : TeamSynergyAnalysis)
    (weaknesses : WeaknessReport) (coverage : CoverageReport)
    (redundancy : RedundancyReport) : List String :=
  let recommendations : List String :=
    if synergy.score < 50 then
      match synergy.suggestedTeammates.head? with
      | some top => ["Consider adding " ++ top.name ++ " for better synergy (" ++
          qToFixed1 top.score ++ "% compatibility)"]
      | none => []
    else []
  let recommendations := recommendations ++
    (match synergy.weakPairs.head? with
     | some weakest => ["Weak synergy between " ++ weakest.pokemon1 ++ " and " ++
         weakest.pokemon2 ++ " (" ++ qToFixed1 weakest.score ++ "%)"]
     | none => [])
  let recommendations := recommendations ++ weaknesses.suggestions.take 2
  let recommendations := recommendations ++
    (match coverage.suggestions.head? with
     | some topSuggestion => [topSuggestion.pokemon ++ " could run " ++
         topSuggestion.move ++ ": " ++ topSuggestion.reason]
     | none => [])
  let recommendations := recommendations ++
    (if coverage.gaps.isEmpty then []
     else ["Missing coverage for: " ++ String.intercalate ", " (coverage.gaps.take 3)])
  let recommendations := recommendations ++
    (if 30 < redundancy.redundancyScore then
      match redundancy.duplicateMoves.head? with
      | some firstDupe => ["Multiple Pokemon running " ++ firstDupe.1 ++ ": " ++
          String.intercalate ", " firstDupe.2]
      | none => []
     else [])
  recommendations.take 8

/-- Model of `generateTeamReport`. -/
def generateTeamReport (team : List String) (usageData : ProfileMap) :
    ComprehensiveReport :=
  let normalizedTeam := team.map jsToLower
  let synergy := calculateTeamSynergy normalizedTeam usageData
  let weaknesses := analyzeTeamWeaknesses normalizedTeam usageData
  let coverage := analyzeCoverage normalizedTeam usageData
  let redundancy := checkMoveRedundancy normalizedTeam usageData
  let meta := generateMetaComparison normalizedTeam usageData
  let overallScore := calculateOverallScore synergy weaknesses coverage redundancy meta
  let summary := generateSummary normalizedTeam synergy weaknesses coverage meta
  let recommendations := generateRecommendations synergy weaknesses coverage redundancy
  { team := normalizedTeam, synergy := synergy, weaknesses := weaknesses,
    coverage := coverage, meta := meta, redundancy := redundancy,
    overallScore := overallScore, summary := summary,
    recommendations := recommendations }

/-! ## Profile repository (`SmogonModule`)

The module's single effect, `readFileSync`, is modelled by a
`FileSystem` parameter mapping file paths to contents; a missing file
makes the read (and hence the calling method) throw, which `Except Unit`
captures.  Every method returns its value together with the possibly
updated state (the lazily filled format cache). -/

/-- The file system seen by `parseUsageFile`'s `readFileSync`. -/
def FileSystem := String → Option String

/-- Module state: the configured data directory and the format cache. -/
structure SmogonState where
  dataPath : String
  dataCache : List (String × ProfileMap)
deriving DecidableEq, Inhabited

/-- Model of `join(this.dataPath, format + '.txt')`. -/
def filePathOf (s : SmogonState) (format : String) : String :=
  s.dataPath ++ "/" ++ format ++ ".txt"

/-- Model of `parseUsageFile`: read the file (throwing when unavailable)
and parse its content. -/
def parseUsageFile (fs : FileSystem) (filePath : String)
    (options : ParseOptions) : Except Unit ProfileMap :=
  match fs filePath with
  | none => .error ()
  | some content => .ok (parseUsageContent content options)

/-- Model of `loadFormat`: a no-op when the format is cached, otherwise
read, parse, and store. -/
def loadFormat (fs : FileSystem) (s : SmogonState) (format : String)
    (options : ParseOptions) : Except Unit SmogonState :=
  if mhas format s.dataCache then .ok s
  else
    match parseUsageFile fs (filePathOf s format) options with
    | .error e => .error e
    | .ok usageData => .ok { s with dataCache := mset format usageData s.dataCache }

/-- Number of `readFileSync` calls a `loadFormat` invocation performs
(0 when cached, 1 otherwise). -/
def loadFormatReads (s : SmogonState) (format : String) : ℕ :=
  if mhas format s.dataCache then 0 else 1

/-- Number of complete Splitter+Parser runs a `loadFormat` invocation
performs (0 when cached or when the read throws, 1 otherwise). -/
def loadFormatParses (fs : FileSystem) (s : SmogonState) (format : String) : ℕ :=
  if mhas format s.dataCache then 0
  else if (fs (filePathOf s format)).isSome then 1 else 0

/-- Model of `ensureFormatLoaded`: lazy load on first query; the options
default to `{}` exactly as an omitted `options` argument does. -/
def ensureFormatLoaded (fs : FileSystem) (s : SmogonState) (format : String) :
    Except Unit SmogonState :=
  if mhas format s.dataCache then .ok s else loadFormat fs s format {}

/-- Model of `getPokemon`. -/
def getPokemonM (fs : FileSystem) (s : SmogonState) (pokemonName format : String) :
    Except Unit (Option PokemonUsageData × SmogonState) := do
  let s1 ← ensureFormatLoaded fs s format
  .ok ((match mget format s1.dataCache with
        | some data => mget (jsToLower pokemonName) data
        | none => none), s1)

/-- Model of `getAllPokemon`. -/
def getAllPokemonM (fs : FileSystem) (s : SmogonState) (format : String) :
    Except Unit (List PokemonUsageData × SmogonState) := do
  let s1 ← ensureFormatLoaded fs s format
  .ok ((match mget format s1.dataCache with
        | some data => mvalues data
        | none => []), s1)

/-- Model of `getTopPokemon` (module level). -/
def getTopPokemonM (fs : FileSystem) (s : SmogonState) (limit : ℕ) (format : String) :
    Except Unit (List PokemonUsageData × SmogonState) := do
  let s1 ← ensureFormatLoaded fs s format
  .ok ((match mget format s1.dataCache with
        | some data => getTopPokemon data limit
        | none => []), s1)

/-- Model of `findPokemonWithMove` (a stored percentage of `0` is falsy
in the source's `movePercentage && …` test and is therefore excluded). -/
def findPokemonWithMoveM (fs : FileSystem) (s : SmogonState) (moveName : String)
    (minPercentage : ℚ) (format : String) :
    Except Unit (List PokemonScore × SmogonState) := do
  let s1 ← ensureFormatLoaded fs s format
  match mget format s1.dataCache with
  | none => .ok ([], s1)
  | some data =>
    let normalizedMove := jsToLower moveName
    let results := data.foldl
      (fun rs (p : String × PokemonUsageData) =>
        match mget normalizedMove p.2.moves with
        | some movePercentage =>
          if movePercentage ≠ 0 ∧ minPercentage ≤ movePercentage then
            rs ++ [⟨p.1, movePercentage⟩]
          else rs
        | none => rs)
      []
    .ok (sortB (fun a b => decide (b.score ≤ a.score)) results, s1)

/-- Model of `findCounters`. -/
def findCountersM (fs : FileSystem) (s : SmogonState) (threatName : String)
    (minScore : ℚ) (format : String) :
    Except Unit (List PokemonScore × SmogonState) := do
  let s1 ← ensureFormatLoaded fs s format
  let (threat?, s2) ← getPokemonM fs s1 threatName format
  match threat? with
  | none => .ok ([], s2)
  | some threat =>
    .ok (sortB (fun a b => decide (b.score ≤ a.score))
      (((threat.checksAndCounters.filter (fun c => minScore ≤ c.score)).map
        (fun c => PokemonScore.mk c.name c.score))), s2)

/-- Model of `calculateTeamSynergy` (module level); the source's
non-null assertion on the cache entry is modelled by `getD []`,
unreachable after a successful load. -/
def calculateTeamSynergyM (fs : FileSystem) (s : SmogonState) (team : List String)
    (format : String) : Except Unit (TeamSynergyAnalysis × SmogonState) := do
  let s1 ← ensureFormatLoaded fs s format
  .ok (calculateTeamSynergy team ((mget format s1.dataCache).getD []), s1)

/-- Model of `suggestTeammates` (module level). -/
def suggestTeammatesM (fs : FileSystem) (s : SmogonState) (currentTeam : List String)
    (limit : ℕ) (format : String) : Except Unit (List NameScore × SmogonState) := do
  let s1 ← ensureFormatLoaded fs s format
  .ok (suggestTeammates currentTeam ((mget format s1.dataCache).getD []) limit, s1)

/-- Model of `analyzeTeamWeaknesses` (module level). -/
def analyzeTeamWeaknessesM (fs : FileSystem) (s : SmogonState) (team : List String)
    (format : String) : Except Unit (WeaknessReport × SmogonState) := do
  let s1 ← ensureFormatLoaded fs s format
  .ok (analyzeTeamWeaknesses team ((mget format s1.dataCache).getD []), s1)

/-- Model of `findBlindSpots` (module level). -/
def findBlindSpotsM (fs : FileSystem) (s : SmogonState) (team : List String)
    (format : String) : Except Unit (List BlindSpot × SmogonState) := do
  let s1 ← ensureFormatLoaded fs s format
  .ok (findBlindSpots team ((mget format s1.dataCache).getD []), s1)

/-- Model of `analyzeCoverage` (module level). -/
def analyzeCoverageM (fs : FileSystem) (s : SmogonState) (team : List String)
    (format : String) : Except Unit (CoverageReport × SmogonState) := do
  let s1 ← ensureFormatLoaded fs s format
  .ok (analyzeCoverage team ((mget format s1.dataCache).getD []), s1)

/-- Model of `checkMoveRedundancy` (module level). -/
def checkMoveRedundancyM (fs : FileSystem) (s : SmogonState) (team : List String)
    (format : String) : Except Unit (RedundancyReport × SmogonState) := do
  let s1 ← ensureFormatLoaded fs s format
  .ok (checkMoveRedundancy team ((mget format s1.dataCache).getD []), s1)

/-- Model of `generateTeamReport` (module level). -/
def generateTeamReportM (fs : FileSystem) (s : SmogonState) (team : List String)
    (format : String) : Except Unit (ComprehensiveReport × SmogonState) := do
  let s1 ← ensureFormatLoaded fs s format
  .ok (generateTeamReport team ((mget format s1.dataCache).getD []), s1)

/-- Model of `Map.prototype.delete`. -/
def mdelete (k : String) (m : List (String × β)) : List (String × β) :=
  m.filter (fun p => p.1 ≠ k)

/-- Model of `clearCache`. -/
def clearCache (s : SmogonState) (format : Option String) : SmogonState :=
  match format with
  | some f => { s with dataCache := mdelete f s.dataCache }
  | none => { s with dataCache := [] }

/-- Model of `getLoadedFormats`. -/
def getLoadedFormats (s : SmogonState) : List String := mkeys s.dataCache

end Smogon

namespace Smogon

/-! ## Specification-side definitions

Declarative forms of quantities the claims speak about, to be compared
with what the code computes. -/

/-- Mean of a list of rationals, `0` for the empty list. -/
def qMean (l : List ℚ) : ℚ := if 0 < l.length then l.sum / (l.length : ℚ) else 0

/-- The pairs one present member `p1` forms with the present members
after it: the average of the two one-directional teammate percentages,
`0` for a direction whose source lacks the target as a key. -/
def pairBlock (d : ProfileMap) (p1 : String) (data1 : PokemonUsageData)
    (rest : List String) : List SynergyPair :=
  rest.filterMap
    (fun p2 =>
      (mget p2 d).map
        (fun data2 =>
          SynergyPair.mk p1 p2
            (((mget p2 data1.teammates).getD 0 +
              (mget p1 data2.teammates).getD 0) / 2)))

/-- The `pokemon1|pokemon2` key `calculateTeamSynergy` stores each
pair's score under. -/
def pkey (pr : SynergyPair) : String := pr.pokemon1 ++ "|" ++ pr.pokemon2

/-- Declarative pair list of the synergy claim: for every unordered pair
of team members (in team order) both present in the profile map, one
scored pair. -/
def specPairs : List String → ProfileMap → List SynergyPair
  | [], _ => []
  | p1 :: rest, d =>
    (match mget p1 d with
     | none => []
     | some data1 => pairBlock d p1 data1 rest) ++ specPairs rest d

/-- Types a given attacking type is super-effective against (empty for a
type absent from the chart). -/
def typeStrong (t : String) : List String :=
  ((mget t typeChart).map TypeEff.strong).getD []

/-- The coverage-carrying resolved types of a move list: the `'Other'`
bucket skipped, each move resolved by `getMoveType` and kept when its
type is present in the chart. -/
def resolvedTypesOf (mvs : List (String × ℚ)) : List String :=
  mvs.filterMap
    (fun mv =>
      if mv.1 = "Other" then none
      else
        match getMoveType mv.1 with
        | some t => if (mget t typeChart).isSome then some t else none
        | none => none)

/-- The resolved top-4 move types of one profile that carry coverage. -/
def memberResolvedTypes (data : PokemonUsageData) : List String :=
  resolvedTypesOf (coverageTopMoves data)

/-- All resolved top-4 move types across an already-normalized member
list. -/
def teamResolvedFrom (members : List String) (usageData : ProfileMap) : List String :=
  members.foldr
    (fun m acc =>
      (match mget m usageData with
       | some data => memberResolvedTypes data
       | none => []) ++ acc)
    []

/-- All resolved top-4 move types across the (normalized) team. -/
def teamResolvedTypes (team : List String) (usageData : ProfileMap) : List String :=
  teamResolvedFrom (team.map jsToLower) usageData

/-- Number of coverage hits the team scores on a defending type. -/
def coverCount (team : List String) (usageData : ProfileMap) (ty : String) : ℕ :=
  (teamResolvedTypes team usageData).countP (fun t => ty ∈ typeStrong t)

/-- Number of distinct (normalized) team members whose checks-and-counters
lists contain the given (normalized) threat name. -/
def membersThreatened (threat : String) (team : List String)
    (usageData : ProfileMap) : ℕ :=
  (((team.map jsToLower).dedup).filter
    (fun m =>
      match mget m usageData with
      | some data => threat ∈ data.checksAndCounters.map (fun c => jsToLower c.name)
      | none => false)).length

/-- The blind-spot qualification threshold of the claim:
`max(2, ceil(teamSize * 0.33))`. -/
def blindSpotThreshold (teamSize : ℕ) : ℤ := max 2 ⌈(teamSize : ℚ) * 0.33⌉

/-- Whether a (normalized) team member's profile lists the given
(normalized) threat among its checks and counters. -/
def memberThreatens (d : ProfileMap) (m t : String) : Bool :=
  match mget m d with
  | some data => t ∈ data.checksAndCounters.map (fun c => jsToLower c.name)
  | none => false

/-- The threatened-member set recorded so far under a threat key of the
aggregate threat map (empty when the key is absent). -/
def thrOf (t : String) (acc : List (String × ThreatAcc)) : List String :=
  ((mget t acc).map ThreatAcc.threatens).getD []

/-- Spec-side view of one team member's effect on one threat's
threatened-member set. -/
def threatStep (d : ProfileMap) (t : String) (l : List String) (m : String) :
    List String :=
  if memberThreatens d m t then setAdd l m else l

/-- A string is invariant under lower-casing (the normal form
`parsePercentageMap` stores every label in). -/
def lowerInv (s : String) : Prop := jsToLower s = s

/-- Every stored move key of every profile of the map is lowercased. -/
def movesAllLower (usageData : ProfileMap) : Prop :=
  ∀ p ∈ usageData, ∀ mv ∈ p.2.moves, lowerInv mv.1

/-- Every stored move key of one profile is lowercased. -/
def movesLower (d : PokemonUsageData) : Prop :=
  ∀ mv ∈ d.moves, lowerInv mv.1

/-- Every stored teammate percentage of the map is nonnegative (true of
every parsed file; the overall-score bound claim assumes it). -/
def teammatesNonneg (usageData : ProfileMap) : Prop :=
  ∀ p ∈ usageData, ∀ tv ∈ p.2.teammates, 0 ≤ tv.2

/-- Marker-line positions of the splitter claim. -/
def markerIndices (lines : List String) : List ℕ :=
  (List.range lines.length).filter (fun i => jsIncludes (lines.getD i "") "Raw count:")

/-- The entry list as the splitter claim describes it: one entry per
marker line, from three lines before the marker up to (not including)
the next marker line (or the end of the file). -/
def entrySlices (lines : List String) : List String :=
  let idxs := markerIndices lines
  (idxs.zip (idxs.drop 1 ++ [lines.length])).map
    (fun p => jsJoin '\n' ((lines.take p.2).drop (p.1 - 3)))

/-- The splitter's entry under construction after a processed prefix:
empty before the first marker, otherwise the lines from three before
the last marker to the end of the prefix. -/
def curOf (P : List String) : List String :=
  match (markerIndices P).getLast? with
  | none => []
  | some i => P.drop (i - 3)

/-- The splitter's completed entries after a processed prefix: one per
adjacent pair of markers seen so far. -/
def accOf (P : List String) : List String :=
  ((markerIndices P).zip ((markerIndices P).drop 1)).map
    (fun p => jsJoin '\n' ((P.take p.2).drop (p.1 - 3)))

/-- Alphabetic ASCII character. -/
def alphaCh (c : Char) : Bool :=
  ('a' ≤ c ∧ c ≤ 'z') ∨ ('A' ≤ c ∧ c ≤ 'Z')

/-- Well-formed label for the hand-built round-trip block: nonempty,
made of letters and spaces, starting and ending with a letter. -/
def goodLabel (s : String) : Prop :=
  s.data ≠ [] ∧ (∀ c ∈ s.data, alphaCh c ∨ c = ' ') ∧
    alphaCh (s.data.headD ' ') ∧ alphaCh (s.data.reverse.headD ' ')

/-- Decimal digit rendering of a natural number (the decimal string a JS
template literal interpolates for an integer). -/
def natDigits (n : ℕ) : List Char :=
  if h : n < 10 then [Char.ofNat (48 + n)]
  else natDigits (n / 10) ++ [Char.ofNat (48 + n % 10)]
decreasing_by exact Nat.div_lt_self (by omega) (by omega)

/-- The hand-built well-formed single-entry text block of the round-trip
claim: box borders, a name row, a raw-count row, an Abilities section
with one ability at 100%, and a Moves section with one move at 100%. -/
def mkEntryBlock (name ability move : String) (count : ℕ) : String :=
  jsJoin '\n'
    [" +----------+",
     " | " ++ name ++ " |",
     " +----------+",
     " | Raw count: " ++ String.mk (natDigits count) ++ " |",
     " +----------+",
     " | Abilities |",
     " | " ++ ability ++ " 100.000% |",
     " +----------+",
     " | Moves |",
     " | " ++ move ++ " 100.000% |",
     " +----------+"]

/-! ## Concrete fixtures used by the witnesses -/

/-- A profile carrying only what a fixture needs. -/
def mkProfile (name : String) (rawCount : ℕ) (moves teammates : List (String × ℚ))
    (cc : List CheckCounter) : PokemonUsageData :=
  { name := name, rawCount := rawCount, avgWeight := 0, viabilityCeiling := 0,
    abilities := [], items := [], spreads := [], moves := moves,
    teraTypes := [], teammates := teammates, checksAndCounters := cc }

/-- Fixture for the synergy scenario: `teammates["zapdos"] = 72.6` on
snorlax and `teammates["snorlax"] = 71.0` on zapdos. -/
def synergyFixture : ProfileMap :=
  [("snorlax", mkProfile "Snorlax" 100 [] [("zapdos", 72.6)] []),
   ("zapdos", mkProfile "Zapdos" 90 [] [("snorlax", 71.0)] [])]

/-- Fixture for the coverage scenario: two members whose resolved top-4
move types cover every type except Ghost and Psychic. -/
def coverageFixture : ProfileMap :=
  [("alpha", mkProfile "Alpha" 50
      [("Cross Chop", 40), ("Surf", 30), ("Thunderbolt", 20), ("Earthquake", 10)] [] []),
   ("beta", mkProfile "Beta" 40
      [("Fire Blast", 40), ("Ice Beam", 30), ("Hidden Power Flying", 20)] [] [])]

/-- Fixture for the blind-spot scenario: a threat countering 3 of 4 team
members. -/
def blindSpotFixture : ProfileMap :=
  [("m1", mkProfile "M1" 10 [] [] [⟨"darkrai", 1, 50, 1, 0, 0⟩]),
   ("m2", mkProfile "M2" 10 [] [] [⟨"darkrai", 2, 50, 1, 0, 0⟩]),
   ("m3", mkProfile "M3" 10 [] [] [⟨"darkrai", 3, 50, 1, 0, 0⟩]),
   ("m4", mkProfile "M4" 10 [] [] [])]

/-- Fixture map whose single profile exercises the lowercased-move
claims: every key is lowercased, including the `'other'` bucket. -/
def lowercaseFixture : ProfileMap :=
  [("gamma", mkProfile "Gamma" 10
      [("earthquake", 50), ("other", 40), ("ice beam", 30)] [] [])]

/-- One-format file system fixture: only `data/gen2ou-1760.txt` exists
(with empty content, which parses to an empty profile map). -/
def fsFixture : FileSystem := fun path =>
  if path = "data/gen2ou-1760.txt" then some "" else none

/-- The empty file system: every read throws. -/
def fsEmpty : FileSystem := fun _ => none

/-- A fresh module state with data directory `"data"` and nothing
cached. -/
def freshState : SmogonState := { dataPath := "data", dataCache := [] }

end Smogon

namespace Smogon

/-! ## Association-map lemmas -/

theorem mget_mset_self (k : String) (v : β) :
    ∀ m : List (String × β), mget k (mset k v m) = some v
  | [] => by simp [mget, mset]
  | (k1, v1) :: t => by
    by_cases h : k1 = k
    · simp [mget, mset, h]
    · simp [mget, mset, h, mget_mset_self k v t]

theorem mget_mset_ne (k k' : String) (v : β) (h : k' ≠ k) :
    ∀ m : List (String × β), mget k' (mset k v m) = mget k' m
  | [] => by
    have hk : ¬ k = k' := fun hh => h hh.symm
    simp [mget, mset, hk]
  | (k1, v1) :: t => by
    by_cases h1 : k1 = k
    · subst h1
      have hk : k1 ≠ k' := fun hh => h hh.symm
      simp [mget, mset, hk]
    · simp only [mset, if_neg h1, mget]
      by_cases h2 : k1 = k'
      · simp [h2]
      · simp [h2, mget_mset_ne k k' v h t]

theorem mhas_mset_self (k : String) (v : β) (m : List (String × β)) :
    mhas k (mset k v m) = true := by
  simp [mhas, mget_mset_self]

theorem mget_eq_none_of_mhas_false (k : String) (m : List (String × β))
    (h : mhas k m = false) : mget k m = none := by
  cases hm : mget k m with
  | none => rfl
  | some v => simp [mhas, hm] at h

/-! ## Stable-sort lemmas -/

theorem insertB_perm (le : α → α → Bool) (x : α) :
    ∀ l : List α, List.Perm (insertB le x l) (x :: l)
  | [] => List.Perm.refl _
  | y :: t => by
    unfold insertB
    split
    · exact List.Perm.refl _
    · exact ((insertB_perm le x t).cons y).trans (List.Perm.swap x y t)

theorem sortB_perm (le : α → α → Bool) : ∀ l : List α, List.Perm (sortB le l) l
  | [] => List.Perm.refl _
  | x :: t => (insertB_perm le x (sortB le t)).trans ((sortB_perm le t).cons x)

theorem sortB_length (le : α → α → Bool) (l : List α) :
    (sortB le l).length = l.length :=
  (sortB_perm le l).length_eq

theorem mem_insertB (le : α → α → Bool) (x z : α) (l : List α) :
    z ∈ insertB le x l ↔ z = x ∨ z ∈ l := by
  rw [(insertB_perm le x l).mem_iff, List.mem_cons]

theorem mem_sortB (le : α → α → Bool) (x : α) (l : List α) :
    x ∈ sortB le l ↔ x ∈ l := (sortB_perm le l).mem_iff

theorem insertB_pairwise (le : α → α → Bool)
    (htot : ∀ a b, le a b = true ∨ le b a = true)
    (htr : ∀ a b c, le a b = true → le b c = true → le a c = true)
    (x : α) : ∀ l : List α, l.Pairwise (fun a b => le a b = true) →
      (insertB le x l).Pairwise (fun a b => le a b = true)
  | [], _ => by simp [insertB]
  | y :: t, hl => by
    unfold insertB
    rcases List.pairwise_cons.1 hl with ⟨hy, ht⟩
    split
    · rename_i hxy
      refine List.pairwise_cons.2 ⟨?_, hl⟩
      intro z hz
      rcases List.mem_cons.1 hz with rfl | hz
      · exact hxy
      · exact htr x y z hxy (hy z hz)
    · rename_i hxy
      refine List.pairwise_cons.2 ⟨?_, insertB_pairwise le htot htr x t ht⟩
      intro z hz
      rcases (mem_insertB le x z t).1 hz with rfl | hz
      · rcases htot y z with h | h
        · exact h
        · exact absurd h hxy
      · exact hy z hz

theorem sortB_pairwise (le : α → α → Bool)
    (htot : ∀ a b, le a b = true ∨ le b a = true)
    (htr : ∀ a b c, le a b = true → le b c = true → le a c = true) :
    ∀ l : List α, (sortB le l).Pairwise (fun a b => le a b = true)
  | [] => by simp [sortB]
  | x :: t =>
    insertB_pairwise le htot htr x (sortB le t) (sortB_pairwise le htot htr t)

theorem insertB_filter_pos (le : α → α → Bool) (p : α → Bool) (x : α)
    (hpx : p x = true) (h1 : ∀ b, p b = true → le x b = true) :
    ∀ l : List α, (insertB le x l).filter p = x :: l.filter p
  | [] => by simp [insertB, hpx]
  | y :: t => by
    unfold insertB
    split
    · simp [hpx]
    · rename_i hxy
      have hpy : p y = false := by
        cases hy : p y with
        | false => rfl
        | true => exact absurd (h1 y hy) hxy
      simp [hpy, insertB_filter_pos le p x hpx h1 t]

theorem insertB_filter_neg (le : α → α → Bool) (p : α → Bool) (x : α)
    (hpx : p x = false) :
    ∀ l : List α, (insertB le x l).filter p = l.filter p
  | [] => by simp [insertB, hpx]
  | y :: t => by
    unfold insertB
    split
    · simp [hpx]
    · cases hy : p y with
      | false => simp [hy, insertB_filter_neg le p x hpx t]
      | true => simp [hy, insertB_filter_neg le p x hpx t]

theorem sortB_filter (le : α → α → Bool) (p : α → Bool)
    (h1 : ∀ a b, p a = true → p b = true → le a b = true) :
    ∀ l : List α, (sortB le l).filter p = l.filter p
  | [] => by simp [sortB]
  | x :: t => by
    unfold sortB
    cases hx : p x with
    | true =>
      rw [insertB_filter_pos le p x hx (fun b hb => h1 x b hx hb),
        sortB_filter le p h1 t]
      simp [hx]
    | false =>
      rw [insertB_filter_neg le p x hx, sortB_filter le p h1 t]
      simp [hx]

end Smogon

namespace Smogon

/-! ## Repository lemmas and claims C8, C1 -/

theorem except_bind_ok (a : α) (f : α → Except Unit β) :
    (Except.ok a >>= f) = f a := rfl

theorem ensure_of_unloaded (fs : FileSystem) (s : SmogonState)
    (format content : String)
    (h1 : mhas format s.dataCache = false)
    (h2 : fs (filePathOf s format) = some content) :
    ensureFormatLoaded fs s format =
      .ok { s with dataCache := mset format (parseUsageContent content {}) s.dataCache } := by
  simp [ensureFormatLoaded, h1, loadFormat, parseUsageFile, h2]

theorem ensure_of_loaded (fs : FileSystem) (s : SmogonState) (format : String)
    (h : mhas format s.dataCache = true) :
    ensureFormatLoaded fs s format = .ok s := by
  simp [ensureFormatLoaded, h]

/-- Claim C8: calling `loadFormat` twice with the same format id (on an
uncached format whose file is readable) performs the underlying file
read and parse exactly once across the two calls; the second call is a
no-op returning the unchanged state, whose stored format map is exactly
the parse of the file content. -/
theorem loadFormat_idempotent (fs : FileSystem) (s : SmogonState)
    (format : String) (options : ParseOptions) (content : String)
    (h1 : mhas format s.dataCache = false)
    (h2 : fs (filePathOf s format) = some content) :
    ∃ s1, loadFormat fs s format options = .ok s1 ∧
      loadFormat fs s1 format options = .ok s1 ∧
      mget format s1.dataCache = some (parseUsageContent content options) ∧
      loadFormatReads s format + loadFormatReads s1 format = 1 ∧
      loadFormatParses fs s format + loadFormatParses fs s1 format = 1 := by
  refine ⟨{ s with dataCache := mset format (parseUsageContent content options) s.dataCache },
    ?_, ?_, ?_, ?_, ?_⟩
  · simp [loadFormat, h1, parseUsageFile, h2]
  · simp [loadFormat, mhas_mset_self]
  · simp [mget_mset_self]
  · simp [loadFormatReads, h1, mhas_mset_self]
  · simp [loadFormatParses, h1, mhas_mset_self, h2]

/-- Witness for C8 at a concrete file system, state and format. -/
theorem loadFormat_idempotent_witness :
    mhas "gen2ou-1760" freshState.dataCache = false ∧
    fsFixture (filePathOf freshState "gen2ou-1760") = some "" ∧
    ∃ s1, loadFormat fsFixture freshState "gen2ou-1760" {} = .ok s1 ∧
      loadFormat fsFixture s1 "gen2ou-1760" {} = .ok s1 ∧
      mget "gen2ou-1760" s1.dataCache = some (parseUsageContent "" {}) ∧
      loadFormatReads freshState "gen2ou-1760" + loadFormatReads s1 "gen2ou-1760" = 1 ∧
      loadFormatParses fsFixture freshState "gen2ou-1760" +
        loadFormatParses fsFixture s1 "gen2ou-1760" = 1 :=
  ⟨by decide, by decide,
    loadFormat_idempotent fsFixture freshState "gen2ou-1760" {} "" (by decide) (by decide)⟩

/-- Counterexample to C1 as frozen: with no file for the requested
format, `getPokemon` raises (surfaces the `readFileSync` failure)
instead of returning an absent result, so the claim's "never raises for
an unknown name, for every name and every format id" is false. -/
theorem getPokemon_raises_on_missing_file :
    getPokemonM fsEmpty freshState "pikachu" "gen2ou-1760" = .error () := rfl

/-- Claim C1 (amended: provided the requested format's file is readable,
i.e. the lazy `loadFormat` succeeds): every query method returns the
same observable result on a state where the format is not yet loaded as
on the state where it is loaded, never raising; in particular
`getPokemon` returns the map lookup of the lowercased name, which is
`none` (absent, not an exception) for every unknown name. -/
theorem lookup_miss_uniform (fs : FileSystem) (s : SmogonState)
    (format content : String)
    (h1 : mhas format s.dataCache = false)
    (h2 : fs (filePathOf s format) = some content)
    (name : String) (team : List String) (limit : ℕ) (minq : ℚ) :
    ∀ m s1, m = parseUsageContent content {} →
      s1 = { s with dataCache := mset format m s.dataCache } →
    (getPokemonM fs s name format = .ok (mget (jsToLower name) m, s1) ∧
     getPokemonM fs s1 name format = .ok (mget (jsToLower name) m, s1)) ∧
    (getAllPokemonM fs s format = .ok (mvalues m, s1) ∧
     getAllPokemonM fs s1 format = .ok (mvalues m, s1)) ∧
    (getTopPokemonM fs s limit format = .ok (getTopPokemon m limit, s1) ∧
     getTopPokemonM fs s1 limit format = .ok (getTopPokemon m limit, s1)) ∧
    (findPokemonWithMoveM fs s name minq format =
       findPokemonWithMoveM fs s1 name minq format ∧
     findPokemonWithMoveM fs s1 name minq format ≠ .error ()) ∧
    (findCountersM fs s name minq format = findCountersM fs s1 name minq format ∧
     findCountersM fs s1 name minq format ≠ .error ()) ∧
    (calculateTeamSynergyM fs s team format = .ok (calculateTeamSynergy team m, s1) ∧
     calculateTeamSynergyM fs s1 team format = .ok (calculateTeamSynergy team m, s1)) ∧
    (suggestTeammatesM fs s team limit format = .ok (suggestTeammates team m limit, s1) ∧
     suggestTeammatesM fs s1 team limit format = .ok (suggestTeammates team m limit, s1)) ∧
    (analyzeTeamWeaknessesM fs s team format = .ok (analyzeTeamWeaknesses team m, s1) ∧
     analyzeTeamWeaknessesM fs s1 team format = .ok (analyzeTeamWeaknesses team m, s1)) ∧
    (findBlindSpotsM fs s team format = .ok (findBlindSpots team m, s1) ∧
     findBlindSpotsM fs s1 team format = .ok (findBlindSpots team m, s1)) ∧
    (analyzeCoverageM fs s team format = .ok (analyzeCoverage team m, s1) ∧
     analyzeCoverageM fs s1 team format = .ok (analyzeCoverage team m, s1)) ∧
    (checkMoveRedundancyM fs s team format = .ok (checkMoveRedundancy team m, s1) ∧
     checkMoveRedundancyM fs s1 team format = .ok (checkMoveRedundancy team m, s1)) ∧
    (generateTeamReportM fs s team format = .ok (generateTeamReport team m, s1) ∧
     generateTeamReportM fs s1 team format = .ok (generateTeamReport team m, s1)) := by
  intro m s1 hmdef hs1def
  subst hmdef
  subst hs1def
  have he1 := ensure_of_unloaded fs s format content h1 h2
  have hhas := mhas_mset_self format (parseUsageContent content {}) s.dataCache
  have he2 := ensure_of_loaded fs
    { s with dataCache := mset format (parseUsageContent content {}) s.dataCache }
    format hhas
  have hm := mget_mset_self format (parseUsageContent content {}) s.dataCache
  rcases hx : mget (jsToLower name) (parseUsageContent content {}) with _ | th <;>
    (refine ⟨⟨?_, ?_⟩, ⟨?_, ?_⟩, ⟨?_, ?_⟩, ⟨?_, ?_⟩, ⟨?_, ?_⟩,
      ⟨?_, ?_⟩, ⟨?_, ?_⟩, ⟨?_, ?_⟩, ⟨?_, ?_⟩, ⟨?_, ?_⟩, ⟨?_, ?_⟩, ⟨?_, ?_⟩⟩ <;>
      simp [getPokemonM, getAllPokemonM, getTopPokemonM, findPokemonWithMoveM,
        findCountersM, calculateTeamSynergyM, suggestTeammatesM,
        analyzeTeamWeaknessesM, findBlindSpotsM, analyzeCoverageM,
        checkMoveRedundancyM, generateTeamReportM,
        he1, he2, hm, hx, except_bind_ok])

/-- Witness for C1's amended theorem at a concrete file system, state,
name and team. -/
theorem lookup_miss_uniform_witness :
    mhas "gen2ou-1760" freshState.dataCache = false ∧
    fsFixture (filePathOf freshState "gen2ou-1760") = some "" ∧
    getPokemonM fsFixture freshState "pikachu" "gen2ou-1760" =
      .ok (none, SmogonState.mk "data"
        (mset "gen2ou-1760" (parseUsageContent "" {}) freshState.dataCache)) :=
  ⟨by decide, by decide, by
    have h := (lookup_miss_uniform fsFixture freshState "gen2ou-1760" "" (by decide)
      (by decide) "pikachu" ["pikachu"] 1 0 (parseUsageContent "" {})
      (SmogonState.mk "data"
        (mset "gen2ou-1760" (parseUsageContent "" {}) freshState.dataCache))
      rfl rfl).1.1
    rw [h]
    rfl⟩

end Smogon

namespace Smogon

/-! ## Claim C7 -/

/-- Claim C7: for every `n` and every loaded format with `t` profiles,
`getTopPokemon(n)` returns a list of length `min n t`, sorted descending
by `rawCount`; ties between equal `rawCount` values keep the original
parse order (for every count value, the equal-count sublist of the
sorted list is exactly the equal-count sublist of the map's value
list), and the result is the `n`-prefix of that stable sort. -/
theorem getTopPokemon_spec (usageData : ProfileMap) (n : ℕ) :
    (getTopPokemon usageData n).length = min n (mvalues usageData).length ∧
    (getTopPokemon usageData n).Pairwise (fun a b => b.rawCount ≤ a.rawCount) ∧
    List.Perm (sortByUsage usageData) (mvalues usageData) ∧
    (∀ c : ℕ, (sortByUsage usageData).filter (fun p => decide (p.rawCount = c)) =
      (mvalues usageData).filter (fun p => decide (p.rawCount = c))) ∧
    getTopPokemon usageData n = (sortByUsage usageData).take n := by
  refine ⟨?_, ?_, sortB_perm _ _, ?_, rfl⟩
  · rw [getTopPokemon, List.length_take, sortByUsage, sortB_length]
  · have hp := sortB_pairwise (fun a b : PokemonUsageData => decide (b.rawCount ≤ a.rawCount))
      (fun a b => by
        rcases le_total b.rawCount a.rawCount with h | h
        · exact Or.inl (by simpa using h)
        · exact Or.inr (by simpa using h))
      (fun a b c hab hbc => by
        simp only [decide_eq_true_eq] at hab hbc ⊢
        exact le_trans hbc hab)
      (mvalues usageData)
    have hp2 : (sortByUsage usageData).Pairwise (fun a b => b.rawCount ≤ a.rawCount) := by
      refine hp.imp ?_
      intro a b h
      simpa using h
    exact hp2.sublist (List.take_sublist n _)
  · intro c
    exact sortB_filter _ _
      (fun a b ha hb => by
        simp only [decide_eq_true_eq] at ha hb ⊢
        rw [ha, hb])
      (mvalues usageData)

end Smogon

namespace Smogon

/-! ## Claim C4: synergy lemmas -/

theorem str_ext {a b : String} (h : a.data = b.data) : a = b := by
  cases a; cases b; exact congrArg String.mk h

theorem mset_absent (k : String) (v : β) :
    ∀ m : List (String × β), mget k m = none → mset k v m = m ++ [(k, v)]
  | [], _ => rfl
  | (k1, v1) :: t, h => by
    by_cases h1 : k1 = k
    · simp [mget, h1] at h
    · simp only [mget, if_neg h1] at h
      simp [mset, h1, mset_absent k v t h]

theorem mget_append_none (k : String) (m1 m2 : List (String × β))
    (h : mget k m1 = none) : mget k (m1 ++ m2) = mget k m2 := by
  induction m1 with
  | nil => rfl
  | cons p t ih =>
    obtain ⟨k1, v1⟩ := p
    by_cases h1 : k1 = k
    · simp [mget, h1] at h
    · simp only [mget, if_neg h1] at h
      simpa [mget, h1] using ih h

theorem foldl_mset_values (key : α → String) (val : α → ℚ) :
    ∀ (l : List α) (m : List (String × ℚ)), (l.map key).Nodup →
      (∀ k ∈ l.map key, mget k m = none) →
      mvalues (l.foldl (fun acc x => mset (key x) (val x) acc) m) =
        mvalues m ++ l.map val
  | [], m, _, _ => by simp
  | x :: t, m, hnd, hdis => by
    simp only [List.map_cons, List.nodup_cons] at hnd
    have hx : mget (key x) m = none := hdis (key x) (by simp)
    have hstep : mset (key x) (val x) m = m ++ [(key x, val x)] := mset_absent _ _ m hx
    have hdis2 : ∀ k ∈ t.map key, mget k (m ++ [(key x, val x)]) = none := by
      intro k hk
      have hkm : mget k m = none := hdis k (by simp [hk])
      rw [mget_append_none k m _ hkm]
      have hne : ¬ (key x = k) := by
        intro hkx
        exact hnd.1 (hkx ▸ hk)
      simp [mget, hne]
    have ih := foldl_mset_values key val t (m ++ [(key x, val x)]) hnd.2 hdis2
    rw [List.foldl_cons, hstep, ih]
    simp [mvalues]

theorem append_cons_inj (c : Char) :
    ∀ (l1 l2 t1 t2 : List Char), c ∉ l1 → c ∉ l2 →
      l1 ++ c :: t1 = l2 ++ c :: t2 → l1 = l2 ∧ t1 = t2
  | [], [], t1, t2, _, _, h => by simpa using h
  | [], x :: l2, t1, t2, _, h2, h => by
    simp only [List.nil_append, List.cons_append, List.cons.injEq] at h
    exact absurd (h.1 ▸ List.mem_cons_self x l2) h2
  | x :: l1, [], t1, t2, h1, _, h => by
    simp only [List.nil_append, List.cons_append, List.cons.injEq] at h
    exact absurd (h.1.symm ▸ List.mem_cons_self x l1) h1
  | x :: l1, y :: l2, t1, t2, h1, h2, h => by
    simp only [List.cons_append, List.cons.injEq] at h
    have := append_cons_inj c l1 l2 t1 t2
      (fun hc => h1 (List.mem_cons_of_mem x hc))
      (fun hc => h2 (List.mem_cons_of_mem y hc)) h.2
    exact ⟨by rw [h.1, this.1], this.2⟩

theorem pkey_inj (pr pr' : SynergyPair)
    (h1 : '|' ∉ pr.pokemon1.data) (h1' : '|' ∉ pr'.pokemon1.data)
    (h : pkey pr = pkey pr') : pr.pokemon1 = pr'.pokemon1 ∧ pr.pokemon2 = pr'.pokemon2 := by
  have hd : pr.pokemon1.data ++ '|' :: pr.pokemon2.data =
      pr'.pokemon1.data ++ '|' :: pr'.pokemon2.data := by
    have := congrArg String.data h
    simpa [pkey, String.data_append] using this
  have := append_cons_inj '|' _ _ _ _ h1 h1' hd
  exact ⟨str_ext this.1, str_ext this.2⟩

theorem pairBlock_mem (d : ProfileMap) (p1 : String) (data1 : PokemonUsageData)
    (rest : List String) (pr : SynergyPair) (h : pr ∈ pairBlock d p1 data1 rest) :
    pr.pokemon1 = p1 ∧ pr.pokemon2 ∈ rest := by
  rcases List.mem_filterMap.1 h with ⟨p2, hp2, hf⟩
  cases hm : mget p2 d with
  | none => rw [hm] at hf; simp at hf
  | some data2 =>
    rw [hm] at hf
    simp at hf
    subst hf
    exact ⟨rfl, hp2⟩

theorem mem_specPairs (d : ProfileMap) :
    ∀ (team : List String) (pr : SynergyPair), pr ∈ specPairs team d →
      pr.pokemon1 ∈ team ∧ pr.pokemon2 ∈ team
  | p1 :: rest, pr, h => by
    rcases List.mem_append.1 h with h | h
    · cases hm : mget p1 d with
      | none => rw [hm] at h; simp at h
      | some data1 =>
        rw [hm] at h
        have := pairBlock_mem d p1 data1 rest pr h
        exact ⟨this.1 ▸ List.mem_cons_self p1 rest, List.mem_cons_of_mem p1 this.2⟩
    · have := mem_specPairs d rest pr h
      exact ⟨List.mem_cons_of_mem p1 this.1, List.mem_cons_of_mem p1 this.2⟩

theorem pairBlock_keys_nodup (d : ProfileMap) (p1 : String)
    (data1 : PokemonUsageData) (hp1 : '|' ∉ p1.data) :
    ∀ rest : List String, rest.Nodup → ((pairBlock d p1 data1 rest).map pkey).Nodup
  | [], _ => by simp [pairBlock]
  | p2 :: rest2, hnd => by
    rw [List.nodup_cons] at hnd
    cases hm : mget p2 d with
    | none =>
      have hpb : pairBlock d p1 data1 (p2 :: rest2) = pairBlock d p1 data1 rest2 := by
        simp [pairBlock, List.filterMap_cons, hm]
      rw [hpb]
      exact pairBlock_keys_nodup d p1 data1 hp1 rest2 hnd.2
    | some data2 =>
      have hpb : pairBlock d p1 data1 (p2 :: rest2) =
          SynergyPair.mk p1 p2
            (((mget p2 data1.teammates).getD 0 + (mget p1 data2.teammates).getD 0) / 2) ::
            pairBlock d p1 data1 rest2 := by
        simp [pairBlock, List.filterMap_cons, hm]
      rw [hpb, List.map_cons, List.nodup_cons]
      refine ⟨?_, pairBlock_keys_nodup d p1 data1 hp1 rest2 hnd.2⟩
      intro hmem
      rcases List.mem_map.1 hmem with ⟨pr, hpr, hk⟩
      have hfields := pairBlock_mem d p1 data1 rest2 pr hpr
      have hppr : '|' ∉ pr.pokemon1.data := by rw [hfields.1]; exact hp1
      have h2 := (pkey_inj pr _ hppr hp1 hk).2
      refine hnd.1 ?_
      have hmem2 := hfields.2
      rw [h2] at hmem2
      exact hmem2

theorem specPairs_keys_nodup (d : ProfileMap) :
    ∀ team : List String, (∀ m ∈ team, '|' ∉ m.data) → team.Nodup →
      ((specPairs team d).map pkey).Nodup
  | [], _, _ => by simp [specPairs]
  | p1 :: rest, hbar, hnd => by
    rw [List.nodup_cons] at hnd
    rw [specPairs, List.map_append]
    refine List.Nodup.append ?_
      (specPairs_keys_nodup d rest (fun m hm => hbar m (List.mem_cons_of_mem p1 hm)) hnd.2) ?_
    · cases hm : mget p1 d with
      | none => simp
      | some data1 =>
        exact pairBlock_keys_nodup d p1 data1 (hbar p1 (List.mem_cons_self p1 rest)) rest hnd.2
    · intro k hk1 hk2
      cases hm : mget p1 d with
      | none => rw [hm] at hk1; simp at hk1
      | some data1 =>
        rw [hm] at hk1
        rcases List.mem_map.1 hk1 with ⟨pr, hpr, hkey⟩
        rcases List.mem_map.1 hk2 with ⟨pr', hpr', hkey'⟩
        have hf := pairBlock_mem d p1 data1 rest pr hpr
        have hf' := mem_specPairs d rest pr' hpr'
        have hinj := pkey_inj pr pr'
          (hf.1 ▸ hbar p1 (List.mem_cons_self p1 rest))
          (hbar pr'.pokemon1 (List.mem_cons_of_mem p1 hf'.1))
          (hkey.trans hkey'.symm)
        exact hnd.1 ((hf.1 ▸ hinj.1) ▸ hf'.1)

theorem synInner_spec (d : ProfileMap) (p1 : String) (data1 : PokemonUsageData) :
    ∀ (rest : List String) (acc : SynAcc),
      synInner d p1 data1 rest acc =
        { strong := acc.strong ++
            (pairBlock d p1 data1 rest).filter (fun pr => decide (30 ≤ pr.score)),
          weak := acc.weak ++
            (pairBlock d p1 data1 rest).filter (fun pr => decide (pr.score < 15)),
          pairScores := (pairBlock d p1 data1 rest).foldl
            (fun m pr => mset (pkey pr) pr.score m) acc.pairScores }
  | [], acc => by
    show acc = _
    simp [pairBlock]
  | p2 :: rest2, acc => by
    show (List.foldl _ acc (p2 :: rest2)) = _
    rw [List.foldl_cons]
    cases hm : mget p2 d with
    | none =>
      have := synInner_spec d p1 data1 rest2 acc
      show synInner d p1 data1 rest2 _ = _
      simp only [hm]
      rw [this]
      have hpb : pairBlock d p1 data1 (p2 :: rest2) = pairBlock d p1 data1 rest2 := by
        simp [pairBlock, List.filterMap_cons, hm]
      rw [hpb]
    | some data2 =>
      simp only [hm]
      set avgSynergy := ((mget p2 data1.teammates).getD 0 + (mget p1 data2.teammates).getD 0) / 2 with havg
      have hpb : pairBlock d p1 data1 (p2 :: rest2) =
          SynergyPair.mk p1 p2 avgSynergy :: pairBlock d p1 data1 rest2 := by
        simp [pairBlock, List.filterMap_cons, hm, havg]
      rw [hpb]
      have ih := synInner_spec d p1 data1 rest2
        { strong := if 30 ≤ avgSynergy then acc.strong ++ [⟨p1, p2, avgSynergy⟩] else acc.strong
          weak := if 30 ≤ avgSynergy then acc.weak
                  else if avgSynergy < 15 then acc.weak ++ [⟨p1, p2, avgSynergy⟩] else acc.weak
          pairScores := mset (p1 ++ "|" ++ p2) avgSynergy acc.pairScores }
      show synInner d p1 data1 rest2 _ = _
      rw [ih]
      simp only [List.filter_cons, List.foldl_cons]
      by_cases h30 : 30 ≤ avgSynergy
      · have h15 : ¬ avgSynergy < 15 := by linarith
        simp [h30, h15, pkey]
      · by_cases h15 : avgSynergy < 15
        · simp [h30, h15, pkey]
        · simp [h30, h15, pkey]

theorem synPairsGo_spec (d : ProfileMap) :
    ∀ (team : List String) (acc : SynAcc),
      synPairsGo d team acc =
        { strong := acc.strong ++
            (specPairs team d).filter (fun pr => decide (30 ≤ pr.score)),
          weak := acc.weak ++
            (specPairs team d).filter (fun pr => decide (pr.score < 15)),
          pairScores := (specPairs team d).foldl
            (fun m pr => mset (pkey pr) pr.score m) acc.pairScores }
  | [], acc => by
    show acc = _
    simp [specPairs]
  | p1 :: rest, acc => by
    rw [synPairsGo]
    cases hm : mget p1 d with
    | none =>
      rw [synPairsGo_spec d rest acc]
      simp [specPairs, hm]
    | some data1 =>
      rw [synPairsGo_spec d rest (synInner d p1 data1 rest acc),
        synInner_spec d p1 data1 rest acc]
      simp [specPairs, hm, List.filter_append, List.foldl_append, List.append_assoc]

end Smogon

namespace Smogon

/-- Claim C4: for every unordered pair of team members both present in
the profile map, `calculateTeamSynergy` scores the pair as the average
of the two one-directional teammate percentages (0 for a missing
direction): the strong list is the (score-sorted) pairs scoring ≥ 30,
the weak list the pairs scoring < 15, and the overall score is
`min(100, mean(all pairwise scores) × 2)` (`0` for an empty pair set,
since the mean of an empty list is 0); in particular the
Snorlax/Zapdos scenario yields the single strong pair scored
(72.6 + 71.0)/2 = 71.8 and overall score 100. -/
theorem calculateTeamSynergy_spec :
    (∀ (team : List String) (d : ProfileMap),
      (∀ m ∈ team.map jsToLower, '|' ∉ m.data) →
      (team.map jsToLower).Nodup →
      (calculateTeamSynergy team d).strongPairs =
        sortB (fun a b => decide (b.score ≤ a.score))
          ((specPairs (team.map jsToLower) d).filter (fun pr => decide (30 ≤ pr.score))) ∧
      (calculateTeamSynergy team d).weakPairs =
        sortB (fun a b => decide (a.score ≤ b.score))
          ((specPairs (team.map jsToLower) d).filter (fun pr => decide (pr.score < 15))) ∧
      (calculateTeamSynergy team d).score =
        min 100 (qMean ((specPairs (team.map jsToLower) d).map SynergyPair.score) * 2)) ∧
    (calculateTeamSynergy ["Snorlax", "Zapdos"] synergyFixture).strongPairs =
      [SynergyPair.mk "snorlax" "zapdos" 71.8] ∧
    (calculateTeamSynergy ["Snorlax", "Zapdos"] synergyFixture).weakPairs = [] ∧
    (calculateTeamSynergy ["Snorlax", "Zapdos"] synergyFixture).score = 100 := by
  have hgen : ∀ (team : List String) (d : ProfileMap),
      (∀ m ∈ team.map jsToLower, '|' ∉ m.data) →
      (team.map jsToLower).Nodup →
      (calculateTeamSynergy team d).strongPairs =
        sortB (fun a b => decide (b.score ≤ a.score))
          ((specPairs (team.map jsToLower) d).filter (fun pr => decide (30 ≤ pr.score))) ∧
      (calculateTeamSynergy team d).weakPairs =
        sortB (fun a b => decide (a.score ≤ b.score))
          ((specPairs (team.map jsToLower) d).filter (fun pr => decide (pr.score < 15))) ∧
      (calculateTeamSynergy team d).score =
        min 100 (qMean ((specPairs (team.map jsToLower) d).map SynergyPair.score) * 2) := by
    intro team d hbar hnd
    have hgo := synPairsGo_spec d (team.map jsToLower) ⟨[], [], []⟩
    have hvals := foldl_mset_values pkey SynergyPair.score
      (specPairs (team.map jsToLower) d) []
      (specPairs_keys_nodup d (team.map jsToLower) hbar hnd)
      (fun k _ => rfl)
    refine ⟨?_, ?_, ?_⟩
    · simp only [calculateTeamSynergy, hgo, List.nil_append]
    · simp only [calculateTeamSynergy, hgo, List.nil_append]
    · simp only [calculateTeamSynergy, hgo]
      simp only [hvals]
      simp [qMean, mvalues]
  refine ⟨hgen, ?_, ?_, ?_⟩ <;>
  · have h1 : jsToLower "Snorlax" = "snorlax" := by decide
    have h2 : jsToLower "Zapdos" = "zapdos" := by decide
    have hne : ¬ ("snorlax" : String) = "zapdos" := by decide
    have hne2 : ¬ ("zapdos" : String) = "snorlax" := by decide
    norm_num [calculateTeamSynergy, synPairsGo, synInner, synergyFixture, mkProfile,
      h1, h2, hne, hne2, mget, mset, mvalues, sortB, insertB, min_def]

/-- Witness for C4's general statement at the Snorlax/Zapdos fixture. -/
theorem calculateTeamSynergy_spec_witness :
    (∀ m ∈ ["Snorlax", "Zapdos"].map jsToLower, '|' ∉ m.data) ∧
    (["Snorlax", "Zapdos"].map jsToLower).Nodup ∧
    ((calculateTeamSynergy ["Snorlax", "Zapdos"] synergyFixture).strongPairs =
      sortB (fun a b => decide (b.score ≤ a.score))
        ((specPairs (["Snorlax", "Zapdos"].map jsToLower) synergyFixture).filter
          (fun pr => decide (30 ≤ pr.score))) ∧
     (calculateTeamSynergy ["Snorlax", "Zapdos"] synergyFixture).weakPairs =
      sortB (fun a b => decide (a.score ≤ b.score))
        ((specPairs (["Snorlax", "Zapdos"].map jsToLower) synergyFixture).filter
          (fun pr => decide (pr.score < 15))) ∧
     (calculateTeamSynergy ["Snorlax", "Zapdos"] synergyFixture).score =
      min 100 (qMean ((specPairs (["Snorlax", "Zapdos"].map jsToLower)
        synergyFixture).map SynergyPair.score) * 2)) :=
  ⟨by decide, by decide,
    calculateTeamSynergy_spec.1 ["Snorlax", "Zapdos"] synergyFixture
      (by decide) (by decide)⟩

end Smogon

namespace Smogon

/-! ## Claim C2: coverage lemmas -/

theorem mget_mem (k : String) (v : β) :
    ∀ m : List (String × β), mget k m = some v → (k, v) ∈ m
  | (k1, v1) :: t, h => by
    by_cases h1 : k1 = k
    · subst h1
      simp [mget] at h
      subst h
      exact List.mem_cons_self _ _
    · simp only [mget, if_neg h1] at h
      exact List.mem_cons_of_mem _ (mget_mem k v t h)

theorem mget_mapshape_mem (f : String → ℕ) (k : String) :
    ∀ l : List String, k ∈ l → mget k (l.map (fun t => (t, f t))) = some (f k)
  | a :: rest, h => by
    by_cases h1 : a = k
    · subst h1
      simp [mget]
    · rcases List.mem_cons.1 h with h2 | h2
      · exact absurd h2.symm h1
      · simpa [mget, h1] using mget_mapshape_mem f k rest h2

theorem mset_mapshape (f : String → ℕ) (k : String) (v : ℕ) :
    ∀ l : List String, k ∈ l → l.Nodup →
      mset k v (l.map (fun t => (t, f t))) =
        l.map (fun t => (t, if t = k then v else f t))
  | a :: rest, hct, hnd => by
    rw [List.nodup_cons] at hnd
    by_cases h1 : a = k
    · subst h1
      have hrest : List.map (fun t => (t, f t)) rest =
          List.map (fun t => (t, if t = a then v else f t)) rest := by
        refine List.map_eq_map_iff.mpr ?_
        intro t ht
        have hne : ¬ t = a := fun hh => hnd.1 (hh ▸ ht)
        simp [hne]
      simp [mset, hrest]
    · rcases List.mem_cons.1 hct with h2 | h2
      · exact absurd h2.symm h1
      · simp only [List.map_cons, mset, if_neg h1]
        rw [mset_mapshape f k v rest h2 hnd.2]

theorem bumpCoverage_mapshape (f : String → ℕ) (ct : String)
    (l : List String) (hct : ct ∈ l) (hnd : l.Nodup) :
    bumpCoverage (l.map (fun t => (t, f t))) ct =
      l.map (fun t => (t, if t = ct then f t + 1 else f t)) := by
  rw [bumpCoverage, mget_mapshape_mem f ct l hct]
  simp only [Option.getD_some]
  rw [mset_mapshape f ct (f ct + 1) l hct hnd]
  refine List.map_eq_map_iff.mpr ?_
  intro t ht
  by_cases h1 : t = ct
  · subst h1
    simp
  · simp [h1]

theorem countP_eq_mem (u : String) :
    ∀ l : List String, l.Nodup →
      l.countP (fun s => decide (s = u)) = if u ∈ l then 1 else 0
  | [], _ => by simp
  | a :: rest, hnd => by
    rw [List.nodup_cons] at hnd
    rw [List.countP_cons, countP_eq_mem u rest hnd.2]
    by_cases h1 : a = u
    · subst h1
      simp [hnd.1]
    · have : ¬ u = a := fun hh => h1 hh.symm
      simp [h1, this, List.mem_cons]

theorem bumps_mapshape (l : List String) (hnd : l.Nodup) :
    ∀ (strongL : List String) (f : String → ℕ), (∀ s ∈ strongL, s ∈ l) →
      strongL.foldl bumpCoverage (l.map (fun t => (t, f t))) =
        l.map (fun t => (t, f t + strongL.countP (fun s => decide (s = t))))
  | [], f, _ => by simp
  | s :: rest, f, hsub => by
    rw [List.foldl_cons,
      bumpCoverage_mapshape f s l (hsub s (List.mem_cons_self s rest)) hnd,
      bumps_mapshape l hnd rest (fun t => if t = s then f t + 1 else f t)
        (fun x hx => hsub x (List.mem_cons_of_mem s hx))]
    refine List.map_eq_map_iff.mpr ?_
    intro t _
    simp only [List.countP_cons]
    by_cases h1 : t = s
    · subst h1
      simp
      omega
    · have h2 : ¬ s = t := fun hh => h1 hh.symm
      simp [h1, h2]

theorem typeChart_strong_sub : ∀ pe ∈ typeChart, ∀ s ∈ pe.2.strong, s ∈ allTypes := by
  decide

theorem typeChart_strong_nodup : ∀ pe ∈ typeChart, pe.2.strong.Nodup := by
  decide

theorem allTypes_nodup : allTypes.Nodup := by decide

theorem coverFold_fst :
    ∀ (mvs : List (String × ℚ)) (f : String → ℕ) (pm : List String),
      (mvs.foldl coverStep (allTypes.map (fun t => (t, f t)), pm)).1 =
        allTypes.map
          (fun t => (t, f t + (resolvedTypesOf mvs).countP (fun s => decide (t ∈ typeStrong s))))
  | [], f, pm => by simp [resolvedTypesOf]
  | mv :: rest, f, pm => by
    rw [List.foldl_cons]
    by_cases hoth : mv.1 = "Other"
    · have hres : resolvedTypesOf (mv :: rest) = resolvedTypesOf rest := by
        simp [resolvedTypesOf, List.filterMap_cons, hoth]
      rw [hres, show coverStep (allTypes.map (fun t => (t, f t)), pm) mv =
          (allTypes.map (fun t => (t, f t)), pm) by simp [coverStep, hoth]]
      exact coverFold_fst rest f pm
    · cases hmt : getMoveType mv.1 with
      | none =>
        have hres : resolvedTypesOf (mv :: rest) = resolvedTypesOf rest := by
          simp [resolvedTypesOf, List.filterMap_cons, hoth, hmt]
        rw [hres, show coverStep (allTypes.map (fun t => (t, f t)), pm) mv =
            (allTypes.map (fun t => (t, f t)), setAdd pm mv.1) by
          simp [coverStep, hoth, hmt]]
        exact coverFold_fst rest f (setAdd pm mv.1)
      | some mt =>
        cases hch : mget mt typeChart with
        | none =>
          have hres : resolvedTypesOf (mv :: rest) = resolvedTypesOf rest := by
            simp [resolvedTypesOf, List.filterMap_cons, hoth, hmt, hch]
          rw [hres, show coverStep (allTypes.map (fun t => (t, f t)), pm) mv =
              (allTypes.map (fun t => (t, f t)), setAdd pm mv.1) by
            simp [coverStep, hoth, hmt, hch]]
          exact coverFold_fst rest f (setAdd pm mv.1)
        | some eff =>
          have hmem : (mt, eff) ∈ typeChart := mget_mem mt eff typeChart hch
          have hres : resolvedTypesOf (mv :: rest) = mt :: resolvedTypesOf rest := by
            simp [resolvedTypesOf, List.filterMap_cons, hoth, hmt, hch]
          have hstep : coverStep (allTypes.map (fun t => (t, f t)), pm) mv =
              (eff.strong.foldl bumpCoverage (allTypes.map (fun t => (t, f t))),
                setAdd pm mv.1) := by
            simp [coverStep, hoth, hmt, hch]
          rw [hres, hstep,
            bumps_mapshape allTypes allTypes_nodup eff.strong f
              (typeChart_strong_sub (mt, eff) hmem),
            coverFold_fst rest
              (fun t => f t + eff.strong.countP (fun s => decide (s = t)))
              (setAdd pm mv.1)]
          refine List.map_eq_map_iff.mpr ?_
          intro t _
          simp only [List.countP_cons, Prod.mk.injEq, true_and]
          have hts : typeStrong mt = eff.strong := by simp [typeStrong, hch]
          rw [countP_eq_mem t eff.strong (typeChart_strong_nodup (mt, eff) hmem), hts]
          by_cases hm2 : t ∈ eff.strong
          · simp [hm2]
            omega
          · simp [hm2]

theorem teamCoverFold_fst (d : ProfileMap) :
    ∀ (members : List String) (f : String → ℕ) (mb : List (String × List String)),
      (members.foldl
        (fun st pokemonName =>
          match mget pokemonName d with
          | none => st
          | some data => coverOneMember pokemonName data st)
        (allTypes.map (fun t => (t, f t)), mb)).1 =
      allTypes.map
        (fun t => (t, f t + (teamResolvedFrom members d).countP
          (fun s => decide (t ∈ typeStrong s))))
  | [], f, mb => by simp [teamResolvedFrom]
  | m :: rest, f, mb => by
    rw [List.foldl_cons]
    cases hm : mget m d with
    | none =>
      have hres : teamResolvedFrom (m :: rest) d = teamResolvedFrom rest d := by
        simp [teamResolvedFrom, hm]
      rw [hres]
      simp only [hm]
      exact teamCoverFold_fst d rest f mb
    | some data =>
      have hres : teamResolvedFrom (m :: rest) d =
          memberResolvedTypes data ++ teamResolvedFrom rest d := by
        simp [teamResolvedFrom, hm]
      have hcm1 : ((coverageTopMoves data).foldl coverStep
          (allTypes.map (fun t => (t, f t)), ([] : List String))).1 =
          allTypes.map (fun t => (t, f t + (memberResolvedTypes data).countP
            (fun s => decide (t ∈ typeStrong s)))) :=
        coverFold_fst (coverageTopMoves data) f []
      have hcm : coverOneMember m data (allTypes.map (fun t => (t, f t)), mb) =
          (allTypes.map (fun t => (t, f t + (memberResolvedTypes data).countP
            (fun s => decide (t ∈ typeStrong s)))),
           mset m ((coverageTopMoves data).foldl coverStep
             (allTypes.map (fun t => (t, f t)), ([] : List String))).2 mb) := by
        simp only [coverOneMember]
        rw [hcm1]
      rw [hres]
      simp only [hm]
      rw [hcm,
        teamCoverFold_fst d rest
          (fun t => f t + (memberResolvedTypes data).countP
            (fun s => decide (t ∈ typeStrong s))) _]
      refine List.map_eq_map_iff.mpr ?_
      intro t _
      rw [List.countP_append]
      simp [Nat.add_assoc]


theorem analyzeCoverage_cov (team : List String) (d : ProfileMap) :
    (analyzeCoverage team d).coverageByType =
      allTypes.map (fun t => (t, coverCount team d t)) := by
  have h : (List.foldl
      (fun st pokemonName =>
        match mget pokemonName d with
        | none => st
        | some data => coverOneMember pokemonName data st)
      (allTypes.map (fun t => (t, (0 : ℕ))), ([] : List (String × List String)))
      (team.map jsToLower)).1 =
      allTypes.map (fun t => (t, 0 + (teamResolvedFrom (team.map jsToLower) d).countP
        (fun s => decide (t ∈ typeStrong s)))) :=
    teamCoverFold_fst d (team.map jsToLower) (fun _ => 0) []
  show (List.foldl
      (fun st pokemonName =>
        match mget pokemonName d with
        | none => st
        | some data => coverOneMember pokemonName data st)
      (allTypes.map (fun t => (t, (0 : ℕ))), ([] : List (String × List String)))
      (team.map jsToLower)).1 = _
  rw [h]
  simp [coverCount, teamResolvedTypes]

theorem analyzeCoverage_gaps_def (team : List String) (d : ProfileMap) :
    (analyzeCoverage team d).gaps =
      ((analyzeCoverage team d).coverageByType.filter (fun p => p.2 = 0)).map Prod.fst := rfl

theorem analyzeCoverage_score_def (team : List String) (d : ProfileMap) :
    (analyzeCoverage team d).coverageScore =
      (((analyzeCoverage team d).coverageByType.filter (fun p => 0 < p.2)).length : ℚ) /
        (allTypes.length : ℚ) * 100 := rfl

/-- C2: `analyzeCoverage`'s gaps are exactly the chart types whose
team coverage count is zero (stated as a filter equality and as a
membership characterization), its coverage score is
(number of types with positive count) / 17 × 100, and in any
scenario where every type other than Ghost and Psychic has positive
coverage while Ghost and Psychic have none, the gap list is exactly
{Ghost, Psychic} up to order. -/
theorem analyzeCoverage_spec (team : List String) (d : ProfileMap) :
    (analyzeCoverage team d).gaps =
      allTypes.filter (fun t => coverCount team d t = 0) ∧
    (∀ ty, ty ∈ (analyzeCoverage team d).gaps ↔
      ty ∈ allTypes ∧ coverCount team d ty = 0) ∧
    (analyzeCoverage team d).coverageScore =
      ((allTypes.filter (fun t => 0 < coverCount team d t)).length : ℚ) / 17 * 100 ∧
    ((∀ t ∈ allTypes, t ≠ "Ghost" → t ≠ "Psychic" → 0 < coverCount team d t) →
      coverCount team d "Ghost" = 0 → coverCount team d "Psychic" = 0 →
      (analyzeCoverage team d).gaps.Perm ["Ghost", "Psychic"]) := by
  have hcov := analyzeCoverage_cov team d
  have hgaps : (analyzeCoverage team d).gaps =
      allTypes.filter (fun t => coverCount team d t = 0) := by
    rw [analyzeCoverage_gaps_def, hcov, List.filter_map, List.map_map]
    simp [Function.comp_def]
  refine ⟨hgaps, ?_, ?_, ?_⟩
  · intro ty
    rw [hgaps]
    simp [List.mem_filter]
  · rw [analyzeCoverage_score_def, hcov, List.filter_map, List.length_map]
    have hlen : allTypes.length = 17 := rfl
    rw [hlen]
    simp [Function.comp_def]
  · intro hall hg hp
    rw [hgaps]
    have hfe : allTypes.filter (fun t => coverCount team d t = 0) =
        allTypes.filter (fun t => t = "Ghost" ∨ t = "Psychic") := by
      refine List.filter_congr ?_
      intro t ht
      by_cases h1 : t = "Ghost"
      · simp [h1, hg]
      · by_cases h2 : t = "Psychic"
        · simp [h1, h2, hp]
        · have hne := Nat.pos_iff_ne_zero.mp (hall t ht h1 h2)
          simp [h1, h2, hne]
    rw [hfe]
    decide

/-- A team whose resolved top-4 move types cover every chart type except
Ghost and Psychic yields exactly those two gaps. -/
theorem analyzeCoverage_spec_witness :
    (analyzeCoverage ["alpha", "beta"] coverageFixture).gaps.Perm ["Ghost", "Psychic"] :=
  (analyzeCoverage_spec ["alpha", "beta"] coverageFixture).2.2.2
    (by decide) (by decide) (by decide)


/-! ## Blind-spot engine lemmas -/

theorem mem_setAdd (l : List String) (x y : String) :
    y ∈ setAdd l x ↔ y ∈ l ∨ y = x := by
  by_cases h : x ∈ l
  · simp only [setAdd, if_pos h]
    constructor
    · exact Or.inl
    · rintro (hy | rfl)
      · exact hy
      · exact h
  · simp [setAdd, h]

theorem self_mem_setAdd (l : List String) (x : String) : x ∈ setAdd l x :=
  (mem_setAdd l x x).mpr (Or.inr rfl)

theorem setAdd_idem (l : List String) (x : String) :
    setAdd (setAdd l x) x = setAdd l x := by
  rw [show setAdd (setAdd l x) x =
    if x ∈ setAdd l x then setAdd l x else setAdd l x ++ [x] from rfl,
    if_pos (self_mem_setAdd l x)]

theorem setAdd_nodup (l : List String) (x : String) (h : l.Nodup) :
    (setAdd l x).Nodup := by
  by_cases hx : x ∈ l
  · simpa [setAdd, hx] using h
  · rw [show setAdd l x = l ++ [x] from by simp [setAdd, hx]]
    exact List.Nodup.append h (List.nodup_singleton x) (by simpa using hx)

theorem mkeys_mset (k : String) (v : β) :
    ∀ m : List (String × β), ∀ x, x ∈ mkeys (mset k v m) ↔ x ∈ mkeys m ∨ x = k
  | [], x => by simp [mset, mkeys]
  | (k1, v1) :: t, x => by
    by_cases h1 : k1 = k
    · subst h1
      simp [mset, mkeys, List.mem_cons]
      tauto
    · simp only [mset, if_neg h1, mkeys, List.map_cons, List.mem_cons]
      rw [show x ∈ List.map Prod.fst (mset k v t) ↔ x ∈ mkeys (mset k v t) from Iff.rfl,
        mkeys_mset k v t x]
      tauto

theorem mkeys_nodup_mset (k : String) (v : β) :
    ∀ m : List (String × β), (mkeys m).Nodup → (mkeys (mset k v m)).Nodup
  | [], _ => by simp [mset, mkeys]
  | (k1, v1) :: t, h => by
    rw [mkeys, List.map_cons, List.nodup_cons] at h
    by_cases h1 : k1 = k
    · subst h1
      simpa [mset, mkeys] using h
    · have ht := mkeys_nodup_mset k v t h.2
      simp only [mset, if_neg h1, mkeys, List.map_cons, List.nodup_cons]
      refine ⟨?_, ht⟩
      intro hmem
      rcases (mkeys_mset k v t k1).mp hmem with h2 | h2
      · exact h.1 h2
      · exact h1 h2

theorem mget_of_mem_keys_nodup :
    ∀ m : List (String × β), (mkeys m).Nodup → ∀ p ∈ m, mget p.1 m = some p.2
  | [], _, p, hp => absurd hp (List.not_mem_nil p)
  | (k1, v1) :: t, h, p, hp => by
    rw [mkeys, List.map_cons, List.nodup_cons] at h
    rcases List.mem_cons.1 hp with rfl | hp2
    · simp [mget]
    · have hk : ¬ k1 = p.1 := by
        intro he
        exact h.1 (by rw [he]; exact List.mem_map.2 ⟨p, hp2, rfl⟩)
      rw [show mget p.1 ((k1, v1) :: t) =
        if k1 = p.1 then some v1 else mget p.1 t from rfl, if_neg hk]
      exact mget_of_mem_keys_nodup t h.2 p hp2

theorem thrOf_threatUpd_self (t m : String) (sc : ℚ) (acc : List (String × ThreatAcc)) :
    thrOf t (threatUpd acc t m sc) = setAdd (thrOf t acc) m := by
  cases hm : mget t acc with
  | none => simp [threatUpd, hm, thrOf, mget_mset_self, setAdd]
  | some e => simp [threatUpd, hm, thrOf, mget_mset_self]

theorem thrOf_threatUpd_ne (t k m : String) (sc : ℚ)
    (acc : List (String × ThreatAcc)) (h : k ≠ t) :
    thrOf t (threatUpd acc k m sc) = thrOf t acc := by
  cases hm : mget k acc with
  | none => simp [threatUpd, hm, thrOf, mget_mset_ne k t _ (fun hh => h hh.symm)]
  | some e => simp [threatUpd, hm, thrOf, mget_mset_ne k t _ (fun hh => h hh.symm)]

theorem threatUpd_keys_nodup (acc : List (String × ThreatAcc)) (k m : String)
    (sc : ℚ) (h : (mkeys acc).Nodup) : (mkeys (threatUpd acc k m sc)).Nodup := by
  cases hm : mget k acc with
  | none =>
    simp only [threatUpd, hm]
    exact mkeys_nodup_mset k _ acc h
  | some e =>
    simp only [threatUpd, hm]
    exact mkeys_nodup_mset k _ acc h

theorem thrOf_counterFold (t m : String) :
    ∀ (cs : List CheckCounter) (acc : List (String × ThreatAcc)),
      thrOf t (cs.foldl (fun acc c => threatUpd acc (jsToLower c.name) m c.score) acc) =
        if t ∈ cs.map (fun c => jsToLower c.name) then setAdd (thrOf t acc) m
        else thrOf t acc
  | [], acc => by simp
  | c :: cs, acc => by
    rw [List.foldl_cons,
      thrOf_counterFold t m cs (threatUpd acc (jsToLower c.name) m c.score)]
    by_cases hk : jsToLower c.name = t
    · rw [hk, thrOf_threatUpd_self t m c.score acc]
      have hmem : t ∈ List.map (fun c => jsToLower c.name) (c :: cs) := by
        simp [hk]
      rw [if_pos hmem]
      by_cases h2 : t ∈ List.map (fun c => jsToLower c.name) cs
      · rw [if_pos h2, setAdd_idem]
      · rw [if_neg h2]
    · rw [thrOf_threatUpd_ne t (jsToLower c.name) m c.score acc hk]
      have hne : ¬ t = jsToLower c.name := fun hh => hk hh.symm
      simp only [List.map_cons, List.mem_cons, hne, false_or]

theorem thrOf_memberFold (d : ProfileMap) (t : String) :
    ∀ (ms : List String) (acc : List (String × ThreatAcc)),
      thrOf t (ms.foldl
        (fun acc teamMember =>
          match mget teamMember d with
          | none => acc
          | some data =>
            data.checksAndCounters.foldl
              (fun acc counter =>
                threatUpd acc (jsToLower counter.name) teamMember counter.score)
              acc)
        acc) =
      ms.foldl (threatStep d t) (thrOf t acc)
  | [], acc => by simp
  | m :: ms, acc => by
    rw [List.foldl_cons, List.foldl_cons]
    cases hm : mget m d with
    | none =>
      simp only [hm]
      have hstep : threatStep d t (thrOf t acc) m = thrOf t acc := by
        simp [threatStep, memberThreatens, hm]
      rw [hstep]
      exact thrOf_memberFold d t ms acc
    | some data =>
      simp only [hm]
      rw [thrOf_memberFold d t ms _, thrOf_counterFold t m data.checksAndCounters acc]
      have hstep : threatStep d t (thrOf t acc) m =
          if t ∈ data.checksAndCounters.map (fun c => jsToLower c.name) then
            setAdd (thrOf t acc) m
          else thrOf t acc := by
        simp [threatStep, memberThreatens, hm]
      rw [hstep]

theorem thrOf_collectThreats (d : ProfileMap) (t : String) (ms : List String) :
    thrOf t (collectThreats ms d) = ms.foldl (threatStep d t) [] := by
  have h := thrOf_memberFold d t ms []
  have h2 : thrOf t ([] : List (String × ThreatAcc)) = [] := rfl
  rw [h2] at h
  exact h

theorem counterFold_keys_nodup (m : String) :
    ∀ (cs : List CheckCounter) (acc : List (String × ThreatAcc)),
      (mkeys acc).Nodup →
      (mkeys (cs.foldl
        (fun acc c => threatUpd acc (jsToLower c.name) m c.score) acc)).Nodup
  | [], acc, h => by simpa using h
  | c :: cs, acc, h => by
    rw [List.foldl_cons]
    exact counterFold_keys_nodup m cs _ (threatUpd_keys_nodup acc _ m c.score h)

theorem memberFold_keys_nodup (d : ProfileMap) :
    ∀ (ms : List String) (acc : List (String × ThreatAcc)),
      (mkeys acc).Nodup →
      (mkeys (ms.foldl
        (fun acc teamMember =>
          match mget teamMember d with
          | none => acc
          | some data =>
            data.checksAndCounters.foldl
              (fun acc counter =>
                threatUpd acc (jsToLower counter.name) teamMember counter.score)
              acc)
        acc)).Nodup
  | [], acc, h => by simpa using h
  | m :: ms, acc, h => by
    rw [List.foldl_cons]
    cases hm : mget m d with
    | none =>
      simp only [hm]
      exact memberFold_keys_nodup d ms acc h
    | some data =>
      simp only [hm]
      exact memberFold_keys_nodup d ms _
        (counterFold_keys_nodup m data.checksAndCounters acc h)

theorem collectThreats_keys_nodup (ms : List String) (d : ProfileMap) :
    (mkeys (collectThreats ms d)).Nodup :=
  memberFold_keys_nodup d ms [] (by simp [mkeys])

theorem mem_threatStep_fold (d : ProfileMap) (t : String) :
    ∀ (ms l0 : List String) (x : String),
      x ∈ ms.foldl (threatStep d t) l0 ↔
        x ∈ l0 ∨ (x ∈ ms ∧ memberThreatens d x t = true)
  | [], l0, x => by simp
  | m :: ms, l0, x => by
    rw [List.foldl_cons, mem_threatStep_fold d t ms (threatStep d t l0 m) x]
    by_cases hm : memberThreatens d m t = true
    · rw [show threatStep d t l0 m = setAdd l0 m from by simp [threatStep, hm],
        mem_setAdd]
      constructor
      · rintro ((h1 | rfl) | ⟨h2, h3⟩)
        · exact Or.inl h1
        · exact Or.inr ⟨List.mem_cons_self _ _, hm⟩
        · exact Or.inr ⟨List.mem_cons_of_mem m h2, h3⟩
      · rintro (h1 | ⟨h2, h3⟩)
        · exact Or.inl (Or.inl h1)
        · rcases List.mem_cons.1 h2 with rfl | h4
          · exact Or.inl (Or.inr rfl)
          · exact Or.inr ⟨h4, h3⟩
    · rw [show threatStep d t l0 m = l0 from by simp [threatStep, hm]]
      constructor
      · rintro (h1 | ⟨h2, h3⟩)
        · exact Or.inl h1
        · exact Or.inr ⟨List.mem_cons_of_mem m h2, h3⟩
      · rintro (h1 | ⟨h2, h3⟩)
        · exact Or.inl h1
        · rcases List.mem_cons.1 h2 with rfl | h4
          · exact absurd h3 hm
          · exact Or.inr ⟨h4, h3⟩

theorem nodup_threatStep_fold (d : ProfileMap) (t : String) :
    ∀ (ms l0 : List String), l0.Nodup → (ms.foldl (threatStep d t) l0).Nodup
  | [], l0, h => by simpa using h
  | m :: ms, l0, h => by
    rw [List.foldl_cons]
    refine nodup_threatStep_fold d t ms (threatStep d t l0 m) ?_
    by_cases hm : memberThreatens d m t = true
    · rw [show threatStep d t l0 m = setAdd l0 m from by simp [threatStep, hm]]
      exact setAdd_nodup l0 m h
    · rw [show threatStep d t l0 m = l0 from by simp [threatStep, hm]]
      exact h

theorem threatStep_fold_length (d : ProfileMap) (t : String) (team : List String) :
    ((team.map jsToLower).foldl (threatStep d t) []).length =
      membersThreatened t team d := by
  have h1 : ((team.map jsToLower).foldl (threatStep d t) []).Nodup :=
    nodup_threatStep_fold d t (team.map jsToLower) [] (by simp)
  have h2 : (((team.map jsToLower).dedup).filter
      (fun m => memberThreatens d m t)).Nodup :=
    (List.nodup_dedup (team.map jsToLower)).filter _
  have h3 : ∀ x, x ∈ (team.map jsToLower).foldl (threatStep d t) [] ↔
      x ∈ ((team.map jsToLower).dedup).filter (fun m => memberThreatens d m t) := by
    intro x
    rw [mem_threatStep_fold d t (team.map jsToLower) [] x, List.mem_filter,
      List.mem_dedup]
    simp
  have h4 := (List.perm_ext_iff_of_nodup h1 h2).mpr h3
  rw [h4.length_eq]
  rfl

theorem blindFold_eq (teamSize : ℕ) :
    ∀ (threats : List (String × ThreatAcc)) (bs0 : List BlindSpot),
      threats.foldl (blindStep teamSize) bs0 =
        bs0 ++ threats.filterMap
          (fun p =>
            if (max 2 ⌈(teamSize : ℚ) * 0.33⌉ : ℤ) ≤ (p.2.threatens.length : ℤ) then
              some ⟨p.1, p.2.threatens, p.2.scores.sum / (p.2.scores.length : ℚ)⟩
            else none)
  | [], bs0 => by simp
  | p :: threats, bs0 => by
    rw [List.foldl_cons, blindFold_eq teamSize threats (blindStep teamSize bs0 p),
      List.filterMap_cons]
    by_cases hc : (max 2 ⌈(teamSize : ℚ) * 0.33⌉ : ℤ) ≤ (p.2.threatens.length : ℤ)
    · simp [blindStep, hc]
    · simp [blindStep, hc]


/-- C6: a threat appears in the blind-spot list iff the number of
distinct team members whose checks-and-counters lists contain it
reaches `max(2, ceil(teamSize * 0.33))`; every listed entry's
threatened count is that member count; the list is sorted by members
threatened descending, ties by mean counter score descending; and a
team of 4 has threshold `max(2, ceil(1.32)) = 2`. -/
theorem findBlindSpots_spec (team : List String) (d : ProfileMap) :
    (∀ t, t ∈ (findBlindSpots team d).map BlindSpot.pokemon ↔
      blindSpotThreshold team.length ≤ (membersThreatened t team d : ℤ)) ∧
    (∀ b ∈ findBlindSpots team d,
      b.threatens.length = membersThreatened b.pokemon team d) ∧
    (findBlindSpots team d).Pairwise
      (fun a b => b.threatens.length < a.threatens.length ∨
        (a.threatens.length = b.threatens.length ∧ b.avgScore ≤ a.avgScore)) ∧
    blindSpotThreshold 4 = 2 := by
  have hkeys : (mkeys (collectThreats (team.map jsToLower) d)).Nodup :=
    collectThreats_keys_nodup (team.map jsToLower) d
  have hlen : ∀ t, (thrOf t (collectThreats (team.map jsToLower) d)).length =
      membersThreatened t team d := by
    intro t
    rw [thrOf_collectThreats d t (team.map jsToLower)]
    exact threatStep_fold_length d t team
  have hth : (max 2 ⌈(((team.map jsToLower).length : ℕ) : ℚ) * 0.33⌉ : ℤ) =
      blindSpotThreshold team.length := by
    simp [blindSpotThreshold, List.length_map]
  have hfb : findBlindSpots team d =
      sortB
        (fun a b =>
          if a.threatens.length = b.threatens.length then decide (b.avgScore ≤ a.avgScore)
          else decide (b.threatens.length ≤ a.threatens.length))
        ((collectThreats (team.map jsToLower) d).filterMap
          (fun p =>
            if (max 2 ⌈(((team.map jsToLower).length : ℕ) : ℚ) * 0.33⌉ : ℤ) ≤
                (p.2.threatens.length : ℤ) then
              some ⟨p.1, p.2.threatens, p.2.scores.sum / (p.2.scores.length : ℚ)⟩
            else none)) := by
    show sortB _ ((collectThreats (team.map jsToLower) d).foldl
      (blindStep (team.map jsToLower).length) []) = _
    rw [blindFold_eq (team.map jsToLower).length (collectThreats (team.map jsToLower) d) [],
      List.nil_append]
  refine ⟨?_, ?_, ?_, ?_⟩
  · intro t
    constructor
    · intro ht
      rcases List.mem_map.1 ht with ⟨b, hb, hbt⟩
      rw [hfb, mem_sortB] at hb
      rcases List.mem_filterMap.1 hb with ⟨p, hp, hfp⟩
      by_cases hc : (max 2 ⌈(((team.map jsToLower).length : ℕ) : ℚ) * 0.33⌉ : ℤ) ≤
          (p.2.threatens.length : ℤ)
      · rw [if_pos hc] at hfp
        have hbe := Option.some.inj hfp
        have hg : mget p.1 (collectThreats (team.map jsToLower) d) = some p.2 :=
          mget_of_mem_keys_nodup (collectThreats (team.map jsToLower) d) hkeys p hp
        have hthr_p : thrOf p.1 (collectThreats (team.map jsToLower) d) =
            p.2.threatens := by
          simp [thrOf, hg]
        have hpt : p.1 = t := by rw [← hbt, ← hbe]
        have hcnt : p.2.threatens.length = membersThreatened t team d := by
          rw [← hthr_p, hlen, hpt]
        rw [← hcnt, ← hth]
        exact hc
      · rw [if_neg hc] at hfp
        exact absurd hfp (by simp)
    · intro ht
      have h2le : (2 : ℤ) ≤ (membersThreatened t team d : ℤ) :=
        le_trans (le_max_left 2 ⌈(team.length : ℚ) * 0.33⌉) ht
      have h2le2 : 2 ≤ membersThreatened t team d := by exact_mod_cast h2le
      have hne : thrOf t (collectThreats (team.map jsToLower) d) ≠ [] := by
        intro h0
        rw [← hlen t, h0] at h2le2
        simp at h2le2
      cases hg : mget t (collectThreats (team.map jsToLower) d) with
      | none => exact absurd (by simp [thrOf, hg]) hne
      | some e =>
        have hmem2 : (t, e) ∈ collectThreats (team.map jsToLower) d :=
          mget_mem t e _ hg
        have hthr_t : thrOf t (collectThreats (team.map jsToLower) d) =
            e.threatens := by
          simp [thrOf, hg]
        have hcond : (max 2 ⌈(((team.map jsToLower).length : ℕ) : ℚ) * 0.33⌉ : ℤ) ≤
            (e.threatens.length : ℤ) := by
          have hc2 : e.threatens.length = membersThreatened t team d := by
            rw [← hthr_t, hlen]
          rw [hc2, hth]
          exact ht
        refine List.mem_map.2
          ⟨⟨t, e.threatens, e.scores.sum / (e.scores.length : ℚ)⟩, ?_, rfl⟩
        rw [hfb, mem_sortB]
        exact List.mem_filterMap.2 ⟨(t, e), hmem2, by rw [if_pos hcond]⟩
  · intro b hb
    rw [hfb, mem_sortB] at hb
    rcases List.mem_filterMap.1 hb with ⟨p, hp, hfp⟩
    by_cases hc : (max 2 ⌈(((team.map jsToLower).length : ℕ) : ℚ) * 0.33⌉ : ℤ) ≤
        (p.2.threatens.length : ℤ)
    · rw [if_pos hc] at hfp
      have hbe := Option.some.inj hfp
      have hg : mget p.1 (collectThreats (team.map jsToLower) d) = some p.2 :=
        mget_of_mem_keys_nodup (collectThreats (team.map jsToLower) d) hkeys p hp
      have hthr_p : thrOf p.1 (collectThreats (team.map jsToLower) d) =
          p.2.threatens := by
        simp [thrOf, hg]
      rw [← hbe]
      show p.2.threatens.length = membersThreatened p.1 team d
      rw [← hthr_p, hlen]
    · rw [if_neg hc] at hfp
      exact absurd hfp (by simp)
  · have hp := sortB_pairwise
      (fun a b : BlindSpot =>
        if a.threatens.length = b.threatens.length then decide (b.avgScore ≤ a.avgScore)
        else decide (b.threatens.length ≤ a.threatens.length))
      (fun a b => by
        beta_reduce
        by_cases h1 : a.threatens.length = b.threatens.length
        · rw [if_pos h1, if_pos h1.symm]
          rcases le_total b.avgScore a.avgScore with h | h
          · exact Or.inl (by simpa using h)
          · exact Or.inr (by simpa using h)
        · rw [if_neg h1, if_neg (fun hh => h1 hh.symm)]
          rcases le_total b.threatens.length a.threatens.length with h | h
          · exact Or.inl (by simpa using h)
          · exact Or.inr (by simpa using h))
      (fun a b c hab hbc => by
        beta_reduce at hab hbc ⊢
        by_cases h1 : a.threatens.length = b.threatens.length
        · rw [if_pos h1] at hab
          simp only [decide_eq_true_eq] at hab
          by_cases h2 : b.threatens.length = c.threatens.length
          · rw [if_pos h2] at hbc
            simp only [decide_eq_true_eq] at hbc
            rw [if_pos (h1.trans h2)]
            simp only [decide_eq_true_eq]
            exact le_trans hbc hab
          · rw [if_neg h2] at hbc
            simp only [decide_eq_true_eq] at hbc
            have h3 : ¬ a.threatens.length = c.threatens.length := by
              rw [h1]; exact h2
            rw [if_neg h3]
            simp only [decide_eq_true_eq]
            omega
        · rw [if_neg h1] at hab
          simp only [decide_eq_true_eq] at hab
          have hlt : b.threatens.length < a.threatens.length :=
            lt_of_le_of_ne hab (fun hh => h1 hh.symm)
          by_cases h2 : b.threatens.length = c.threatens.length
          · have h3 : ¬ a.threatens.length = c.threatens.length := by omega
            rw [if_neg h3]
            simp only [decide_eq_true_eq]
            omega
          · rw [if_neg h2] at hbc
            simp only [decide_eq_true_eq] at hbc
            have h3 : ¬ a.threatens.length = c.threatens.length := by omega
            rw [if_neg h3]
            simp only [decide_eq_true_eq]
            omega)
      ((collectThreats (team.map jsToLower) d).filterMap
        (fun p =>
          if (max 2 ⌈(((team.map jsToLower).length : ℕ) : ℚ) * 0.33⌉ : ℤ) ≤
              (p.2.threatens.length : ℤ) then
            some ⟨p.1, p.2.threatens, p.2.scores.sum / (p.2.scores.length : ℚ)⟩
          else none))
    rw [hfb]
    refine hp.imp ?_
    intro a b h
    beta_reduce at h
    by_cases h1 : a.threatens.length = b.threatens.length
    · rw [if_pos h1] at h
      exact Or.inr ⟨h1, by simpa using h⟩
    · rw [if_neg h1] at h
      exact Or.inl (lt_of_le_of_ne (by simpa using h) (fun hh => h1 hh.symm))
  · have hc : (⌈((4 : ℕ) : ℚ) * 0.33⌉ : ℤ) = 2 := by norm_num [Int.ceil_eq_iff]
    show max 2 ⌈((4 : ℕ) : ℚ) * 0.33⌉ = 2
    rw [hc]
    exact max_self 2

/-- A threat countering 3 of 4 team members qualifies as a blind spot
(threshold `max(2, ceil(4 * 0.33)) = 2`). -/
theorem findBlindSpots_spec_witness :
    "darkrai" ∈ (findBlindSpots ["M1", "M2", "M3", "M4"] blindSpotFixture).map
      BlindSpot.pokemon :=
  ((findBlindSpots_spec ["M1", "M2", "M3", "M4"] blindSpotFixture).1 "darkrai").mpr (by
    have h1 : membersThreatened "darkrai" ["M1", "M2", "M3", "M4"] blindSpotFixture = 3 := by
      decide
    have h2 : (⌈((4 : ℕ) : ℚ) * 0.33⌉ : ℤ) = 2 := by norm_num [Int.ceil_eq_iff]
    have h3 : blindSpotThreshold (["M1", "M2", "M3", "M4"] : List String).length = 2 := by
      show max 2 ⌈((4 : ℕ) : ℚ) * 0.33⌉ = 2
      rw [h2]
      exact max_self 2
    rw [h1, h3]
    norm_num)


/-! ## Report-score bound lemmas -/

theorem foldl_preserve (P : σ → Prop) (f : σ → α → σ)
    (h : ∀ s a, P s → P (f s a)) : ∀ (l : List α) (s : σ), P s → P (l.foldl f s)
  | [], _, hs => hs
  | a :: l, s, hs => foldl_preserve P f h l (f s a) (h s a hs)

theorem mem_mvalues_mset (k : String) (v : β) :
    ∀ (m : List (String × β)) (q : β), q ∈ mvalues (mset k v m) → q = v ∨ q ∈ mvalues m
  | [], q, h => by
    simp [mset, mvalues] at h
    exact Or.inl h
  | (k1, v1) :: t, q, h => by
    by_cases h1 : k1 = k
    · subst h1
      simp only [mset, if_pos rfl, mvalues, List.map_cons] at h
      rcases List.mem_cons.1 h with h2 | h2
      · exact Or.inl h2
      · exact Or.inr (List.mem_cons_of_mem _ h2)
    · simp only [mset, if_neg h1, mvalues, List.map_cons] at h
      rcases List.mem_cons.1 h with h2 | h2
      · exact Or.inr (List.mem_cons.2 (Or.inl h2))
      · rcases mem_mvalues_mset k v t q h2 with h3 | h3
        · exact Or.inl h3
        · exact Or.inr (List.mem_cons.2 (Or.inr h3))

theorem synInner_values_nonneg (d : ProfileMap) (hT : teammatesNonneg d)
    (p1 : String) (data1 : PokemonUsageData)
    (hd1 : ∀ tv ∈ data1.teammates, 0 ≤ tv.2) (rest : List String)
    (acc : SynAcc) (hacc : ∀ q ∈ mvalues acc.pairScores, 0 ≤ q) :
    ∀ q ∈ mvalues (synInner d p1 data1 rest acc).pairScores, 0 ≤ q := by
  refine foldl_preserve (fun a => ∀ q ∈ mvalues a.pairScores, 0 ≤ q) _ ?_ rest acc hacc
  intro a p2 ha q hq
  cases hm2 : mget p2 d with
  | none =>
    simp only [hm2] at hq
    exact ha q hq
  | some data2 =>
    simp only [hm2] at hq
    rcases mem_mvalues_mset _ _ _ _ hq with rfl | hq2
    · have h1 : 0 ≤ (mget p2 data1.teammates).getD 0 := by
        cases hg : mget p2 data1.teammates with
        | none => simp
        | some v =>
          simp only [Option.getD_some]
          exact hd1 (p2, v) (mget_mem p2 v _ hg)
      have h2 : 0 ≤ (mget p1 data2.teammates).getD 0 := by
        cases hg : mget p1 data2.teammates with
        | none => simp
        | some v =>
          simp only [Option.getD_some]
          exact hT (p2, data2) (mget_mem p2 data2 d hm2) (p1, v) (mget_mem p1 v _ hg)
      have h3 : (0 : ℚ) < 2 := by norm_num
      exact div_nonneg (add_nonneg h1 h2) (le_of_lt h3)
    · exact ha q hq2

theorem synPairsGo_values_nonneg (d : ProfileMap) (hT : teammatesNonneg d) :
    ∀ (ms : List String) (acc : SynAcc),
      (∀ q ∈ mvalues acc.pairScores, 0 ≤ q) →
      ∀ q ∈ mvalues (synPairsGo d ms acc).pairScores, 0 ≤ q
  | [], _, hacc => hacc
  | p1 :: rest, acc, hacc => by
    simp only [synPairsGo]
    cases hm1 : mget p1 d with
    | none =>
      simp only [hm1]
      exact synPairsGo_values_nonneg d hT rest acc hacc
    | some data1 =>
      simp only [hm1]
      refine synPairsGo_values_nonneg d hT rest _ ?_
      exact synInner_values_nonneg d hT p1 data1
        (fun tv htv => hT (p1, data1) (mget_mem p1 data1 d hm1) tv htv) rest acc hacc

theorem calculateTeamSynergy_score_bounds (team : List String) (d : ProfileMap)
    (hT : teammatesNonneg d) :
    0 ≤ (calculateTeamSynergy team d).score ∧ (calculateTeamSynergy team d).score ≤ 100 := by
  have hvals : ∀ q ∈ mvalues (synPairsGo d (team.map jsToLower) ⟨[], [], []⟩).pairScores,
      0 ≤ q :=
    synPairsGo_values_nonneg d hT (team.map jsToLower) ⟨[], [], []⟩ (by simp [mvalues])
  have hs_eq : (calculateTeamSynergy team d).score =
      min 100
        ((if 0 < (mvalues (synPairsGo d (team.map jsToLower) ⟨[], [], []⟩).pairScores).length
          then (mvalues (synPairsGo d (team.map jsToLower) ⟨[], [], []⟩).pairScores).sum /
            ((mvalues (synPairsGo d (team.map jsToLower) ⟨[], [], []⟩).pairScores).length : ℚ)
          else 0) * 2) := rfl
  rw [hs_eq]
  generalize hl : mvalues (synPairsGo d (team.map jsToLower) ⟨[], [], []⟩).pairScores = l
  rw [hl] at hvals
  constructor
  · refine le_min (by norm_num) ?_
    have havg : 0 ≤ (if 0 < l.length then l.sum / (l.length : ℚ) else 0) := by
      by_cases hq : 0 < l.length
      · rw [if_pos hq]
        exact div_nonneg (List.sum_nonneg hvals) (by positivity)
      · simp [hq]
    linarith
  · exact min_le_left _ _

theorem analyzeTeamWeaknesses_ds_bounds (team : List String) (d : ProfileMap) :
    0 ≤ (analyzeTeamWeaknesses team d).defensiveScore ∧
      (analyzeTeamWeaknesses team d).defensiveScore ≤ 100 := by
  have heq : (analyzeTeamWeaknesses team d).defensiveScore =
      max 0 (100 - ((collectThreats (team.map jsToLower) d).length : ℚ) /
        ((max 1 (team.map jsToLower).length : ℕ) : ℚ) * 5 -
        ((findBlindSpotsFromThreats (collectThreats (team.map jsToLower) d)
          (team.map jsToLower).length).length : ℚ) * 10) := rfl
  rw [heq]
  constructor
  · exact le_max_left 0 _
  · refine max_le (by norm_num) ?_
    have h1 : 0 ≤ ((collectThreats (team.map jsToLower) d).length : ℚ) /
        ((max 1 (team.map jsToLower).length : ℕ) : ℚ) * 5 := by positivity
    have h2 : 0 ≤ ((findBlindSpotsFromThreats (collectThreats (team.map jsToLower) d)
        (team.map jsToLower).length).length : ℚ) * 10 := by positivity
    linarith

theorem analyzeCoverage_score_bounds (team : List String) (d : ProfileMap) :
    0 ≤ (analyzeCoverage team d).coverageScore ∧
      (analyzeCoverage team d).coverageScore ≤ 100 := by
  rw [analyzeCoverage_score_def]
  have hlen : ((analyzeCoverage team d).coverageByType.filter (fun p => 0 < p.2)).length ≤ 17 := by
    rw [analyzeCoverage_cov]
    calc ((allTypes.map (fun t => (t, coverCount team d t))).filter (fun p => 0 < p.2)).length
        ≤ (allTypes.map (fun t => (t, coverCount team d t))).length :=
          List.length_filter_le _ _
      _ = 17 := by rw [List.length_map]; rfl
  have h17 : allTypes.length = 17 := by decide
  rw [h17]
  constructor
  · positivity
  · have hc : ((((analyzeCoverage team d).coverageByType.filter
        (fun p => 0 < p.2)).length : ℕ) : ℚ) ≤ 17 := by exact_mod_cast hlen
    rw [div_mul_eq_mul_div, div_le_iff₀ (by norm_num : (0:ℚ) < ((17 : ℕ) : ℚ))]
    push_cast at hc ⊢
    nlinarith [hc]

theorem checkMoveRedundancy_rs_nonneg (team : List String) (d : ProfileMap) :
    0 ≤ (checkMoveRedundancy team d).redundancyScore := by
  simp only [checkMoveRedundancy]
  exact le_min (by norm_num) (by positivity)

theorem checkMoveRedundancy_rs_le (team : List String) (d : ProfileMap) :
    (checkMoveRedundancy team d).redundancyScore ≤ 100 := by
  simp only [checkMoveRedundancy]
  exact min_le_left _ _

theorem min100_bounds (x : ℚ) (hx : 0 ≤ x) : 0 ≤ min 100 x ∧ min 100 x ≤ 100 :=
  ⟨le_min (by norm_num) hx, min_le_left _ _⟩

theorem metaScoreOf_bounds (tu tv : ℚ) (vc : ℕ) (ap : List PokemonUsageData)
    (htu : 0 ≤ tu) (htv : 0 ≤ tv) :
    0 ≤ metaScoreOf tu tv vc ap ∧ metaScoreOf tu tv vc ap ≤ 100 := by
  have heq : metaScoreOf tu tv vc ap =
      min 100 ((if 0 < vc then tu / (vc : ℚ) else 0) /
        (match ap.head? with
         | some p => if p.rawCount = 0 then 1 else (p.rawCount : ℚ)
         | none => 1) * 100) * 0.6 +
      min 100 ((if 0 < vc then tv / (vc : ℚ) else 0) / 20) * 0.4 := rfl
  have hau : 0 ≤ (if 0 < vc then tu / (vc : ℚ) else 0) := by
    by_cases h : 0 < vc
    · rw [if_pos h]
      positivity
    · simp [h]
  have hav : 0 ≤ (if 0 < vc then tv / (vc : ℚ) else 0) := by
    by_cases h : 0 < vc
    · rw [if_pos h]
      positivity
    · simp [h]
  have hden : (0:ℚ) ≤ (match ap.head? with
      | some p => if p.rawCount = 0 then 1 else (p.rawCount : ℚ)
      | none => 1) := by
    cases hap : ap.head? with
    | none => norm_num
    | some p =>
      by_cases h0 : p.rawCount = 0
      · simp [h0]
      · simp only [if_neg h0]
        positivity
  obtain ⟨h1, h2⟩ := min100_bounds _ (mul_nonneg (div_nonneg hau hden) (by norm_num : (0:ℚ) ≤ 100))
  obtain ⟨h3, h4⟩ := min100_bounds _ (div_nonneg hav (by norm_num : (0:ℚ) ≤ 20))
  rw [heq]
  constructor
  · have e1 : (0:ℚ) ≤ 0.6 := by norm_num
    have e2 : (0:ℚ) ≤ 0.4 := by norm_num
    nlinarith [h1, h3]
  · nlinarith [h1, h2, h3, h4]

theorem compFold_nonneg (d : ProfileMap) (ap : List PokemonUsageData)
    (ms : List String) (st : ℚ × ℚ × ℕ × List String × List String)
    (h1 : 0 ≤ st.1) (h2 : 0 ≤ st.2.1) :
    0 ≤ (ms.foldl (compStep d ap) st).1 ∧ 0 ≤ (ms.foldl (compStep d ap) st).2.1 := by
  refine foldl_preserve (fun s => 0 ≤ s.1 ∧ 0 ≤ s.2.1) (compStep d ap) ?_ ms st ⟨h1, h2⟩
  intro s a hs
  cases hm : mget a d with
  | none => simpa [compStep, hm] using hs
  | some data =>
    simp only [compStep, hm]
    exact ⟨add_nonneg hs.1 (by positivity), add_nonneg hs.2 (by positivity)⟩

theorem generateMetaComparison_bounds (team : List String) (d : ProfileMap) :
    0 ≤ (generateMetaComparison team d).metaAlignmentScore ∧
      (generateMetaComparison team d).metaAlignmentScore ≤ 100 := by
  have heq : (generateMetaComparison team d).metaAlignmentScore =
      metaScoreOf
        ((team.map jsToLower).foldl
          (compStep d (sortB (fun a b => decide (b.rawCount ≤ a.rawCount)) (mvalues d)))
          (0, 0, 0, [], [])).1
        ((team.map jsToLower).foldl
          (compStep d (sortB (fun a b => decide (b.rawCount ≤ a.rawCount)) (mvalues d)))
          (0, 0, 0, [], [])).2.1
        ((team.map jsToLower).foldl
          (compStep d (sortB (fun a b => decide (b.rawCount ≤ a.rawCount)) (mvalues d)))
          (0, 0, 0, [], [])).2.2.1
        (sortB (fun a b => decide (b.rawCount ≤ a.rawCount)) (mvalues d)) := rfl
  obtain ⟨h1, h2⟩ := compFold_nonneg d
    (sortB (fun a b => decide (b.rawCount ≤ a.rawCount)) (mvalues d))
    (team.map jsToLower) (0, 0, 0, [], []) (le_refl 0) (le_refl 0)
  rw [heq]
  exact metaScoreOf_bounds _ _ _ _ h1 h2

theorem jsRound_bounds (q : ℚ) (h0 : 0 ≤ q) (h1 : q ≤ 100) :
    0 ≤ jsRound q ∧ jsRound q ≤ 100 := by
  constructor
  · show (0:ℚ) ≤ ((⌊q + 1/2⌋ : ℤ) : ℚ)
    have h2 : (0:ℤ) ≤ ⌊q + 1/2⌋ := Int.le_floor.mpr (by push_cast; linarith)
    exact_mod_cast h2
  · show ((⌊q + 1/2⌋ : ℤ) : ℚ) ≤ 100
    have h2 : ⌊q + 1/2⌋ < 101 := Int.floor_lt.mpr (by push_cast; linarith)
    have h3 : ⌊q + 1/2⌋ ≤ 100 := by omega
    exact_mod_cast h3

/-- C5: for any team (members absent from the profile map included,
and in particular the empty map), the report's overall score lies in
[0, 100] and equals the rounded weighted sum
0.25·synergy + 0.30·defense + 0.25·coverage +
0.10·(100 − redundancy) + 0.10·meta-alignment; with the format cached,
the module-level report method returns normally (no exception).  The
nonnegative-teammate-percentage hypothesis is the normal form
`parsePercentageMap` guarantees for parsed data. -/
theorem generateTeamReport_spec (team : List String) (d : ProfileMap)
    (hT : teammatesNonneg d) :
    0 ≤ (generateTeamReport team d).overallScore ∧
    (generateTeamReport team d).overallScore ≤ 100 ∧
    (generateTeamReport team d).overallScore =
      jsRound ((generateTeamReport team d).synergy.score * 0.25 +
        (generateTeamReport team d).weaknesses.defensiveScore * 0.30 +
        (generateTeamReport team d).coverage.coverageScore * 0.25 +
        (100 - (generateTeamReport team d).redundancy.redundancyScore) * 0.10 +
        (generateTeamReport team d).meta.metaAlignmentScore * 0.10) ∧
    (∀ fs s format, mhas format s.dataCache = true →
      generateTeamReportM fs s team format =
        .ok (generateTeamReport team ((mget format s.dataCache).getD []), s)) := by
  obtain ⟨hs0, hs1⟩ := calculateTeamSynergy_score_bounds (team.map jsToLower) d hT
  obtain ⟨hd0, hd1⟩ := analyzeTeamWeaknesses_ds_bounds (team.map jsToLower) d
  obtain ⟨hc0, hc1⟩ := analyzeCoverage_score_bounds (team.map jsToLower) d
  have hr0 := checkMoveRedundancy_rs_nonneg (team.map jsToLower) d
  have hr1 := checkMoveRedundancy_rs_le (team.map jsToLower) d
  obtain ⟨hm0, hm1⟩ := generateMetaComparison_bounds (team.map jsToLower) d
  have hmax : max 0 (100 - (checkMoveRedundancy (team.map jsToLower) d).redundancyScore) =
      100 - (checkMoveRedundancy (team.map jsToLower) d).redundancyScore :=
    max_eq_right (by linarith)
  have hmx0 : 0 ≤ max 0 (100 - (checkMoveRedundancy (team.map jsToLower) d).redundancyScore) :=
    le_max_left _ _
  have hmx1 : max 0 (100 - (checkMoveRedundancy (team.map jsToLower) d).redundancyScore) ≤ 100 := by
    rw [hmax]
    linarith
  have hov : (generateTeamReport team d).overallScore =
      jsRound ((calculateTeamSynergy (team.map jsToLower) d).score * 0.25 +
        (analyzeTeamWeaknesses (team.map jsToLower) d).defensiveScore * 0.30 +
        (analyzeCoverage (team.map jsToLower) d).coverageScore * 0.25 +
        max 0 (100 - (checkMoveRedundancy (team.map jsToLower) d).redundancyScore) * 0.10 +
        (generateMetaComparison (team.map jsToLower) d).metaAlignmentScore * 0.10) := rfl
  refine ⟨?_, ?_, ?_, ?_⟩
  · rw [hov]
    exact (jsRound_bounds _ (by linarith) (by linarith)).1
  · rw [hov]
    exact (jsRound_bounds _ (by linarith) (by linarith)).2
  · rw [hov, hmax]
    rfl
  · intro fs s format hmh
    show (ensureFormatLoaded fs s format >>= fun s1 =>
      Except.ok (generateTeamReport team ((mget format s1.dataCache).getD []), s1)) = _
    rw [ensure_of_loaded fs s format hmh, except_bind_ok]

/-- The overall score is well-defined and bounded even on the empty
profile map (every member absent). -/
theorem generateTeamReport_spec_witness :
    0 ≤ (generateTeamReport ["a", "b"] []).overallScore ∧
      (generateTeamReport ["a", "b"] []).overallScore ≤ 100 :=
  ⟨(generateTeamReport_spec ["a", "b"] [] (by simp [teammatesNonneg])).1,
   (generateTeamReport_spec ["a", "b"] [] (by simp [teammatesNonneg])).2.1⟩


/-! ## Splitter lemmas -/

theorem push3_last3 (P : List String) (line : String) :
    push3 (P.drop (P.length - 3)) line = (P ++ [line]).drop ((P ++ [line]).length - 3) := by
  by_cases h : 3 ≤ P.length
  · have hlen : (P.drop (P.length - 3)).length = 3 := by
      rw [List.length_drop]
      omega
    have hne : P.drop (P.length - 3) ≠ [] := by
      apply List.ne_nil_of_length_pos
      omega
    have h4 : 3 < (P.drop (P.length - 3) ++ [line]).length := by
      rw [List.length_append, hlen]
      norm_num
    simp only [push3, if_pos h4]
    rw [List.tail_append_of_ne_nil hne, List.tail_drop]
    have e1 : (P ++ [line]).length - 3 = P.length - 3 + 1 := by
      rw [List.length_append]
      simp only [List.length_singleton]
      omega
    rw [e1, List.drop_append_of_le_length (by omega)]
  · have e0 : P.length - 3 = 0 := by omega
    have h4 : ¬ 3 < (P.drop (P.length - 3) ++ [line]).length := by
      rw [List.length_append, List.length_drop]
      simp only [List.length_singleton]
      omega
    simp only [push3, if_neg h4]
    have e1 : (P ++ [line]).length - 3 = 0 := by
      rw [List.length_append]
      simp only [List.length_singleton]
      omega
    rw [e0, e1, List.drop_zero, List.drop_zero]

theorem markerIndices_append (P : List String) (line : String) :
    markerIndices (P ++ [line]) =
      markerIndices P ++
        (if jsIncludes line "Raw count:" = true then [P.length] else []) := by
  simp only [markerIndices, List.length_append, List.length_singleton]
  rw [List.range_succ, List.filter_append]
  congr 1
  · refine List.filter_congr ?_
    intro i hi
    rw [List.mem_range] at hi
    rw [List.getD_append P [line] "" i hi]
  · have hg : (P ++ [line]).getD P.length "" = line := by
      rw [List.getD_append_right P [line] "" P.length (le_refl _)]
      simp
    by_cases hjs : jsIncludes line "Raw count:" = true
    · simp [List.filter, hg, hjs]
    · simp [List.filter, hg, hjs]

theorem markerIndices_lt (P : List String) (i : ℕ) (h : i ∈ markerIndices P) :
    i < P.length := by
  simp only [markerIndices, List.mem_filter, List.mem_range] at h
  exact h.1

theorem zip_drop_last (l : List ℕ) (i x : ℕ) :
    (l ++ [i]).zip ((l ++ [i]).drop 1 ++ [x]) =
      (l ++ [i]).zip ((l ++ [i]).drop 1) ++ [(i, x)] := by
  have hlen2 : l.length = ((l ++ [i]).drop 1).length := by simp
  have h2 : (l ++ [i]).zip ((l ++ [i]).drop 1) = l.zip ((l ++ [i]).drop 1) := by
    conv_lhs => rw [← List.append_nil ((l ++ [i]).drop 1)]
    rw [List.zip_append hlen2]
    simp
  rw [h2, List.zip_append hlen2]
  simp

theorem zip_self_drop_concat (l : List ℕ) (i x : ℕ) :
    ((l ++ [i]) ++ [x]).zip (((l ++ [i]) ++ [x]).drop 1) =
      (l ++ [i]).zip ((l ++ [i]).drop 1) ++ [(i, x)] := by
  have hd : ((l ++ [i]) ++ [x]).drop 1 = (l ++ [i]).drop 1 ++ [x] :=
    List.drop_append_of_le_length (by simp)
  rw [hd]
  have hlen3 : (l ++ [i]).length = ((l ++ [i]).drop 1 ++ [x]).length := by simp
  conv_lhs => rw [← List.append_nil ((l ++ [i]).drop 1 ++ [x])]
  rw [List.zip_append hlen3, zip_drop_last l i x]
  simp

theorem curOf_nonempty (P : List String) (i : ℕ)
    (hml : (markerIndices P).getLast? = some i) :
    (curOf P).isEmpty = false := by
  have hi : i < P.length := markerIndices_lt P i (List.mem_of_mem_getLast? hml)
  have hcur : curOf P = P.drop (i - 3) := by simp [curOf, hml]
  rw [hcur, List.isEmpty_eq_false]
  apply List.ne_nil_of_length_pos
  rw [List.length_drop]
  omega

theorem splitGo_inv : ∀ (rest P : List String),
    splitGo rest (P.drop (P.length - 3)) (curOf P) (accOf P) = entrySlices (P ++ rest)
  | [], P => by
    rw [List.append_nil]
    show accOf P ++ (if (curOf P).isEmpty then [] else [jsJoin '\n' (curOf P)]) =
      entrySlices P
    cases hml : (markerIndices P).getLast? with
    | none =>
      have hP : markerIndices P = [] := List.getLast?_eq_none_iff.mp hml
      simp [curOf, accOf, entrySlices, hP]
    | some i =>
      obtain ⟨l, hl⟩ := List.getLast?_eq_some_iff.mp hml
      have hi : i < P.length := markerIndices_lt P i (List.mem_of_mem_getLast? hml)
      have hcur : curOf P = P.drop (i - 3) := by simp [curOf, hml]
      have hne := curOf_nonempty P i hml
      rw [hne, hcur]
      show accOf P ++ [jsJoin '\n' (P.drop (i - 3))] = entrySlices P
      have haccP : accOf P = ((l ++ [i]).zip ((l ++ [i]).drop 1)).map
          (fun p => jsJoin '\n' ((P.take p.2).drop (p.1 - 3))) := by
        rw [accOf, hl]
      rw [entrySlices]
      show accOf P ++ [jsJoin '\n' (P.drop (i - 3))] =
        ((markerIndices P).zip ((markerIndices P).drop 1 ++ [P.length])).map
          (fun p => jsJoin '\n' ((P.take p.2).drop (p.1 - 3)))
      rw [hl, zip_drop_last l i P.length, List.map_append]
      congr 1
      simp [List.take_length]
  | line :: rest, P => by
    show (if jsIncludes line "Raw count:" then
        splitGo rest (push3 (P.drop (P.length - 3)) line)
          (P.drop (P.length - 3) ++ [line])
          (accOf P ++ (if (curOf P).isEmpty then [] else [jsJoin '\n' (curOf P)]))
      else
        splitGo rest (push3 (P.drop (P.length - 3)) line)
          (if (curOf P).isEmpty then curOf P else curOf P ++ [line]) (accOf P)) =
      entrySlices (P ++ line :: rest)
    have happ : P ++ line :: rest = (P ++ [line]) ++ rest := by simp
    by_cases hm : jsIncludes line "Raw count:" = true
    · rw [if_pos hm]
      have hg : (markerIndices (P ++ [line])).getLast? = some P.length := by
        rw [markerIndices_append P line, if_pos hm, List.getLast?_concat]
      have hcur' : curOf (P ++ [line]) = P.drop (P.length - 3) ++ [line] := by
        simp only [curOf, hg]
        exact List.drop_append_of_le_length (by omega)
      have hacc' : accOf (P ++ [line]) =
          accOf P ++ (if (curOf P).isEmpty then [] else [jsJoin '\n' (curOf P)]) := by
        cases hml : (markerIndices P).getLast? with
        | none =>
          have hP : markerIndices P = [] := List.getLast?_eq_none_iff.mp hml
          simp [accOf, markerIndices_append P line, hm, hP, curOf, hml]
        | some i =>
          obtain ⟨l, hl⟩ := List.getLast?_eq_some_iff.mp hml
          have hi : i < P.length := markerIndices_lt P i (List.mem_of_mem_getLast? hml)
          have hne := curOf_nonempty P i hml
          have hcurP : curOf P = P.drop (i - 3) := by simp [curOf, hml]
          rw [hne, hcurP]
          simp only [Bool.false_eq_true, if_false]
          simp only [accOf, markerIndices_append P line, if_pos hm, hl]
          rw [zip_self_drop_concat l i P.length, List.map_append]
          congr 1
          · refine List.map_eq_map_iff.mpr ?_
            intro p hp
            have hp2 : p.2 ∈ (l ++ [i]).drop 1 := (List.of_mem_zip hp).2
            have hp3 : p.2 ∈ markerIndices P := by
              rw [hl]
              exact List.mem_of_mem_drop hp2
            have hlt : p.2 < P.length := markerIndices_lt P p.2 hp3
            rw [List.take_append_of_le_length (le_of_lt hlt)]
          · simp only [List.map_cons, List.map_nil]
            rw [List.take_append_of_le_length (le_refl _), List.take_length]
      rw [hcur'.symm, hacc'.symm, push3_last3 P line, happ]
      exact splitGo_inv rest (P ++ [line])
    · rw [if_neg hm]
      have hg2 : markerIndices (P ++ [line]) = markerIndices P := by
        rw [markerIndices_append P line, if_neg hm, List.append_nil]
      have hcur2 : (if (curOf P).isEmpty then curOf P else curOf P ++ [line]) =
          curOf (P ++ [line]) := by
        cases hml : (markerIndices P).getLast? with
        | none =>
          have hP : curOf P = [] := by simp [curOf, hml]
          simp [hP, curOf, hg2, hml]
        | some i =>
          have hi : i < P.length := markerIndices_lt P i (List.mem_of_mem_getLast? hml)
          have hne := curOf_nonempty P i hml
          have hcurP : curOf P = P.drop (i - 3) := by simp [curOf, hml]
          rw [hne, hcurP]
          show P.drop (i - 3) ++ [line] = curOf (P ++ [line])
          simp only [curOf, hg2, hml]
          exact (List.drop_append_of_le_length (by omega)).symm
      have hacc2 : accOf (P ++ [line]) = accOf P := by
        simp only [accOf, hg2]
        refine List.map_eq_map_iff.mpr ?_
        intro p hp
        have hp2 : p.2 ∈ (markerIndices P).drop 1 := (List.of_mem_zip hp).2
        have hlt : p.2 < P.length := markerIndices_lt P p.2 (List.mem_of_mem_drop hp2)
        rw [List.take_append_of_le_length (le_of_lt hlt)]
      rw [hcur2, ← hacc2, push3_last3 P line, happ]
      exact splitGo_inv rest (P ++ [line])

/-- C10: the splitter emits exactly one entry per `"Raw count:"` marker
line, each running from three lines before its marker up to (not
including) the next marker line or the end of the file; zero markers
yield an empty list, and the trailing entry is emitted even when
truncated by the end of the file. -/
theorem splitIntoEntries_spec (content : String) :
    splitIntoEntries content = entrySlices (jsSplit '\n' content) ∧
    (markerIndices (jsSplit '\n' content) = [] → splitIntoEntries content = []) ∧
    (splitIntoEntries content).length = (markerIndices (jsSplit '\n' content)).length := by
  have hmain : splitIntoEntries content = entrySlices (jsSplit '\n' content) := by
    have h := splitGo_inv (jsSplit '\n' content) []
    simpa [splitIntoEntries, curOf, accOf, markerIndices] using h
  refine ⟨hmain, ?_, ?_⟩
  · intro h0
    rw [hmain]
    simp [entrySlices, h0]
  · rw [hmain]
    simp only [entrySlices, List.length_map, List.length_zip]
    cases hmi : markerIndices (jsSplit '\n' content) with
    | nil => simp
    | cons a t =>
      simp [List.length_drop]


/-! ## Lower-casing lemmas -/

theorem toNat_ofNat_small (n : ℕ) (h : n < 55296) : (Char.ofNat n).toNat = n := by
  unfold Char.ofNat
  rw [dif_pos (Or.inl h : Nat.isValidChar n)]
  rfl

theorem toLowerCh_not_upper (c : Char) :
    ¬ ('A' ≤ toLowerCh c ∧ toLowerCh c ≤ 'Z') := by
  rw [toLowerCh]
  by_cases h : 'A' ≤ c ∧ c ≤ 'Z'
  · rw [if_pos h]
    have h1 : c.toNat ≤ 90 := h.2
    have h3 : (Char.ofNat (c.toNat + 32)).toNat = c.toNat + 32 :=
      toNat_ofNat_small _ (by omega)
    intro hcon
    have h4 : (Char.ofNat (c.toNat + 32)).toNat ≤ 90 := hcon.2
    rw [h3] at h4
    have h2 : 65 ≤ c.toNat := h.1
    omega
  · rw [if_neg h]
    exact h

theorem toLowerCh_idem (c : Char) : toLowerCh (toLowerCh c) = toLowerCh c := by
  conv_lhs => rw [toLowerCh]
  rw [if_neg (toLowerCh_not_upper c)]

theorem lowerInv_data {s : String} (h : lowerInv s) :
    s.data.map toLowerCh = s.data := by
  have h2 := congrArg String.data h
  exact h2

theorem jsToLower_lowerInv (s : String) : lowerInv (jsToLower s) := by
  show jsToLower (jsToLower s) = jsToLower s
  refine str_ext ?_
  show ((String.mk (s.data.map toLowerCh)).data).map toLowerCh = s.data.map toLowerCh
  rw [show (String.mk (s.data.map toLowerCh)).data = s.data.map toLowerCh from rfl,
    List.map_map]
  refine List.map_eq_map_iff.mpr ?_
  intro c _
  show toLowerCh (toLowerCh c) = toLowerCh c
  exact toLowerCh_idem c

theorem mem_mset_elim (k : String) (v : β) :
    ∀ (m : List (String × β)) (p : String × β), p ∈ mset k v m → p = (k, v) ∨ p ∈ m
  | [], p, h => by
    simp [mset] at h
    exact Or.inl h
  | (k1, v1) :: t, p, h => by
    by_cases h1 : k1 = k
    · subst h1
      simp only [mset, if_pos rfl] at h
      rcases List.mem_cons.1 h with h2 | h2
      · exact Or.inl h2
      · exact Or.inr (List.mem_cons_of_mem _ h2)
    · simp only [mset, if_neg h1] at h
      rcases List.mem_cons.1 h with h2 | h2
      · exact Or.inr (List.mem_cons.2 (Or.inl h2))
      · rcases mem_mset_elim k v t p h2 with h3 | h3
        · exact Or.inl h3
        · exact Or.inr (List.mem_cons.2 (Or.inr h3))

theorem parsePercentageMap_lower (lines : List String) (minp : ℚ)
    (m0 : List (String × ℚ)) (h0 : ∀ mv ∈ m0, lowerInv mv.1) :
    ∀ mv ∈ parsePercentageMap lines minp m0, lowerInv mv.1 := by
  refine foldl_preserve (fun m => ∀ mv ∈ m, lowerInv mv.1) _ ?_ lines m0 h0
  intro m line hm mv hmv
  cases hp : pctMatch line with
  | none =>
    simp only [hp] at hmv
    exact hm mv hmv
  | some gc =>
    obtain ⟨g1, cap⟩ := gc
    simp only [hp] at hmv
    cases hf : parseFloatCapture cap with
    | none =>
      simp only [hf] at hmv
      exact hm mv hmv
    | some v =>
      simp only [hf] at hmv
      by_cases hmin : minp ≤ v
      · rw [if_pos hmin] at hmv
        rcases mem_mset_elim _ _ _ _ hmv with h2 | h2
        · rw [h2]
          exact jsToLower_lowerInv (jsTrim g1)
        · exact hm mv h2
      · rw [if_neg hmin] at hmv
        exact hm mv hmv

theorem parseMetadata_moves (lines : List String) (d : PokemonUsageData) :
    (parseMetadata lines d).moves = d.moves := by
  refine foldl_preserve (fun x => x.moves = d.moves) _ ?_ lines d rfl
  intro s line hs
  cases h1 : rawCountMatch line <;> cases h2 : avgWeightMatch line <;>
    cases h3 : viabilityMatch line <;> simp [h1, h2, h3, hs]

theorem parseSpreads_moves (lines : List String) (d : PokemonUsageData) :
    (parseSpreads lines d).moves = d.moves := by
  refine foldl_preserve (fun x => x.moves = d.moves) _ ?_ lines d rfl
  intro s line hs
  beta_reduce
  split <;> simp_all

theorem parseCC_moves : ∀ (ls : List String) (d : PokemonUsageData),
    (parseCC ls d).moves = d.moves
  | [], _ => rfl
  | [line], d => by
    cases hm : ccMatch line with
    | none => simp [parseCC, hm]
    | some g =>
      obtain ⟨g1, score, mp, cm⟩ := g
      simp [parseCC, hm]
  | line :: next :: rest2, d => by
    cases hm : ccMatch line with
    | none =>
      simp only [parseCC, hm]
      exact parseCC_moves (next :: rest2) d
    | some g =>
      obtain ⟨g1, score, mp, cm⟩ := g
      simp only [parseCC, hm]
      cases hk : koDetailMatch next with
      | some ks =>
        obtain ⟨ko, sw⟩ := ks
        simp only [hk]
        rw [parseCC_moves rest2 _]
      | none =>
        simp only [hk]
        rw [parseCC_moves (next :: rest2) _]

theorem parseSection_movesLower (name : String) (lines : List String)
    (d : PokemonUsageData) (options : ParseOptions) (hd : movesLower d) :
    movesLower (parseSection name lines d options) := by
  rw [parseSection]
  split
  · intro mv hmv
    exact hd mv hmv
  · split
    · intro mv hmv
      exact hd mv hmv
    · split
      · intro mv hmv
        rw [parseSpreads_moves] at hmv
        exact hd mv hmv
      · split
        · intro mv hmv
          simp only at hmv
          exact parsePercentageMap_lower lines _ d.moves hd mv hmv
        · split
          · intro mv hmv
            exact hd mv hmv
          · split
            · intro mv hmv
              exact hd mv hmv
            · split
              · intro mv hmv
                rw [parseCC_moves] at hmv
                exact hd mv hmv
              · exact hd

theorem parseEntryGo_movesLower (options : ParseOptions) :
    ∀ (ls : List String) (cur : String) (content : List String) (inSec : Bool)
      (d : PokemonUsageData), movesLower d →
      movesLower (parseEntryGo options ls cur content inSec d)
  | [], cur, content, inSec, d, hd => by
    show movesLower (if cur ≠ "" ∧ content ≠ [] then parseSection cur content d options else d)
    split
    · exact parseSection_movesLower cur content d options hd
    · exact hd
  | [line], cur, content, inSec, d, hd => by
    simp only [parseEntryGo]
    by_cases h1 : jsIncludes line "+---" = true
    · rw [if_pos h1]
      by_cases h2 : cur ≠ "" ∧ content ≠ []
      · rw [if_pos h2]
        exact parseSection_movesLower cur content d options hd
      · rw [if_neg h2]
        exact hd
    · rw [if_neg h1]
      by_cases h3 : inSec = true ∧ jsStartsWith line " |" = true
      · rw [if_pos h3]
        by_cases h4 : cur ≠ "" ∧ content ++ [line] ≠ []
        · rw [if_pos h4]
          exact parseSection_movesLower _ _ d options hd
        · rw [if_neg h4]
          exact hd
      · rw [if_neg h3]
        by_cases h4 : cur ≠ "" ∧ content ≠ []
        · rw [if_pos h4]
          exact parseSection_movesLower _ _ d options hd
        · rw [if_neg h4]
          exact hd
  | line :: next :: rest2, cur, content, inSec, d, hd => by
    have hd2 : movesLower (if cur ≠ "" ∧ content ≠ [] then
        parseSection cur content d options else d) := by
      by_cases h2 : cur ≠ "" ∧ content ≠ []
      · rw [if_pos h2]
        exact parseSection_movesLower cur content d options hd
      · rw [if_neg h2]
        exact hd
    simp only [parseEntryGo]
    by_cases h1 : jsIncludes line "+---" = true
    · rw [if_pos h1]
      cases hbc : barContent next with
      | some g =>
        simp only [hbc]
        by_cases h5 : ¬(jsIncludes (jsTrim g) "Raw count" = true ∨
            jsIncludes (jsTrim g) "Avg" = true ∨ jsIncludes (jsTrim g) "Viability" = true)
        · rw [if_pos h5]
          exact parseEntryGo_movesLower options rest2 (jsTrim g) [] true _ hd2
        · rw [if_neg h5]
          exact parseEntryGo_movesLower options rest2 cur [] false _ hd2
      | none =>
        simp only [hbc]
        exact parseEntryGo_movesLower options (next :: rest2) cur [] false _ hd2
    · rw [if_neg h1]
      by_cases h3 : inSec = true ∧ jsStartsWith line " |" = true
      · rw [if_pos h3]
        exact parseEntryGo_movesLower options (next :: rest2) cur (content ++ [line]) inSec d hd
      · rw [if_neg h3]
        exact parseEntryGo_movesLower options (next :: rest2) cur content inSec d hd

theorem parsePokemonEntry_movesLower (entry : String) (options : ParseOptions)
    (data : PokemonUsageData) (h : parsePokemonEntry entry options = some data) :
    movesLower data := by
  rw [parsePokemonEntry] at h
  cases hb : ((jsSplit '\n' entry).get? 1).bind barContent with
  | none =>
    rw [hb] at h
    exact absurd h (by simp)
  | some g =>
    rw [hb] at h
    simp only [Option.some.injEq] at h
    rw [← h]
    refine parseEntryGo_movesLower options _ _ _ _ _ ?_
    intro mv hmv
    rw [parseMetadata_moves] at hmv
    exact absurd hmv (List.not_mem_nil mv)

theorem parseUsageContent_movesAllLower (content : String) (options : ParseOptions) :
    movesAllLower (parseUsageContent content options) := by
  refine foldl_preserve (fun r : ProfileMap => ∀ p ∈ r, movesLower p.2) _ ?_
    (splitIntoEntries content) [] (by simp)
  intro r entry hr p hp
  cases hpe : parsePokemonEntry entry options with
  | none =>
    simp only [hpe] at hp
    exact hr p hp
  | some pokemon =>
    simp only [hpe] at hp
    rcases mem_mset_elim _ _ _ _ hp with h2 | h2
    · rw [h2]
      exact parsePokemonEntry_movesLower entry options pokemon hpe
    · exact hr p h2


theorem mget_none_of_keys_not_lower (s : String) (hs : lowerInv s) :
    ∀ m : List (String × β), (∀ p ∈ m, ¬ lowerInv p.1) → mget s m = none
  | [], _ => rfl
  | (k1, v1) :: t, h => by
    by_cases h1 : k1 = s
    · exact absurd (h1 ▸ hs) (h (k1, v1) (List.mem_cons_self _ _))
    · rw [show mget s ((k1, v1) :: t) = if k1 = s then some v1 else mget s t from rfl,
        if_neg h1]
      exact mget_none_of_keys_not_lower s hs t
        (fun p hp => h p (List.mem_cons_of_mem _ hp))

theorem moveTypeMap_keys_not_lower : ∀ p ∈ moveTypeMap, ¬ lowerInv p.1 := by
  have h : ∀ p ∈ moveTypeMap, ¬ (jsToLower p.1 = p.1) := by decide
  exact h

theorem not_startsWith_hp_of_lower (s : String) (hs : lowerInv s) :
    jsStartsWith s "Hidden Power" = false := by
  by_contra hcon
  have h1 : jsStartsWith s "Hidden Power" = true := by
    cases h2 : jsStartsWith s "Hidden Power"
    · exact absurd h2 hcon
    · rfl
  have h3 := List.isPrefixOf_iff_prefix.mp h1
  obtain ⟨t, ht⟩ := h3
  have h4 : s.data.map toLowerCh = s.data := lowerInv_data hs
  rw [← ht] at h4
  have h5 : toLowerCh 'H' = 'H' := by
    have := congrArg (fun l => l.headD ' ') h4
    simpa using this
  exact absurd h5 (by decide)

theorem getMoveType_lower_none (s : String) (hs : lowerInv s) :
    getMoveType s = none := by
  rw [getMoveType, not_startsWith_hp_of_lower s hs]
  simp only [Bool.false_eq_true, if_false]
  exact mget_none_of_keys_not_lower s hs moveTypeMap moveTypeMap_keys_not_lower

theorem resolvedTypesOf_nil (mvs : List (String × ℚ))
    (h : ∀ mv ∈ mvs, lowerInv mv.1) : resolvedTypesOf mvs = [] := by
  rw [resolvedTypesOf]
  refine List.filterMap_eq_nil_iff.mpr ?_
  intro mv hmv
  by_cases ho : mv.1 = "Other"
  · simp [ho]
  · simp [ho, getMoveType_lower_none mv.1 (h mv hmv)]

theorem memberResolvedTypes_nil (data : PokemonUsageData) (hd : movesLower data) :
    memberResolvedTypes data = [] := by
  rw [memberResolvedTypes]
  refine resolvedTypesOf_nil _ ?_
  intro mv hmv
  have h1 : mv ∈ sortB (fun a b => decide (b.2 ≤ a.2)) data.moves :=
    List.mem_of_mem_take hmv
  rw [mem_sortB] at h1
  exact hd mv h1

theorem teamResolvedFrom_nil (d : ProfileMap) (hd : movesAllLower d) :
    ∀ ms : List String, teamResolvedFrom ms d = []
  | [] => rfl
  | m :: ms => by
    show (match mget m d with
      | some data => memberResolvedTypes data
      | none => []) ++ teamResolvedFrom ms d = []
    rw [teamResolvedFrom_nil d hd ms]
    cases hm : mget m d with
    | none => rfl
    | some data =>
      show memberResolvedTypes data ++ [] = []
      rw [List.append_nil]
      exact memberResolvedTypes_nil data
        (fun mv hmv => hd (m, data) (mget_mem m data d hm) mv hmv)

theorem teamResolvedTypes_nil (team : List String) (d : ProfileMap)
    (hd : movesAllLower d) : teamResolvedTypes team d = [] := by
  rw [teamResolvedTypes]
  exact teamResolvedFrom_nil d hd (team.map jsToLower)

theorem coverCount_zero (team : List String) (d : ProfileMap)
    (hd : movesAllLower d) (t : String) : coverCount team d t = 0 := by
  rw [coverCount, teamResolvedTypes_nil team d hd]
  rfl

theorem foldl_const (f : σ → α → σ) : ∀ (l : List α), (∀ s a, a ∈ l → f s a = s) →
    ∀ s, l.foldl f s = s
  | [], _, _ => rfl
  | a :: l, h, s => by
    rw [List.foldl_cons, h s a (List.mem_cons_self a l)]
    exact foldl_const f l (fun s2 b hb => h s2 b (List.mem_cons_of_mem a hb)) s

theorem suggMoveStep_const (gaps mtc : List String) (pn : String)
    (cm : List String) (sg : List CoverageSuggestion) (mp : String × ℚ)
    (hlow : lowerInv mp.1) : suggMoveStep gaps mtc pn cm sg mp = sg := by
  by_cases c1 : mp.1 ∈ cm ∨ mp.1 = "Other"
  · simp [suggMoveStep, c1]
  · by_cases c2 : mp.2 < 5
    · simp [suggMoveStep, c1, c2]
    · simp [suggMoveStep, c1, c2, getMoveType_lower_none mp.1 hlow]

theorem suggMemberFold_const (gaps mtc : List String)
    (mbp : List (String × List String)) (d : ProfileMap) (hd : movesAllLower d)
    (ms : List String) (sg : List CoverageSuggestion) :
    ms.foldl (suggMemberStep gaps mtc mbp d) sg = sg := by
  refine foldl_const _ ms ?_ sg
  intro sg2 pn _
  rw [suggMemberStep]
  cases hm : mget pn d with
  | none => rfl
  | some data =>
    refine foldl_const _ data.moves ?_ sg2
    intro sg3 mp hmp
    exact suggMoveStep_const gaps mtc pn _ sg3 mp
      (hd (pn, data) (mget_mem pn data d hm) mp hmp)

theorem generateCoverageSuggestions_nil (gaps : List String)
    (mbp : List (String × List String)) (d : ProfileMap) (ms : List String)
    (hd : movesAllLower d) : generateCoverageSuggestions gaps mbp d ms = [] := by
  simp only [generateCoverageSuggestions]
  split
  · rfl
  · rw [suggMemberFold_const gaps _ mbp d hd ms []]
    rfl


/-- C3: the parser stores every move name lowercased, while
`getMoveType` only matches capitalized names (so a lowercased name
never resolves); consequently a team drawn from a parsed map has all 17
types as gaps, a zero coverage score, and no suggestions; and the
lowercased `'other'` bucket is skipped neither by the coverage loop
(which compares against the capitalized `'Other'`) nor by
`checkMoveRedundancy`'s top-4 filter. -/
theorem lowercase_moves_spec (content : String) (options : ParseOptions)
    (team : List String) (d : ProfileMap) (hd : movesAllLower d) :
    movesAllLower (parseUsageContent content options) ∧
    (∀ s, lowerInv s → getMoveType s = none) ∧
    (analyzeCoverage team d).gaps = allTypes ∧
    (analyzeCoverage team d).gaps.length = 17 ∧
    (analyzeCoverage team d).coverageScore = 0 ∧
    (analyzeCoverage team d).suggestions = [] ∧
    (∀ (p : List (String × ℕ) × List String) (q : ℚ),
      coverStep p ("other", q) = (p.1, setAdd p.2 "other")) ∧
    (∀ data : PokemonUsageData,
      "other" ∈ (((sortB (fun a b => decide (b.2 ≤ a.2)) data.moves).take 4).map
        Prod.fst) →
      "other" ∈ redundancyTopMoves data) := by
  have hcc : ∀ t, coverCount team d t = 0 := coverCount_zero team d hd
  have hgaps : (analyzeCoverage team d).gaps = allTypes := by
    rw [analyzeCoverage_gaps_def, analyzeCoverage_cov, List.filter_map, List.map_map]
    have hfil : allTypes.filter
        ((fun p => p.2 = 0) ∘ (fun t => (t, coverCount team d t))) = allTypes := by
      refine List.filter_eq_self.mpr ?_
      intro t _
      simp [Function.comp_def, hcc t]
    rw [hfil]
    simp [Function.comp_def]
  have hscore : (analyzeCoverage team d).coverageScore = 0 := by
    rw [analyzeCoverage_score_def, analyzeCoverage_cov, List.filter_map]
    have hfil2 : allTypes.filter
        ((fun p => 0 < p.2) ∘ (fun t => (t, coverCount team d t))) = [] := by
      refine List.filter_eq_nil_iff.mpr ?_
      intro t _
      simp [Function.comp_def, hcc t]
    rw [hfil2, List.map_nil]
    simp
  have hsug : (analyzeCoverage team d).suggestions =
      generateCoverageSuggestions (analyzeCoverage team d).gaps
        ((team.map jsToLower).foldl
          (fun st pokemonName =>
            match mget pokemonName d with
            | none => st
            | some data => coverOneMember pokemonName data st)
          (allTypes.map (fun t => (t, (0 : ℕ))), ([] : List (String × List String)))).2
        d (team.map jsToLower) := rfl
  refine ⟨parseUsageContent_movesAllLower content options,
    fun s hs => getMoveType_lower_none s hs, hgaps, ?_, hscore, ?_, ?_, ?_⟩
  · rw [hgaps]
    rfl
  · rw [hsug]
    exact generateCoverageSuggestions_nil _ _ d _ hd
  · intro p q
    have h1 : ¬ ("other" : String) = "Other" := by decide
    have h2 : getMoveType "other" = none := by decide
    simp [coverStep, h1, h2]
  · intro data hmem
    rw [redundancyTopMoves]
    exact List.mem_filter.mpr ⟨hmem, by decide⟩

/-- On a parsed-style fixture whose move keys are lowercased (including
the `'other'` bucket), every type is a gap and no suggestion is
produced. -/
theorem lowercase_moves_spec_witness :
    (analyzeCoverage ["gamma"] lowercaseFixture).gaps.length = 17 ∧
    (analyzeCoverage ["gamma"] lowercaseFixture).suggestions = [] := by
  have hfix : movesAllLower lowercaseFixture := by
    have h : ∀ p ∈ lowercaseFixture, ∀ mv ∈ p.2.moves, jsToLower mv.1 = mv.1 := by
      decide
    exact h
  exact ⟨(lowercase_moves_spec "" {} ["gamma"] lowercaseFixture hfix).2.2.2.1,
    (lowercase_moves_spec "" {} ["gamma"] lowercaseFixture hfix).2.2.2.2.2.1⟩


/-! ## Round-trip support: character classes and scanners -/

theorem alpha_ne (c x : Char) (hc : alphaCh c = true) (hx : alphaCh x = false) :
    c ≠ x := by
  intro h
  rw [h, hx] at hc
  exact absurd hc (by decide)

theorem alpha_not_ws (c : Char) (hc : alphaCh c = true) : wsCh c = false := by
  cases hw : wsCh c
  · rfl
  · have hw2 : c = ' ' ∨ c = '\t' ∨ c = '\n' ∨ c = '\r' ∨ c = '\x0b' ∨ c = '\x0c' := by
      simpa [wsCh] using hw
    rcases hw2 with h | h | h | h | h | h <;> rw [h] at hc <;> exact absurd hc (by decide)

theorem alpha_not_num (c : Char) (hc : alphaCh c = true) : numCh c = false := by
  cases hn : numCh c
  · rfl
  · have hn2 : ('0' ≤ c ∧ c ≤ '9') ∨ c = '.' := by
      simpa [numCh, digitCh] using hn
    have hca : ('a' ≤ c ∧ c ≤ 'z') ∨ ('A' ≤ c ∧ c ≤ 'Z') := by
      simpa [alphaCh] using hc
    rcases hn2 with ⟨h1, h2⟩ | h
    · have e1 : 48 ≤ c.toNat := h1
      have e2 : c.toNat ≤ 57 := h2
      rcases hca with ⟨h3, _⟩ | ⟨h3, _⟩
      · have e3 : 97 ≤ c.toNat := h3
        omega
      · have e3 : 65 ≤ c.toNat := h3
        omega
    · rw [h] at hc
      exact absurd hc (by decide)

theorem digit_not_ws (c : Char) (hc : digitCh c = true) : wsCh c = false := by
  cases hw : wsCh c
  · rfl
  · have hw2 : c = ' ' ∨ c = '\t' ∨ c = '\n' ∨ c = '\r' ∨ c = '\x0b' ∨ c = '\x0c' := by
      simpa [wsCh] using hw
    rcases hw2 with h | h | h | h | h | h <;> rw [h] at hc <;> exact absurd hc (by decide)

theorem digit_ne (c x : Char) (hc : digitCh c = true) (hx : digitCh x = false) :
    c ≠ x := by
  intro h
  rw [h, hx] at hc
  exact absurd hc (by decide)

theorem dropWhile_append_stop (p : Char → Bool) :
    ∀ (a b : List Char), a.dropWhile p ≠ [] →
      (a ++ b).dropWhile p = a.dropWhile p ++ b
  | [], _, h => absurd rfl h
  | c :: a, b, h => by
    cases hp : p c
    · rw [List.cons_append, List.dropWhile_cons_of_neg (by simp [hp]),
        List.dropWhile_cons_of_neg (by simp [hp])]
      rfl
    · rw [List.dropWhile_cons_of_pos (by simp [hp])] at h
      rw [List.cons_append, List.dropWhile_cons_of_pos (by simp [hp]),
        List.dropWhile_cons_of_pos (by simp [hp])]
      exact dropWhile_append_stop p a b h

theorem takeWhile_append_stop (p : Char → Bool) :
    ∀ (a b : List Char), (∀ c ∈ a, p c = true) →
      (∀ c t, b = c :: t → p c = false) →
      (a ++ b).takeWhile p = a
  | [], b, _, hb => by
    cases b with
    | nil => rfl
    | cons c t => simp [List.takeWhile_cons, hb c t rfl]
  | c :: a, b, ha, hb => by
    rw [List.cons_append, List.takeWhile_cons_of_pos (by simp [ha c (List.mem_cons_self c a)])]
    rw [takeWhile_append_stop p a b (fun x hx => ha x (List.mem_cons_of_mem c hx)) hb]

theorem lazyGroup_exact (check : List Char → Option β) (b : β) :
    ∀ (g : List Char) (tail : List Char), g ≠ [] →
      (∀ c ∈ g, ¬ (c = '\n' ∨ c = '\r')) →
      (∀ j, 1 ≤ j → j < g.length → check (g.drop j ++ tail) = none) →
      check tail = some b →
      lazyGroup check (g ++ tail) = some (g, b)
  | [], _, hg, _, _, _ => absurd rfl hg
  | [c], tail, _, hnl, _, hend => by
    rw [List.singleton_append, lazyGroup, if_neg (hnl c (List.mem_cons_self c [])), hend]
  | c :: c2 :: g, tail, _, hnl, hmid, hend => by
    rw [List.cons_append, lazyGroup, if_neg (hnl c (List.mem_cons_self _ _))]
    have h1 : check ((c2 :: g) ++ tail) = none := by
      have := hmid 1 (le_refl 1) (by simp)
      simpa using this
    rw [h1]
    rw [lazyGroup_exact check b (c2 :: g) tail (by simp)
      (fun x hx => hnl x (List.mem_cons_of_mem c hx))
      (fun j hj1 hj2 => by
        have := hmid (j + 1) (by omega) (by simp at hj2 ⊢; omega)
        simpa using this)
      hend]
    rfl

theorem wsThenLazy_single (check : List Char → Option β) (g tail : List Char) (b : β)
    (hg : g ≠ [])
    (hghead : ∀ c t, g = c :: t → wsCh c = false)
    (hlz : lazyGroup check (g ++ tail) = some (g, b)) :
    wsThenLazy check (' ' :: g ++ tail) = some (g, b) := by
  obtain ⟨c, t, hct⟩ : ∃ c t, g = c :: t := by
    cases g with
    | nil => exact absurd rfl hg
    | cons c t => exact ⟨c, t, rfl⟩
  have htw : ((' ' :: g) ++ tail).takeWhile wsCh = [' '] := by
    rw [List.cons_append, List.takeWhile_cons_of_pos (by decide), hct, List.cons_append,
      List.takeWhile_cons_of_neg (by simp [hghead c t hct])]
  rw [wsThenLazy, htw]
  show wsThenLazy.go check ((' ' :: g) ++ tail) (0 + 1) = some (g, b)
  rw [wsThenLazy.go, List.cons_append, List.drop_one, List.tail_cons, hlz]
  rfl

theorem barLazyScan_frame (check : List Char → Option β) (g tail : List Char) (b : β)
    (hws : wsThenLazy check (' ' :: g ++ tail) = some (g, b)) :
    barLazyScan check ((' ' :: '|' :: ' ' :: g) ++ tail) = some (g, b) := by
  rw [show ((' ' :: '|' :: ' ' :: g) ++ tail) = ' ' :: '|' :: (' ' :: g ++ tail) from by simp]
  rw [barLazyScan, if_neg (by decide)]
  rw [barLazyScan, if_pos rfl, hws]
  rfl


theorem headD_take (l : List Char) (d : Char) (m : ℕ) (hm : 1 ≤ m) :
    (l.take m).headD d = l.headD d := by
  cases l with
  | nil => simp
  | cons c t =>
    cases m with
    | zero => omega
    | succ k => simp [List.take_succ_cons]

theorem label_dropWhile_shape :
    ∀ (s : List Char), s ≠ [] →
      (∀ c ∈ s, alphaCh c = true ∨ c = ' ') →
      alphaCh (s.reverse.headD ' ') = true →
      ∃ c t, s.dropWhile wsCh = c :: t ∧ alphaCh c = true
  | [], h, _, _ => absurd rfl h
  | [c], _, _, hlast => by
    have hc : alphaCh c = true := by simpa using hlast
    exact ⟨c, [], by rw [List.dropWhile_cons_of_neg (by simp [alpha_not_ws c hc])], hc⟩
  | c :: c2 :: s, _, hch, hlast => by
    rcases hch c (List.mem_cons_self _ _) with hc | hc
    · exact ⟨c, c2 :: s,
        by rw [List.dropWhile_cons_of_neg (by simp [alpha_not_ws c hc])], hc⟩
    · have hrev : (c :: c2 :: s).reverse.headD ' ' = (c2 :: s).reverse.headD ' ' := by
        rw [List.reverse_cons]
        cases hr : (c2 :: s).reverse with
        | nil => exact absurd hr (by simp)
        | cons x xs => simp [hr]
      have hlast2 : alphaCh ((c2 :: s).reverse.headD ' ') = true := by
        rwa [hrev] at hlast
      obtain ⟨x, t, hxt, hx⟩ := label_dropWhile_shape (c2 :: s) (by simp)
        (fun d hd => hch d (List.mem_cons_of_mem c hd)) hlast2
      subst hc
      exact ⟨x, t, by rw [List.dropWhile_cons_of_pos (by decide), hxt], hx⟩

theorem suffix_shape (g : List Char) (j : ℕ) (hj2 : j < g.length)
    (hch : ∀ c ∈ g, alphaCh c = true ∨ c = ' ')
    (hlast : alphaCh (g.reverse.headD ' ') = true) :
    ∃ c t, (g.drop j).dropWhile wsCh = c :: t ∧ alphaCh c = true := by
  refine label_dropWhile_shape (g.drop j) ?_ ?_ ?_
  · apply List.ne_nil_of_length_pos
    rw [List.length_drop]
    omega
  · exact fun c hc => hch c (List.mem_of_mem_drop hc)
  · rw [List.reverse_drop, headD_take g.reverse ' ' (g.length - j) (by omega)]
    exact hlast

theorem barTail_suffix_false (g tail : List Char) (j : ℕ)
    (hj2 : j < g.length)
    (hch : ∀ c ∈ g, alphaCh c = true ∨ c = ' ')
    (hlast : alphaCh (g.reverse.headD ' ') = true) :
    barTail (g.drop j ++ tail) = false := by
  obtain ⟨c0, t0, hct⟩ : ∃ c0 t0, g.drop j = c0 :: t0 := by
    cases hd : g.drop j with
    | nil =>
      exfalso
      have := congrArg List.length hd
      rw [List.length_drop] at this
      simp at this
      omega
    | cons c0 t0 => exact ⟨c0, t0, rfl⟩
  have hc0g : c0 ∈ g := List.mem_of_mem_drop (hct ▸ List.mem_cons_self c0 t0)
  rcases hch c0 hc0g with hc | hc
  · rw [hct, List.cons_append]
    simp [barTail, alpha_not_ws c0 hc]
  · obtain ⟨x, t', hxt, hx⟩ := suffix_shape g j hj2 hch hlast
    have hne2 : (g.drop j).dropWhile wsCh ≠ [] := by rw [hxt]; simp
    have hdw : ((g.drop j) ++ tail).dropWhile wsCh = (x :: t') ++ tail := by
      rw [dropWhile_append_stop wsCh (g.drop j) tail hne2, hxt]
    rw [hct] at hdw
    rw [hct, List.cons_append]
    subst hc
    rw [show barTail (' ' :: (t0 ++ tail)) =
      (wsCh ' ' && (((' ' :: (t0 ++ tail)).dropWhile wsCh).head? == some '|')) from rfl]
    rw [show (' ' :: (t0 ++ tail)).dropWhile wsCh = ((' ' :: t0) ++ tail).dropWhile wsCh from by
      rw [List.cons_append]]
    rw [hdw]
    simp [alpha_ne x '|' hx (by decide)]

theorem pctTail_suffix_none (g tail : List Char) (j : ℕ)
    (hj2 : j < g.length)
    (hch : ∀ c ∈ g, alphaCh c = true ∨ c = ' ')
    (hlast : alphaCh (g.reverse.headD ' ') = true) :
    pctTail (g.drop j ++ tail) = none := by
  obtain ⟨c0, t0, hct⟩ : ∃ c0 t0, g.drop j = c0 :: t0 := by
    cases hd : g.drop j with
    | nil =>
      exfalso
      have := congrArg List.length hd
      rw [List.length_drop] at this
      simp at this
      omega
    | cons c0 t0 => exact ⟨c0, t0, rfl⟩
  have hc0g : c0 ∈ g := List.mem_of_mem_drop (hct ▸ List.mem_cons_self c0 t0)
  rcases hch c0 hc0g with hc | hc
  · rw [hct, List.cons_append]
    simp [pctTail, alpha_not_ws c0 hc]
  · obtain ⟨x, t', hxt, hx⟩ := suffix_shape g j hj2 hch hlast
    have hne2 : (g.drop j).dropWhile wsCh ≠ [] := by rw [hxt]; simp
    have hdw : ((g.drop j) ++ tail).dropWhile wsCh = (x :: t') ++ tail := by
      rw [dropWhile_append_stop wsCh (g.drop j) tail hne2, hxt]
    rw [hct] at hdw
    rw [hct, List.cons_append]
    subst hc
    rw [show pctTail (' ' :: (t0 ++ tail)) =
      (if wsCh ' ' = true then
        (let rest := (' ' :: (t0 ++ tail)).dropWhile wsCh
         let num := rest.takeWhile numCh
         if num.isEmpty = false ∧ (rest.drop num.length).head? = some '%' then some num
         else none)
       else none) from rfl]
    rw [if_pos (by decide)]
    rw [show (' ' :: (t0 ++ tail)).dropWhile wsCh = ((' ' :: t0) ++ tail).dropWhile wsCh from by
      rw [List.cons_append]]
    rw [hdw]
    simp only [List.cons_append,
      List.takeWhile_cons_of_neg (show ¬ numCh x = true from by simp [alpha_not_num x hx])]
    simp

theorem containsSeq_false (pat : List Char) (c0 : Char) (hc0 : c0 ∈ pat) :
    ∀ l : List Char, (∀ c ∈ l, c ≠ c0) → containsSeq pat l = false
  | [], _ => by
    cases pat with
    | nil => exact absurd hc0 (List.not_mem_nil c0)
    | cons p ps => rfl
  | c :: rest, h => by
    have hp : pat.isPrefixOf (c :: rest) = false := by
      cases hb : pat.isPrefixOf (c :: rest)
      · rfl
      · have hmem : c0 ∈ c :: rest := (List.isPrefixOf_iff_prefix.mp hb).sublist.subset hc0
        exact absurd rfl (h c0 hmem)
    rw [containsSeq, hp]
    simp only [Bool.false_or]
    exact containsSeq_false pat c0 hc0 rest (fun x hx => h x (List.mem_cons_of_mem c hx))

theorem litScan_none_strong (lit : List Char) (after : List Char → Option β)
    (hne : lit ≠ []) :
    ∀ l : List Char,
      (∀ s : List Char, s <:+ l → lit.isPrefixOf s = true →
        after (s.drop lit.length) = none) →
      litScan lit after l = none
  | [], _ => by
    rw [litScan, if_neg (by simpa using hne)]
  | c :: rest, h => by
    have h2 : litScan lit after rest = none :=
      litScan_none_strong lit after hne rest
        (fun s hs hp2 => h s (hs.trans (List.suffix_cons c rest)) hp2)
    cases hp : lit.isPrefixOf (c :: rest) with
    | true =>
      have h1 : after ((c :: rest).drop lit.length) = none :=
        h (c :: rest) (List.suffix_refl _) hp
      simp only [litScan]
      rw [hp]
      simp [h1, h2]
    | false =>
      simp only [litScan]
      rw [hp]
      simp [h2]

theorem splitCh_ne_nil (sep : Char) : ∀ l : List Char, splitCh sep l ≠ []
  | [] => by simp [splitCh]
  | c :: rest => by
    rw [splitCh]
    cases h : splitCh sep rest with
    | nil => simp only [h]; split <;> simp
    | cons a t => simp only [h]; split <;> simp

theorem splitCh_no_sep (sep : Char) : ∀ l : List Char, sep ∉ l → splitCh sep l = [l]
  | [], _ => rfl
  | c :: rest, h => by
    rw [splitCh, splitCh_no_sep sep rest (fun hm => h (List.mem_cons_of_mem c hm))]
    have hc : ¬ c = sep := fun hc => h (hc ▸ List.mem_cons_self c rest)
    simp [hc]

theorem splitCh_sep_append (sep : Char) :
    ∀ (a m : List Char), sep ∉ a → splitCh sep (a ++ sep :: m) = a :: splitCh sep m
  | [], m, _ => by
    rw [List.nil_append, splitCh]
    cases h : splitCh sep m with
    | nil => exact absurd h (splitCh_ne_nil sep m)
    | cons x t => simp
  | c :: a, m, h => by
    rw [List.cons_append, splitCh,
      splitCh_sep_append sep a m (fun hm => h (List.mem_cons_of_mem c hm))]
    have hc : ¬ c = sep := fun hc => h (hc ▸ List.mem_cons_self c a)
    simp [hc]

theorem splitCh_joinCh (sep : Char) :
    ∀ ls : List (List Char), ls ≠ [] → (∀ l ∈ ls, sep ∉ l) →
      splitCh sep (joinCh sep ls) = ls
  | [], h, _ => absurd rfl h
  | [l], _, h => by
    rw [show joinCh sep [l] = l from rfl]
    exact splitCh_no_sep sep l (h l (List.mem_cons_self _ _))
  | l :: l2 :: ls, _, h => by
    rw [show joinCh sep (l :: l2 :: ls) = l ++ sep :: joinCh sep (l2 :: ls) from rfl]
    rw [splitCh_sep_append sep l _ (h l (List.mem_cons_self _ _))]
    rw [splitCh_joinCh sep (l2 :: ls) (by simp)
      (fun x hx => h x (List.mem_cons_of_mem l hx))]

theorem jsSplit_jsJoin (ls : List String) (hne : ls ≠ [])
    (h : ∀ s ∈ ls, '\n' ∉ s.data) : jsSplit '\n' (jsJoin '\n' ls) = ls := by
  rw [jsSplit, jsJoin]
  rw [show (String.mk (joinCh '\n' (ls.map String.data))).data =
    joinCh '\n' (ls.map String.data) from rfl]
  rw [splitCh_joinCh '\n' (ls.map String.data) (by simpa using hne)
    (fun l hl => by
      obtain ⟨s, hs, rfl⟩ := List.mem_map.1 hl
      exact h s hs)]
  rw [List.map_map]
  have h2 : ls.map (String.mk ∘ String.data) = ls.map id :=
    List.map_eq_map_iff.mpr (fun s _ => rfl)
  rw [h2, List.map_id]

theorem charsToNat_append_digit (l : List Char) (c : Char) :
    charsToNat (l ++ [c]) = 10 * charsToNat l + (c.toNat - 48) := by
  rw [charsToNat, charsToNat, List.foldl_append]
  rfl

theorem natDigits_ne_nil (n : ℕ) : natDigits n ≠ [] := by
  rw [natDigits]
  split <;> simp

theorem natDigits_all_digit (n : ℕ) : ∀ c ∈ natDigits n, digitCh c = true := by
  induction n using Nat.strong_induction_on with
  | _ n ih =>
    intro c hc
    rw [natDigits] at hc
    by_cases h : n < 10
    · rw [dif_pos h] at hc
      simp only [List.mem_singleton] at hc
      subst hc
      have ht : (Char.ofNat (48 + n)).toNat = 48 + n := toNat_ofNat_small _ (by omega)
      simp only [digitCh, decide_eq_true_eq]
      constructor
      · show (48 : ℕ) ≤ (Char.ofNat (48 + n)).toNat
        rw [ht]
        omega
      · show (Char.ofNat (48 + n)).toNat ≤ 57
        rw [ht]
        omega
    · rw [dif_neg h] at hc
      rcases List.mem_append.1 hc with h2 | h2
      · exact ih (n / 10) (Nat.div_lt_self (by omega) (by omega)) c h2
      · simp only [List.mem_singleton] at h2
        subst h2
        have hm : n % 10 < 10 := Nat.mod_lt n (by omega)
        have ht : (Char.ofNat (48 + n % 10)).toNat = 48 + n % 10 :=
          toNat_ofNat_small _ (by omega)
        simp only [digitCh, decide_eq_true_eq]
        constructor
        · show (48 : ℕ) ≤ (Char.ofNat (48 + n % 10)).toNat
          rw [ht]
          omega
        · show (Char.ofNat (48 + n % 10)).toNat ≤ 57
          rw [ht]
          omega

theorem charsToNat_natDigits (n : ℕ) : charsToNat (natDigits n) = n := by
  induction n using Nat.strong_induction_on with
  | _ n ih =>
    rw [natDigits]
    by_cases h : n < 10
    · rw [dif_pos h]
      have ht : (Char.ofNat (48 + n)).toNat = 48 + n := toNat_ofNat_small _ (by omega)
      rw [show charsToNat [Char.ofNat (48 + n)] =
        10 * 0 + ((Char.ofNat (48 + n)).toNat - 48) from rfl, ht]
      omega
    · rw [dif_neg h, charsToNat_append_digit,
        ih (n / 10) (Nat.div_lt_self (by omega) (by omega))]
      have hm : n % 10 < 10 := Nat.mod_lt n (by omega)
      have ht : (Char.ofNat (48 + n % 10)).toNat = 48 + n % 10 :=
        toNat_ofNat_small _ (by omega)
      rw [ht]
      omega

theorem jsTrim_goodLabel (s : String) (h : goodLabel s) : jsTrim s = s := by
  obtain ⟨hne, hch, hhead, hlast⟩ := h
  refine str_ext ?_
  show trimCh s.data = s.data
  rw [trimCh]
  obtain ⟨c, t, hct⟩ : ∃ c t, s.data = c :: t := by
    cases hd : s.data with
    | nil => exact absurd hd hne
    | cons c t => exact ⟨c, t, rfl⟩
  have hcalpha : alphaCh c = true := by
    rw [hct] at hhead
    simpa using hhead
  have h1 : s.data.dropWhile wsCh = s.data := by
    rw [hct, List.dropWhile_cons_of_neg (by simp [alpha_not_ws c hcalpha])]
  obtain ⟨c2, t2, hct2⟩ : ∃ c2 t2, s.data.reverse = c2 :: t2 := by
    cases hd : s.data.reverse with
    | nil =>
      exfalso
      have := congrArg List.reverse hd
      rw [List.reverse_reverse] at this
      exact hne (by simpa using this)
    | cons c2 t2 => exact ⟨c2, t2, rfl⟩
  have hc2alpha : alphaCh c2 = true := by
    rw [hct2] at hlast
    simpa using hlast
  have h2 : s.data.reverse.dropWhile wsCh = s.data.reverse := by
    rw [hct2, List.dropWhile_cons_of_neg (by simp [alpha_not_ws c2 hc2alpha])]
  rw [h1, h2, List.reverse_reverse]


theorem goodLabel_hch (s : String) (hs : goodLabel s) :
    ∀ c ∈ s.data, alphaCh c = true ∨ c = ' ' := hs.2.1

theorem goodLabel_last_alpha (s : String) (hs : goodLabel s) :
    alphaCh (s.data.reverse.headD ' ') = true := hs.2.2.2

theorem goodLabel_head_not_ws (s : String) (hs : goodLabel s) :
    ∀ c t, s.data = c :: t → wsCh c = false := by
  intro c t hct
  have h := hs.2.2.1
  rw [hct] at h
  exact alpha_not_ws c (by simpa using h)

theorem goodLabel_not_crlf (s : String) (hs : goodLabel s) :
    ∀ c ∈ s.data, ¬ (c = '\n' ∨ c = '\r') := by
  intro c hc h
  have h2 := hs.2.1 c hc
  rcases h with h | h <;> subst h <;> rcases h2 with h3 | h3 <;> exact absurd h3 (by decide)

theorem chars_ne_of_parts (x : Char) (a : List Char) (s : String) (b : List Char)
    (hs : goodLabel s) (ha : ∀ c ∈ a, c ≠ x) (hb : ∀ c ∈ b, c ≠ x)
    (hx : alphaCh x = false) (hsp : ¬ x = ' ') :
    ∀ c ∈ a ++ s.data ++ b, c ≠ x := by
  intro c hc
  rcases List.mem_append.1 hc with hc2 | hc2
  · rcases List.mem_append.1 hc2 with hc3 | hc3
    · exact ha c hc3
    · rcases hs.2.1 c hc3 with h | h
      · exact alpha_ne c x h hx
      · rw [h]
        intro he
        exact hsp he.symm
  · exact hb c hc2

theorem chars_ne_of_digit_parts (x : Char) (a m b : List Char)
    (hm : ∀ c ∈ m, digitCh c = true) (ha : ∀ c ∈ a, c ≠ x) (hb : ∀ c ∈ b, c ≠ x)
    (hx : digitCh x = false) :
    ∀ c ∈ a ++ m ++ b, c ≠ x := by
  intro c hc
  rcases List.mem_append.1 hc with hc2 | hc2
  · rcases List.mem_append.1 hc2 with hc3 | hc3
    · exact ha c hc3
    · exact digit_ne c x (hm c hc3) hx
  · exact hb c hc2

theorem isPrefixOf_false_headD (lit : List Char) (b : Char) (bs : List Char)
    (hne : lit ≠ []) (h : ¬ lit.headD ' ' = b) : lit.isPrefixOf (b :: bs) = false := by
  cases lit with
  | nil => exact absurd rfl hne
  | cons x xs =>
    have hx : ¬ x = b := by simpa using h
    show (x == b && xs.isPrefixOf bs) = false
    simp [hx]

theorem litScan_cons_neg {γ : Type} (lit : List Char) (after : List Char → Option γ)
    (c : Char) (rest : List Char) (h : lit.isPrefixOf (c :: rest) = false) :
    litScan lit after (c :: rest) = litScan lit after rest := by
  rw [litScan, h]
  simp

theorem litScan_prefix_pos {γ : Type} (lit : List Char) (after : List Char → Option γ)
    (t : List Char) (b : γ) (hne : lit ≠ []) (h2 : after t = some b) :
    litScan lit after (lit ++ t) = some b := by
  obtain ⟨x, xs, hx⟩ : ∃ x xs, lit = x :: xs := by
    cases lit with
    | nil => exact absurd rfl hne
    | cons x xs => exact ⟨x, xs, rfl⟩
  subst hx
  rw [List.cons_append, litScan]
  have hp : (x :: xs).isPrefixOf (x :: (xs ++ t)) = true := by
    rw [← List.cons_append]
    exact List.isPrefixOf_iff_prefix.mpr (List.prefix_append _ _)
  rw [hp, if_pos rfl]
  have hd : (x :: (xs ++ t)).drop (x :: xs).length = t := by
    rw [← List.cons_append]
    exact List.drop_left _ _
  rw [hd, h2]
  rfl

theorem litScan_not_mem {γ : Type} (lit : List Char) (after : List Char → Option γ)
    (c0 : Char) (hc0 : c0 ∈ lit) (l : List Char) (h : ∀ c ∈ l, c ≠ c0) :
    litScan lit after l = none := by
  refine litScan_none_strong lit after (List.ne_nil_of_mem hc0) l ?_
  intro s hs hp
  exact absurd rfl
    (h c0 (hs.sublist.subset ((List.isPrefixOf_iff_prefix.mp hp).sublist.subset hc0)))

theorem rawCountMatch_count (count : ℕ) :
    rawCountMatch (" | Raw count: " ++ String.mk (natDigits count) ++ " |") = some count := by
  have hnd : (natDigits count).dropWhile wsCh = natDigits count := by
    cases hd : natDigits count with
    | nil => rfl
    | cons c t =>
      rw [List.dropWhile_cons_of_neg]
      simp [digit_not_ws c (natDigits_all_digit count c (hd ▸ List.mem_cons_self c t))]
  rw [rawCountMatch]
  rw [show (" | Raw count: " ++ String.mk (natDigits count) ++ " |").data =
    ' ' :: '|' :: ' ' :: ("Raw count:".data ++ (' ' :: (natDigits count ++ [' ', '|']))) from rfl]
  rw [litScan_cons_neg _ _ _ _ (isPrefixOf_false_headD _ _ _ (by decide) (by decide))]
  rw [litScan_cons_neg _ _ _ _ (isPrefixOf_false_headD _ _ _ (by decide) (by decide))]
  rw [litScan_cons_neg _ _ _ _ (isPrefixOf_false_headD _ _ _ (by decide) (by decide))]
  refine litScan_prefix_pos _ _ _ _ (by decide) ?_
  show (if ((((' ' :: (natDigits count ++ [' ', '|'])).dropWhile wsCh).takeWhile digitCh).isEmpty = true)
      then none
      else some (charsToNat (((' ' :: (natDigits count ++ [' ', '|'])).dropWhile wsCh).takeWhile digitCh)))
    = some count
  rw [List.dropWhile_cons_of_pos (by decide),
    dropWhile_append_stop wsCh _ _ (by rw [hnd]; exact natDigits_ne_nil count), hnd,
    takeWhile_append_stop digitCh _ _ (natDigits_all_digit count)
      (fun c t h => by injection h with h1 h2; subst h1; decide)]
  rw [if_neg (by intro hcond; exact natDigits_ne_nil count (by simpa using hcond)),
    charsToNat_natDigits]

theorem avgWeightMatch_no_colon (line : String) (h : ∀ c ∈ line.data, c ≠ ':') :
    avgWeightMatch line = none := by
  rw [avgWeightMatch]
  refine litScan_none_strong _ _ (by decide) line.data ?_
  intro s hs hp
  have hpf : "weight:".data.isPrefixOf ((s.drop "Avg.".data.length).dropWhile wsCh) = false := by
    cases hb : "weight:".data.isPrefixOf ((s.drop "Avg.".data.length).dropWhile wsCh)
    · rfl
    · exfalso
      have h1 : ':' ∈ (s.drop "Avg.".data.length).dropWhile wsCh :=
        (List.isPrefixOf_iff_prefix.mp hb).sublist.subset (by decide)
      have h2 : ':' ∈ line.data :=
        hs.sublist.subset (List.drop_subset _ _ (List.dropWhile_subset _ h1))
      exact h ':' h2 rfl
  simp only [hpf]
  simp


theorem barContent_nameRow (s : String) (hs : goodLabel s) :
    barContent (" | " ++ s ++ " |") = some s := by
  rw [barContent]
  rw [show (" | " ++ s ++ " |").data = (' ' :: '|' :: ' ' :: s.data) ++ [' ', '|'] from rfl]
  rw [barLazyScan_frame (fun l => if barTail l then some () else none) s.data [' ', '|'] ()
    (wsThenLazy_single (fun l => if barTail l then some () else none) s.data [' ', '|'] ()
      hs.1 (goodLabel_head_not_ws s hs)
      (lazyGroup_exact (fun l => if barTail l then some () else none) () s.data [' ', '|']
        hs.1 (goodLabel_not_crlf s hs)
        (fun j _ hj2 => by
          have hb := barTail_suffix_false s.data [' ', '|'] j hj2 (goodLabel_hch s hs)
            (goodLabel_last_alpha s hs)
          simp [hb])
        rfl))]
  rfl

theorem pctMatch_row100 (s : String) (hs : goodLabel s) :
    pctMatch (" | " ++ s ++ " 100.000% |") = some (s, "100.000".data) := by
  rw [pctMatch]
  rw [show (" | " ++ s ++ " 100.000% |").data =
    (' ' :: '|' :: ' ' :: s.data) ++ (' ' :: "100.000% |".data) from rfl]
  rw [barLazyScan_frame pctTail s.data (' ' :: "100.000% |".data) "100.000".data
    (wsThenLazy_single pctTail s.data (' ' :: "100.000% |".data) "100.000".data
      hs.1 (goodLabel_head_not_ws s hs)
      (lazyGroup_exact pctTail "100.000".data s.data (' ' :: "100.000% |".data)
        hs.1 (goodLabel_not_crlf s hs)
        (fun j _ hj2 => pctTail_suffix_none s.data (' ' :: "100.000% |".data) j hj2
          (goodLabel_hch s hs) (goodLabel_last_alpha s hs))
        rfl))]
  rfl

theorem startsWith_row (s t : String) :
    jsStartsWith (" | " ++ s ++ t) " |" = true := rfl

theorem includes_plus_label (s : String) (hs : goodLabel s) :
    jsIncludes (" | " ++ s ++ " |") "+---" = false := by
  show containsSeq "+---".data (" | " ++ s ++ " |").data = false
  rw [show (" | " ++ s ++ " |").data = [' ', '|', ' '] ++ s.data ++ [' ', '|'] from rfl]
  exact containsSeq_false _ '+' (by decide) _
    (chars_ne_of_parts '+' _ s _ hs (by decide) (by decide) (by decide) (by decide))

theorem includes_plus_pct (s : String) (hs : goodLabel s) :
    jsIncludes (" | " ++ s ++ " 100.000% |") "+---" = false := by
  show containsSeq "+---".data (" | " ++ s ++ " 100.000% |").data = false
  rw [show (" | " ++ s ++ " 100.000% |").data =
    [' ', '|', ' '] ++ s.data ++ " 100.000% |".data from rfl]
  exact containsSeq_false _ '+' (by decide) _
    (chars_ne_of_parts '+' _ s _ hs (by decide) (by decide) (by decide) (by decide))

theorem includes_plus_raw (count : ℕ) :
    jsIncludes (" | Raw count: " ++ String.mk (natDigits count) ++ " |") "+---" = false := by
  show containsSeq "+---".data
    (" | Raw count: " ++ String.mk (natDigits count) ++ " |").data = false
  rw [show (" | Raw count: " ++ String.mk (natDigits count) ++ " |").data =
    " | Raw count: ".data ++ natDigits count ++ [' ', '|'] from rfl]
  exact containsSeq_false _ '+' (by decide) _
    (chars_ne_of_digit_parts '+' _ _ _ (natDigits_all_digit count)
      (by decide) (by decide) (by decide))

theorem parseFloat_100 : parseFloatCapture "100.000".data = some 100 := by
  have h2 : ((charsToNat "100".data : ℚ) +
      (charsToNat "000".data : ℚ) / (10 : ℚ) ^ ("000".data.length)) = 100 := by
    rw [show charsToNat "100".data = 100 from by decide,
      show charsToNat "000".data = 0 from by decide,
      show ("000".data.length) = 3 from by decide]
    norm_num
  rw [show parseFloatCapture "100.000".data =
      some ((charsToNat "100".data : ℚ) +
        (charsToNat "000".data : ℚ) / (10 : ℚ) ^ ("000".data.length)) from rfl, h2]

theorem parsePercentageMap_row100 (s : String) (hs : goodLabel s) (mp : ℚ)
    (hmp : mp ≤ 100) (m : List (String × ℚ)) :
    parsePercentageMap [" | " ++ s ++ " 100.000% |"] mp m = mset (jsToLower s) 100 m := by
  simp only [parsePercentageMap, List.foldl_cons, List.foldl_nil,
    pctMatch_row100 s hs,
    show parseFloatCapture ['1', '0', '0', '.', '0', '0', '0'] = some 100 from parseFloat_100]
  rw [if_pos hmp, jsTrim_goodLabel s hs]

theorem parseSection_abilities_row (s : String) (hs : goodLabel s) (d : PokemonUsageData) :
    parseSection "Abilities" [" | " ++ s ++ " 100.000% |"] d {} =
      { d with abilities := mset (jsToLower s) 100 d.abilities } := by
  simp only [parseSection]
  rw [if_pos (show jsToLower "Abilities" = "abilities" from by decide)]
  rw [parsePercentageMap_row100 s hs 0 (by norm_num) d.abilities]

theorem parseSection_moves_row (s : String) (hs : goodLabel s) (d : PokemonUsageData) :
    parseSection "Moves" [" | " ++ s ++ " 100.000% |"] d {} =
      { d with moves := mset (jsToLower s) 100 d.moves } := by
  simp only [parseSection]
  rw [if_neg (show ¬ jsToLower "Moves" = "abilities" from by decide)]
  rw [if_neg (show ¬ jsToLower "Moves" = "items" from by decide)]
  rw [if_neg (show ¬ (jsToLower "Moves" = "spreads" ∧
    ({} : ParseOptions).includeSpreads ≠ some false) from by decide)]
  rw [if_pos (show jsToLower "Moves" = "moves" from by decide)]
  rw [show ({} : ParseOptions).minMovePercentage.getD 0 = 0 from rfl]
  rw [parsePercentageMap_row100 s hs 0 (by norm_num) d.moves]

theorem parseMetadata_nil (d : PokemonUsageData) : parseMetadata [] d = d := rfl

theorem parseMetadata_cons (line : String) (rest : List String) (d : PokemonUsageData) :
    parseMetadata (line :: rest) d = parseMetadata rest (metaStep d line) := rfl

theorem metaStep_raw (line : String) (d : PokemonUsageData) (n : ℕ)
    (h1 : rawCountMatch line = some n) (h2 : avgWeightMatch line = none)
    (h3 : viabilityMatch line = none) :
    metaStep d line = { d with rawCount := n } := by
  simp only [metaStep, h1, h2, h3]

theorem metaStep_skip (line : String) (d : PokemonUsageData)
    (h1 : rawCountMatch line = none) (h2 : avgWeightMatch line = none)
    (h3 : viabilityMatch line = none) :
    metaStep d line = d := by
  simp only [metaStep, h1, h2, h3]

set_option maxHeartbeats 2000000 in
theorem parseMetadata_block (ability : String) (hab : goodLabel ability) (count : ℕ)
    (d : PokemonUsageData) :
    parseMetadata
      [" | Raw count: " ++ String.mk (natDigits count) ++ " |", " +----------+",
       " | Abilities |", " | " ++ ability ++ " 100.000% |", " +----------+"] d =
      { d with rawCount := count } := by
  have h6colon : ∀ c ∈ (" | " ++ ability ++ " 100.000% |").data, c ≠ ':' := by
    rw [show (" | " ++ ability ++ " 100.000% |").data =
      [' ', '|', ' '] ++ ability.data ++ " 100.000% |".data from rfl]
    exact chars_ne_of_parts ':' _ ability _ hab (by decide) (by decide) (by decide) (by decide)
  have h3dot : ∀ c ∈ (" | Raw count: " ++ String.mk (natDigits count) ++ " |").data, c ≠ '.' := by
    rw [show (" | Raw count: " ++ String.mk (natDigits count) ++ " |").data =
      " | Raw count: ".data ++ natDigits count ++ [' ', '|'] from rfl]
    exact chars_ne_of_digit_parts '.' _ _ _ (natDigits_all_digit count)
      (by decide) (by decide) (by decide)
  have h3V : ∀ c ∈ (" | Raw count: " ++ String.mk (natDigits count) ++ " |").data, c ≠ 'V' := by
    rw [show (" | Raw count: " ++ String.mk (natDigits count) ++ " |").data =
      " | Raw count: ".data ++ natDigits count ++ [' ', '|'] from rfl]
    exact chars_ne_of_digit_parts 'V' _ _ _ (natDigits_all_digit count)
      (by decide) (by decide) (by decide)
  have hmr := rawCountMatch_count count
  have hma : avgWeightMatch (" | Raw count: " ++ String.mk (natDigits count) ++ " |") = none := by
    rw [avgWeightMatch]; exact litScan_not_mem _ _ '.' (by decide) _ h3dot
  have hmv : viabilityMatch (" | Raw count: " ++ String.mk (natDigits count) ++ " |") = none := by
    rw [viabilityMatch]; exact litScan_not_mem _ _ 'V' (by decide) _ h3V
  have h6r : rawCountMatch (" | " ++ ability ++ " 100.000% |") = none := by
    rw [rawCountMatch]; exact litScan_not_mem _ _ ':' (by decide) _ h6colon
  have h6a := avgWeightMatch_no_colon _ h6colon
  have h6v : viabilityMatch (" | " ++ ability ++ " 100.000% |") = none := by
    rw [viabilityMatch]; exact litScan_not_mem _ _ ':' (by decide) _ h6colon
  rw [parseMetadata_cons, metaStep_raw _ _ count hmr hma hmv]
  rw [parseMetadata_cons, metaStep_skip _ _ (by decide) (by decide) (by decide)]
  rw [parseMetadata_cons, metaStep_skip _ _ (by decide) (by decide) (by decide)]
  rw [parseMetadata_cons, metaStep_skip _ _ h6r h6a h6v]
  rw [parseMetadata_cons, metaStep_skip _ _ (by decide) (by decide) (by decide)]
  rw [parseMetadata_nil]


set_option maxHeartbeats 1000000 in
theorem parseEntryGo_abilities (ability move : String) (hab : goodLabel ability)
    (hmv : goodLabel move) (cur : String) (b : Bool) (d : PokemonUsageData) :
    parseEntryGo {}
      [" +----------+", " | Abilities |", " | " ++ ability ++ " 100.000% |",
       " +----------+", " | Moves |", " | " ++ move ++ " 100.000% |", " +----------+"]
      cur [] b d =
      { d with abilities := mset (jsToLower ability) 100 d.abilities,
               moves := mset (jsToLower move) 100 d.moves } := by
  rw [parseEntryGo]
  rw [if_pos (show jsIncludes " +----------+" "+---" = true from by decide)]
  rw [if_neg (show ¬ (cur ≠ "" ∧ ([] : List String) ≠ []) from by simp)]
  simp only [show barContent " | Abilities |" = some "Abilities" from by decide,
    show jsTrim "Abilities" = "Abilities" from by decide]
  rw [if_pos (show ¬ (jsIncludes "Abilities" "Raw count" = true ∨
    jsIncludes "Abilities" "Avg" = true ∨
    jsIncludes "Abilities" "Viability" = true) from by decide)]
  rw [parseEntryGo, includes_plus_pct ability hab]
  simp only [Bool.false_eq_true, if_false]
  rw [if_pos (show True ∧
    jsStartsWith (" | " ++ ability ++ " 100.000% |") " |" = true from
    ⟨trivial, startsWith_row ability " 100.000% |"⟩)]
  simp only [List.nil_append]
  rw [parseEntryGo]
  rw [if_pos (show jsIncludes " +----------+" "+---" = true from by decide)]
  rw [if_pos (show ("Abilities" : String) ≠ "" ∧
    [" | " ++ ability ++ " 100.000% |"] ≠ [] from ⟨by decide, by simp⟩)]
  rw [parseSection_abilities_row ability hab d]
  simp only [show barContent " | Moves |" = some "Moves" from by decide,
    show jsTrim "Moves" = "Moves" from by decide]
  rw [if_pos (show ¬ (jsIncludes "Moves" "Raw count" = true ∨
    jsIncludes "Moves" "Avg" = true ∨
    jsIncludes "Moves" "Viability" = true) from by decide)]
  rw [parseEntryGo, includes_plus_pct move hmv]
  simp only [Bool.false_eq_true, if_false]
  rw [if_pos (show True ∧
    jsStartsWith (" | " ++ move ++ " 100.000% |") " |" = true from
    ⟨trivial, startsWith_row move " 100.000% |"⟩)]
  simp only [List.nil_append]
  rw [parseEntryGo]
  rw [if_pos (show jsIncludes " +----------+" "+---" = true from by decide)]
  rw [if_pos (show ("Moves" : String) ≠ "" ∧
    [" | " ++ move ++ " 100.000% |"] ≠ [] from ⟨by decide, by simp⟩)]
  rw [parseSection_moves_row move hmv]


set_option maxHeartbeats 1000000 in
theorem parseEntryGo_block (name ability move : String) (count : ℕ)
    (hname : goodLabel name) (hab : goodLabel ability) (hmv : goodLabel move)
    (d : PokemonUsageData) :
    parseEntryGo {}
      [" | " ++ name ++ " |", " +----------+",
       " | Raw count: " ++ String.mk (natDigits count) ++ " |", " +----------+",
       " | Abilities |", " | " ++ ability ++ " 100.000% |", " +----------+",
       " | Moves |", " | " ++ move ++ " 100.000% |", " +----------+"]
      "" [] false d =
      { d with abilities := mset (jsToLower ability) 100 d.abilities,
               moves := mset (jsToLower move) 100 d.moves } := by
  rw [parseEntryGo, includes_plus_label name hname]
  simp only [Bool.false_eq_true, if_false, false_and]
  rw [parseEntryGo]
  rw [if_pos (show jsIncludes " +----------+" "+---" = true from by decide)]
  rw [if_neg (show ¬ (("" : String) ≠ "" ∧ ([] : List String) ≠ []) from by simp)]
  cases hbc : barContent (" | Raw count: " ++ String.mk (natDigits count) ++ " |") with
  | none =>
    simp only [hbc]
    rw [parseEntryGo, includes_plus_raw count]
    simp only [Bool.false_eq_true, if_false, false_and]
    exact parseEntryGo_abilities ability move hab hmv "" false d
  | some g =>
    simp only [hbc]
    by_cases hg : jsIncludes (jsTrim g) "Raw count" = true ∨
      jsIncludes (jsTrim g) "Avg" = true ∨ jsIncludes (jsTrim g) "Viability" = true
    · rw [if_neg (not_not_intro hg)]
      exact parseEntryGo_abilities ability move hab hmv "" false d
    · rw [if_pos hg]
      exact parseEntryGo_abilities ability move hab hmv (jsTrim g) true d


set_option maxHeartbeats 1000000 in
/-- Claim C9: for every hand-built well-formed single-entry text block
with a known raw count, one ability listed at 100% and one move listed
at 100% (labels made of letters and spaces, starting and ending with a
letter), parsing the block yields a profile whose `rawCount` equals the
written count and whose abilities and moves maps contain exactly the
normalized (lowercased, trimmed) labels mapped to 100 — the three
written values round-trip through the parser. -/
theorem parse_roundtrip (name ability move : String) (count : ℕ)
    (hname : goodLabel name) (hab : goodLabel ability) (hmv : goodLabel move) :
    ∃ data, parsePokemonEntry (mkEntryBlock name ability move count) {} = some data ∧
      data.name = name ∧ data.rawCount = count ∧
      data.abilities = [(jsToLower ability, 100)] ∧
      data.moves = [(jsToLower move, 100)] := by
  have hnamerow : ∀ c ∈ (" | " ++ name ++ " |").data, c ≠ '\n' := by
    rw [show (" | " ++ name ++ " |").data = [' ', '|', ' '] ++ name.data ++ [' ', '|'] from rfl]
    exact chars_ne_of_parts '\n' _ name _ hname (by decide) (by decide) (by decide) (by decide)
  have habrow : ∀ c ∈ (" | " ++ ability ++ " 100.000% |").data, c ≠ '\n' := by
    rw [show (" | " ++ ability ++ " 100.000% |").data =
      [' ', '|', ' '] ++ ability.data ++ " 100.000% |".data from rfl]
    exact chars_ne_of_parts '\n' _ ability _ hab (by decide) (by decide) (by decide) (by decide)
  have hmvrow : ∀ c ∈ (" | " ++ move ++ " 100.000% |").data, c ≠ '\n' := by
    rw [show (" | " ++ move ++ " 100.000% |").data =
      [' ', '|', ' '] ++ move.data ++ " 100.000% |".data from rfl]
    exact chars_ne_of_parts '\n' _ move _ hmv (by decide) (by decide) (by decide) (by decide)
  have hcountrow : ∀ c ∈ (" | Raw count: " ++ String.mk (natDigits count) ++ " |").data,
      c ≠ '\n' := by
    rw [show (" | Raw count: " ++ String.mk (natDigits count) ++ " |").data =
      " | Raw count: ".data ++ natDigits count ++ [' ', '|'] from rfl]
    exact chars_ne_of_digit_parts '\n' _ _ _ (natDigits_all_digit count)
      (by decide) (by decide) (by decide)
  have hL : jsSplit '\n' (mkEntryBlock name ability move count) =
      [" +----------+", " | " ++ name ++ " |", " +----------+",
       " | Raw count: " ++ String.mk (natDigits count) ++ " |", " +----------+",
       " | Abilities |", " | " ++ ability ++ " 100.000% |", " +----------+",
       " | Moves |", " | " ++ move ++ " 100.000% |", " +----------+"] := by
    rw [mkEntryBlock]
    refine jsSplit_jsJoin _ (by simp) ?_
    intro s hs
    simp only [List.mem_cons, List.not_mem_nil, or_false] at hs
    rcases hs with rfl | rfl | rfl | rfl | rfl | rfl | rfl | rfl | rfl | rfl | rfl
    · decide
    · exact fun hm => hnamerow '\n' hm rfl
    · decide
    · exact fun hm => hcountrow '\n' hm rfl
    · decide
    · decide
    · exact fun hm => habrow '\n' hm rfl
    · decide
    · decide
    · exact fun hm => hmvrow '\n' hm rfl
    · decide
  refine ⟨{ name := name, rawCount := count, avgWeight := 0, viabilityCeiling := 0,
            abilities := [(jsToLower ability, 100)], items := [], spreads := [],
            moves := [(jsToLower move, 100)], teraTypes := [], teammates := [],
            checksAndCounters := [] }, ?_, rfl, rfl, rfl, rfl⟩
  have hget : (([" +----------+", " | " ++ name ++ " |", " +----------+",
       " | Raw count: " ++ String.mk (natDigits count) ++ " |", " +----------+",
       " | Abilities |", " | " ++ ability ++ " 100.000% |", " +----------+",
       " | Moves |", " | " ++ move ++ " 100.000% |", " +----------+"] : List String).get? 1).bind (fun a => barContent a) =
      barContent (" | " ++ name ++ " |") := rfl
  have hdt : List.take 5 (List.drop 3 ([" +----------+", " | " ++ name ++ " |", " +----------+",
       " | Raw count: " ++ String.mk (natDigits count) ++ " |", " +----------+",
       " | Abilities |", " | " ++ ability ++ " 100.000% |", " +----------+",
       " | Moves |", " | " ++ move ++ " 100.000% |", " +----------+"] : List String)) =
      [" | Raw count: " ++ String.mk (natDigits count) ++ " |", " +----------+",
       " | Abilities |", " | " ++ ability ++ " 100.000% |", " +----------+"] := rfl
  have hd1 : List.drop 1 ([" +----------+", " | " ++ name ++ " |", " +----------+",
       " | Raw count: " ++ String.mk (natDigits count) ++ " |", " +----------+",
       " | Abilities |", " | " ++ ability ++ " 100.000% |", " +----------+",
       " | Moves |", " | " ++ move ++ " 100.000% |", " +----------+"] : List String) =
      [" | " ++ name ++ " |", " +----------+",
       " | Raw count: " ++ String.mk (natDigits count) ++ " |", " +----------+",
       " | Abilities |", " | " ++ ability ++ " 100.000% |", " +----------+",
       " | Moves |", " | " ++ move ++ " 100.000% |", " +----------+"] := rfl
  simp only [parsePokemonEntry, hL]
  rw [hget]
  simp only [barContent_nameRow name hname, jsTrim_goodLabel name hname, hdt, hd1]
  rw [parseMetadata_block ability hab count]
  rw [parseEntryGo_block name ability move count hname hab hmv]
  rfl


theorem parse_roundtrip_witness :
    goodLabel "Snorlax" ∧ goodLabel "Thick Fat" ∧ goodLabel "Body Slam" ∧
    ∃ data, parsePokemonEntry (mkEntryBlock "Snorlax" "Thick Fat" "Body Slam" 1234) {} = some data ∧
      data.name = "Snorlax" ∧ data.rawCount = 1234 ∧
      data.abilities = [(jsToLower "Thick Fat", 100)] ∧
      data.moves = [(jsToLower "Body Slam", 100)] := by
  have h1 : goodLabel "Snorlax" := by
    have h : "Snorlax".data ≠ [] ∧ (∀ c ∈ "Snorlax".data, alphaCh c = true ∨ c = ' ') ∧
        alphaCh ("Snorlax".data.headD ' ') = true ∧
        alphaCh ("Snorlax".data.reverse.headD ' ') = true := by decide
    exact h
  have h2 : goodLabel "Thick Fat" := by
    have h : "Thick Fat".data ≠ [] ∧ (∀ c ∈ "Thick Fat".data, alphaCh c = true ∨ c = ' ') ∧
        alphaCh ("Thick Fat".data.headD ' ') = true ∧
        alphaCh ("Thick Fat".data.reverse.headD ' ') = true := by decide
    exact h
  have h3 : goodLabel "Body Slam" := by
    have h : "Body Slam".data ≠ [] ∧ (∀ c ∈ "Body Slam".data, alphaCh c = true ∨ c = ' ') ∧
        alphaCh ("Body Slam".data.headD ' ') = true ∧
        alphaCh ("Body Slam".data.reverse.headD ' ') = true := by decide
    exact h
  exact ⟨h1, h2, h3, parse_roundtrip "Snorlax" "Thick Fat" "Body Slam" 1234 h1 h2 h3⟩

end Smogon
